import Mathlib

/-!
Lispi: a shallow embedding of the evaluator of `src/src/lispi.c`

The C program is an interpreter for a small Lisp.  Its values (`lval`) and
environments (`lenv`) are heap records; here they are immutable Lean values
and every function that mutates an environment returns the new environment.

Conventions of the embedding

* A C string is a Lean `String`, one character per byte.
* `long` is `Int`; the results of `+`, `-`, `*` and unary minus are wrapped to
  64 bit two's complement (`wrap64`).
* An argument list `lval* a` (always an S-expression in the source) is the
  `List Lval` of its cells.
* A key `lval* k` of `lenv_get`/`lenv_put`/`lenv_def` is the `String` `k->opr`.
* `lval_copy`/`lenv_copy` build a deep copy; values are immutable here, so the
  copy equals the value (`lval_copy_eq`).
* Executions that leave defined C behaviour (reading a field the constructor
  did not set, indexing past `count`, `%` by zero, ...) yield `Fault.undefined`.
* `lval_eval` takes a fuel argument bounding the nesting depth of
  S-expression evaluation; `Fault.fuel` reports exhaustion.
* Text written to `stdout` is not part of the state.
-/

namespace Lispi

/-! ## Values and environments -/

/-- The host functions registered by `lenv_add_builtins`, one constructor per
`lbuiltin` function pointer. -/
inductive Builtin
  | list | head | tail | eval | join
  | add | sub | mul | div | mod | pow | min | max
  | lambda | def_ | put
  | if_ | eq | ne | gt | lt | ge | le
  | and_ | or_ | not_
  | load | error | print
  deriving DecidableEq, Repr

/-- The enumeration of `lval` type tags. -/
inductive LType
  | LVAL_ERR | LVAL_NUM | LVAL_OPR | LVAL_STR | LVAL_FUN | LVAL_SEXPR | LVAL_QEXPR
  deriving DecidableEq, Repr

mutual
/-- The record `struct lval`, as a sum over its `type` tag; a `LVAL_FUN` is a
builtin when its `builtin` pointer is set and a lambda otherwise. -/
inductive Lval
  | err (m : String)
  | num (n : Int)
  | opr (s : String)
  | str (s : String)
  | builtin (b : Builtin)
  | lambda (env : Lenv) (formals : Lval) (body : Lval)
  | sexpr (cell : List Lval)
  | qexpr (cell : List Lval)
/-- The record `struct lenv`: the parent pointer `par` (`none` is `NULL`) and
the parallel arrays `oprs`/`vals` as one list of pairs. -/
inductive Lenv
  | mk (par : Option Lenv) (binds : List (String × Lval))
end

/-- Outcomes that are not a returned value. -/
inductive Fault
  | fuel
  | undefined
  deriving DecidableEq, Repr

/-- Result of a run of interpreter code. -/
abbrev M (α : Type) := Except Fault α

/-- What the interpreter takes from outside the file: the parser applied to the
contents of a named file followed by `lval_read` (the top-level expressions,
or the parser's diagnostic), and `(long)pow(x, y)` of `math.h`. -/
structure Host where
  load_file : String → Except String (List Lval)
  pow : Int → Int → Int

/-- The field `type`. -/
def Lval.type : Lval → LType
  | .err _ => .LVAL_ERR
  | .num _ => .LVAL_NUM
  | .opr _ => .LVAL_OPR
  | .str _ => .LVAL_STR
  | .builtin _ => .LVAL_FUN
  | .lambda _ _ _ => .LVAL_FUN
  | .sexpr _ => .LVAL_SEXPR
  | .qexpr _ => .LVAL_QEXPR

/-- The fields `count`/`cell` of a list value (`none` for values whose
constructor does not set them). -/
def Lval.cells? : Lval → Option (List Lval)
  | .sexpr c => some c
  | .qexpr c => some c
  | _ => none

/-- The cells of a list value, empty for the other values. -/
def Lval.cell : Lval → List Lval
  | .sexpr c => c
  | .qexpr c => c
  | _ => []

/-- Replace the cells of a list value, keeping its tag. -/
def Lval.setCells : Lval → List Lval → Lval
  | .sexpr _, c => .sexpr c
  | .qexpr _, c => .qexpr c
  | v, _ => v

/-- The field `par`. -/
def Lenv.par : Lenv → Option Lenv
  | .mk p _ => p

/-- The bindings of the scope itself. -/
def Lenv.binds : Lenv → List (String × Lval)
  | .mk _ b => b

/-- The assignment `e->par = p`. -/
def Lenv.setPar : Lenv → Lenv → Lenv
  | .mk _ b, p => .mk (some p) b

/-- Function `lenv_new`. -/
def lenv_new : Lenv := .mk none []

mutual
/-- Function `lval_copy`. -/
def lval_copy : Lval → Lval
  | .builtin b => .builtin b
  | .lambda env formals body => .lambda (lenv_copy env) (lval_copy formals) (lval_copy body)
  | .num n => .num n
  | .err m => .err m
  | .opr s => .opr s
  | .str s => .str s
  | .sexpr cell => .sexpr (lval_copy_cells cell)
  | .qexpr cell => .qexpr (lval_copy_cells cell)
/-- The loop of `lval_copy` over the cells of a list value. -/
def lval_copy_cells : List Lval → List Lval
  | [] => []
  | x :: r => lval_copy x :: lval_copy_cells r
/-- Function `lenv_copy`: the parent pointer is shared, the bindings are
copied. -/
def lenv_copy : Lenv → Lenv
  | .mk par binds => .mk par (lenv_copy_binds binds)
/-- The loop of `lenv_copy` over the bindings. -/
def lenv_copy_binds : List (String × Lval) → List (String × Lval)
  | [] => []
  | (s, v) :: r => (s, lval_copy v) :: lenv_copy_binds r
end

/-- Function `ltype_name`. -/
def ltype_name : LType → String
  | .LVAL_FUN => "Function"
  | .LVAL_NUM => "Number"
  | .LVAL_ERR => "Error"
  | .LVAL_OPR => "Operator"
  | .LVAL_STR => "String"
  | .LVAL_SEXPR => "S-Expression"
  | .LVAL_QEXPR => "Q-Expression"

/-- Function `lval_err` applied to an already formatted message:
`vsnprintf(v->err, 511, ...)` keeps at most 510 bytes. -/
def lval_err (msg : String) : Lval := .err ⟨msg.data.take 510⟩

/-- The scan of the bindings of one scope in `lenv_get`: the value at the
first index whose key equals `k`. -/
def lenv_scan (k : String) : List (String × Lval) → Option Lval
  | [] => none
  | (s, v) :: r => if s = k then some v else lenv_scan k r

/-- Function `lenv_get`. -/
def lenv_get : Lenv → String → Lval
  | .mk par binds, k =>
    match lenv_scan k binds with
    | some v => lval_copy v
    | none =>
      match par with
      | some p => lenv_get p k
      | none => lval_err ("Unbound operator '" ++ k ++ "'!")

/-- The loop of `lenv_put` over one scope: replace the value at the first
index whose key equals `k`, or append a new entry. -/
def lenv_put_binds (k : String) (v : Lval) : List (String × Lval) → List (String × Lval)
  | [] => [(k, v)]
  | (s, w) :: r => if s = k then (s, v) :: r else (s, w) :: lenv_put_binds k v r

/-- Function `lenv_put`. -/
def lenv_put : Lenv → String → Lval → Lenv
  | .mk par binds, k, v => .mk par (lenv_put_binds k (lval_copy v) binds)

/-- Function `lenv_def`: follow `par` to the outermost scope and put there. -/
def lenv_def : Lenv → String → Lval → Lenv
  | .mk none binds, k, v => lenv_put (.mk none binds) k v
  | .mk (some p) binds, k, v => .mk (some (lenv_def p k v)) binds

/-! ## Diagnostics of the `LASSERT` macros -/

/-- The message of `LASSERT_TYPE`. -/
def err_type (func : String) (index : Nat) (got expect : LType) : Lval :=
  lval_err ("Function '" ++ func ++ "' passed incorrect type for argument " ++ toString index
    ++ ". Got " ++ ltype_name got ++ ", Expected " ++ ltype_name expect ++ ".")

/-- The message of `LASSERT_NUM`. -/
def err_num (func : String) (got expect : Nat) : Lval :=
  lval_err ("Function '" ++ func ++ "' passed incorrect number of arguments. Got "
    ++ toString got ++ ", Expected " ++ toString expect ++ ".")

/-- The message of `LASSERT_NOT_EMPTY`. -/
def err_empty (func : String) (index : Nat) : Lval :=
  lval_err ("Function '" ++ func ++ "' passed \x7b\x7d for argument " ++ toString index ++ ".")

/-- A loop `for (i = 0; i < a->count; ++i) LASSERT_TYPE(func, a, i, expect)`,
started at index `i`: the error of the first failing assertion. -/
def check_types (func : String) (expect : LType) : Nat → List Lval → Option Lval
  | _, [] => none
  | i, x :: r =>
    if x.type ≠ expect then some (err_type func i x.type expect)
    else check_types func expect (i + 1) r

/-- The loop of `builtin_lambda` and `builtin_var` asserting that every cell is
an operator; `msg` builds the error from the offending type. -/
def check_oprs (msg : LType → Lval) : List Lval → Option Lval
  | [] => none
  | x :: r => if x.type ≠ .LVAL_OPR then some (msg x.type) else check_oprs msg r

/-! ## Values: equality, list surgery -/

mutual
/-- Function `lval_eq` (`true` for a non-zero result). -/
def lval_eq : Lval → Lval → Bool
  | .num a, .num b => a == b
  | .err a, .err b => a == b
  | .opr a, .opr b => a == b
  | .str a, .str b => a == b
  | .builtin a, .builtin b => a == b
  | .builtin _, .lambda _ _ _ => false
  | .lambda _ _ _, .builtin _ => false
  | .lambda _ f1 b1, .lambda _ f2 b2 => lval_eq f1 f2 && lval_eq b1 b2
  | .sexpr xs, .sexpr ys => lval_eq_cells xs ys
  | .qexpr xs, .qexpr ys => lval_eq_cells xs ys
  | _, _ => false
/-- The list case of `lval_eq`: equal counts and pairwise equal cells. -/
def lval_eq_cells : List Lval → List Lval → Bool
  | [], [] => true
  | x :: xs, y :: ys => lval_eq x y && lval_eq_cells xs ys
  | _, _ => false
end

/-- Function `lval_add`. -/
def lval_add (v x : Lval) : Lval := v.setCells (v.cell ++ [x])

/-- Function `lval_join`. -/
def lval_join (x y : Lval) : Lval := y.cell.foldl lval_add x

/-- Function `lval_num` applied to a C truth value. -/
def lval_truth (b : Bool) : Lval := .num (if b then 1 else 0)

/-! ## Arithmetic -/

/-- Reduction of an integer to the range of `long` (two's complement). -/
def wrap64 (z : Int) : Int := (z + 2 ^ 63) % 2 ^ 64 - 2 ^ 63

/-- The `while (a->count > 0)` loop of `builtin_op`, with accumulator `x`. -/
def builtin_op_loop (H : Host) (op : String) : Int → List Lval → M Lval
  | x, [] => .ok (.num x)
  | x, .num y :: r =>
    if op = "+" then builtin_op_loop H op (wrap64 (x + y)) r
    else if op = "-" then builtin_op_loop H op (wrap64 (x - y)) r
    else if op = "*" then builtin_op_loop H op (wrap64 (x * y)) r
    else if op = "/" then
      if y = 0 then .ok (lval_err "Division By Zero!")
      else if x = -(2 ^ 63) ∧ y = -1 then .error .undefined
      else builtin_op_loop H op (Int.tdiv x y) r
    else if op = "%" then
      if y = 0 ∨ (x = -(2 ^ 63) ∧ y = -1) then .error .undefined
      else builtin_op_loop H op (Int.tmod x y) r
    else if op = "^" then builtin_op_loop H op (H.pow x y) r
    else if op = "min" then builtin_op_loop H op (if x < y then x else y) r
    else if op = "max" then builtin_op_loop H op (if x > y then x else y) r
    else builtin_op_loop H op x r
  | _, _ :: _ => .error .undefined

/-- Function `builtin_op`. -/
def builtin_op (H : Host) (a : List Lval) (op : String) : M Lval :=
  match check_types op .LVAL_NUM 0 a with
  | some er => .ok er
  | none =>
    match a with
    | .num x :: r =>
      builtin_op_loop H op (if op = "-" ∧ r.length = 0 then wrap64 (-x) else x) r
    | _ => .error .undefined

/-! ## Comparison and logic -/

/-- Function `builtin_logop`.  The arity assertions are those of the source; the
operands are read through `->num` without a type assertion, and `&&`/`||` read
the second operand only when the first does not decide. -/
def builtin_logop (a : List Lval) (op : String) : M Lval :=
  if op = "not" ∧ a.length = 2 then .ok (err_num op a.length 1)
  else if op ≠ "not" ∧ a.length ≠ 2 then .ok (err_num op a.length 2)
  else if op = "and" then
    match a with
    | .num x :: y :: _ =>
      if x = 0 then .ok (lval_truth false)
      else match y with
        | .num y => .ok (lval_truth (y != 0))
        | _ => .error .undefined
    | _ => .error .undefined
  else if op = "or" then
    match a with
    | .num x :: y :: _ =>
      if x ≠ 0 then .ok (lval_truth true)
      else match y with
        | .num y => .ok (lval_truth (y != 0))
        | _ => .error .undefined
    | _ => .error .undefined
  else if op = "not" then
    match a with
    | .num x :: _ => .ok (lval_truth (x == 0))
    | _ => .error .undefined
  else .ok (lval_truth false)

/-- Function `builtin_cmp`. -/
def builtin_cmp (a : List Lval) (op : String) : M Lval :=
  match a with
  | [x, y] =>
    if op = "==" then .ok (lval_truth (lval_eq x y))
    else if op = "!=" then .ok (lval_truth (!lval_eq x y))
    else .ok (lval_truth false)
  | _ => .ok (err_num op a.length 2)

/-- Function `builtin_ord`. -/
def builtin_ord (a : List Lval) (op : String) : M Lval :=
  match a with
  | [x, y] =>
    match x, y with
    | .num m, .num n =>
      if op = ">" then .ok (lval_truth (decide (m > n)))
      else if op = "<" then .ok (lval_truth (decide (m < n)))
      else if op = ">=" then .ok (lval_truth (decide (m ≥ n)))
      else if op = "<=" then .ok (lval_truth (decide (m ≤ n)))
      else .ok (lval_truth false)
    | .num _, y => .ok (err_type op 1 y.type .LVAL_NUM)
    | x, _ => .ok (err_type op 0 x.type .LVAL_NUM)
  | _ => .ok (err_num op a.length 2)

/-! ## List builtins -/

/-- Function `builtin_head`. -/
def builtin_head (a : List Lval) : M Lval :=
  match a with
  | [x] =>
    match x with
    | .qexpr [] => .ok (err_empty "head" 0)
    | .qexpr (h :: _) => .ok (.qexpr [h])
    | x => .ok (err_type "head" 0 x.type .LVAL_QEXPR)
  | _ => .ok (err_num "head" a.length 1)

/-- Function `builtin_tail`. -/
def builtin_tail (a : List Lval) : M Lval :=
  match a with
  | [x] =>
    match x with
    | .qexpr [] => .ok (err_empty "tail" 0)
    | .qexpr (_ :: t) => .ok (.qexpr t)
    | x => .ok (err_type "tail" 0 x.type .LVAL_QEXPR)
  | _ => .ok (err_num "tail" a.length 1)

/-- Function `builtin_list`: the argument list retagged as a Q-expression. -/
def builtin_list (a : List Lval) : Lval := .qexpr a

/-- The `while (a->count)` loop of `builtin_join`. -/
def builtin_join_loop : Lval → List Lval → Lval
  | x, [] => x
  | x, y :: r => builtin_join_loop (lval_join x y) r

/-- Function `builtin_join`. -/
def builtin_join (a : List Lval) : M Lval :=
  match check_types "join" .LVAL_QEXPR 0 a with
  | some er => .ok er
  | none =>
    match a with
    | x :: r => .ok (builtin_join_loop x r)
    | [] => .error .undefined

/-! ## Lambda, error, print -/

/-- Function `lval_lambda`. -/
def lval_lambda (formals body : Lval) : Lval := .lambda lenv_new formals body

/-- Function `builtin_lambda`. -/
def builtin_lambda (a : List Lval) : M Lval :=
  match a with
  | [formals, body] =>
    if formals.type ≠ .LVAL_QEXPR then .ok (err_type "\\" 0 formals.type .LVAL_QEXPR)
    else if body.type ≠ .LVAL_QEXPR then .ok (err_type "\\" 1 body.type .LVAL_QEXPR)
    else
      match check_oprs (fun t => lval_err ("Cannot define non-operator! Got " ++ ltype_name t
          ++ ", Expected " ++ ltype_name .LVAL_OPR ++ ".")) formals.cell with
      | some er => .ok er
      | none => .ok (lval_lambda formals body)
  | _ => .ok (err_num "\\" a.length 2)

/-- The expansion by `vsnprintf` of a format that is given no arguments: `%%`
prints `%`, any other conversion reads an argument that was not passed. -/
def format_noargs : List Char → Option (List Char)
  | [] => some []
  | '%' :: '%' :: r => (format_noargs r).map (fun t => '%' :: t)
  | '%' :: _ => none
  | c :: r => (format_noargs r).map (fun t => c :: t)

/-- Function `builtin_error`: the string argument is the format of `lval_err`. -/
def builtin_error (a : List Lval) : M Lval :=
  match a with
  | [x] =>
    match x with
    | .str s =>
      match format_noargs s.data with
      | some t => .ok (lval_err ⟨t⟩)
      | none => .error .undefined
    | x => .ok (err_type "error" 0 x.type .LVAL_STR)
  | _ => .ok (err_num "error" a.length 1)

/-- Function `builtin_print`: the printed text is not modelled. -/
def builtin_print (_a : List Lval) : M Lval := .ok (.sexpr [])

/-! ## Binding builtins -/

/-- The assignment loop of `builtin_var`: for each operator and value, `lenv_def`
when `func` is `def` and `lenv_put` when it is `=`. -/
def builtin_var_loop (func : String) : Lenv → List Lval → List Lval → Lenv
  | e, .opr s :: ks, v :: vs =>
    let e1 := if func = "def" then lenv_def e s v else e
    let e2 := if func = "=" then lenv_put e1 s v else e1
    builtin_var_loop func e2 ks vs
  | e, _, _ => e

/-- Function `builtin_var`. -/
def builtin_var (e : Lenv) (a : List Lval) (func : String) : M (Lval × Lenv) :=
  match a with
  | [] => .error .undefined
  | oprs :: vals =>
    if oprs.type ≠ .LVAL_QEXPR then .ok (err_type func 0 oprs.type .LVAL_QEXPR, e)
    else
      match check_oprs (fun t => lval_err ("Function 'def' cannot define non-operator! Got "
          ++ ltype_name t ++ ", Expected " ++ ltype_name .LVAL_OPR)) oprs.cell with
      | some er => .ok (er, e)
      | none =>
        if oprs.cell.length ≠ vals.length then
          .ok (lval_err ("Function 'def' passed too many arguments for operators! Got "
            ++ toString oprs.cell.length ++ ", Expected " ++ toString vals.length ++ "."), e)
        else .ok (.sexpr [], builtin_var_loop func e oprs.cell vals)

/-! ## The evaluator

The mutually recursive C functions `lval_eval`, `lval_eval_sexpr`, `lval_call`,
`builtin_eval`, `builtin_if` and `builtin_load` are tied together through
`lval_eval`; each of the others takes the evaluator `ev` it calls back. -/

/-- The type of `lval_eval` at a given fuel: environment and value in, value
and updated environment out. -/
abbrev Eval := Lenv → Lval → M (Lval × Lenv)

/-- Function `builtin_eval`. -/
def builtin_eval (ev : Eval) (e : Lenv) (a : List Lval) : M (Lval × Lenv) :=
  match a with
  | [x] =>
    match x with
    | .qexpr c => ev e (.sexpr c)
    | x => .ok (err_type "eval" 0 x.type .LVAL_QEXPR, e)
  | _ => .ok (err_num "eval" a.length 1, e)

/-- Function `builtin_if`. -/
def builtin_if (ev : Eval) (e : Lenv) (a : List Lval) : M (Lval × Lenv) :=
  match a with
  | [c, t, f] =>
    match c, t, f with
    | .num n, .qexpr ct, .qexpr cf =>
      if n ≠ 0 then ev e (.sexpr ct) else ev e (.sexpr cf)
    | .num _, .qexpr _, f => .ok (err_type "if" 2 f.type .LVAL_QEXPR, e)
    | .num _, t, _ => .ok (err_type "if" 1 t.type .LVAL_QEXPR, e)
    | c, _, _ => .ok (err_type "if" 0 c.type .LVAL_NUM, e)
  | _ => .ok (err_num "if" a.length 3, e)

/-- The `while (expr->count)` loop of `builtin_load`: each expression is
evaluated in turn and its result dropped. -/
def builtin_load_loop (ev : Eval) : Lenv → List Lval → M Lenv
  | e, [] => .ok e
  | e, x :: r =>
    match ev e x with
    | .ok (_, e1) => builtin_load_loop ev e1 r
    | .error flt => .error flt

/-- Function `builtin_load`. -/
def builtin_load (H : Host) (ev : Eval) (e : Lenv) (a : List Lval) : M (Lval × Lenv) :=
  match a with
  | [x] =>
    match x with
    | .str s =>
      match H.load_file s with
      | .ok exprs =>
        match builtin_load_loop ev e exprs with
        | .ok e1 => .ok (.sexpr [], e1)
        | .error flt => .error flt
      | .error msg => .ok (lval_err ("Could not load Library " ++ msg), e)
    | x => .ok (err_type "load" 0 x.type .LVAL_STR, e)
  | _ => .ok (err_num "load" a.length 1, e)

/-- A builtin that does not touch the environment. -/
def pure_builtin (e : Lenv) (r : M Lval) : M (Lval × Lenv) :=
  match r with
  | .ok v => .ok (v, e)
  | .error flt => .error flt

/-- The call `f->builtin(e, a)` through the function pointer. -/
def call_builtin (H : Host) (ev : Eval) (b : Builtin) (e : Lenv) (a : List Lval) :
    M (Lval × Lenv) :=
  match b with
  | .list => .ok (builtin_list a, e)
  | .head => pure_builtin e (builtin_head a)
  | .tail => pure_builtin e (builtin_tail a)
  | .eval => builtin_eval ev e a
  | .join => pure_builtin e (builtin_join a)
  | .add => pure_builtin e (builtin_op H a "+")
  | .sub => pure_builtin e (builtin_op H a "-")
  | .mul => pure_builtin e (builtin_op H a "*")
  | .div => pure_builtin e (builtin_op H a "/")
  | .mod => pure_builtin e (builtin_op H a "%")
  | .pow => pure_builtin e (builtin_op H a "^")
  | .min => pure_builtin e (builtin_op H a "min")
  | .max => pure_builtin e (builtin_op H a "max")
  | .lambda => pure_builtin e (builtin_lambda a)
  | .def_ => builtin_var e a "def"
  | .put => builtin_var e a "="
  | .if_ => builtin_if ev e a
  | .eq => pure_builtin e (builtin_cmp a "==")
  | .ne => pure_builtin e (builtin_cmp a "!=")
  | .gt => pure_builtin e (builtin_ord a ">")
  | .lt => pure_builtin e (builtin_ord a "<")
  | .ge => pure_builtin e (builtin_ord a ">=")
  | .le => pure_builtin e (builtin_ord a "<=")
  | .and_ => pure_builtin e (builtin_logop a "and")
  | .or_ => pure_builtin e (builtin_logop a "or")
  | .not_ => pure_builtin e (builtin_logop a "not")
  | .load => builtin_load H ev e a
  | .error => pure_builtin e (builtin_error a)
  | .print => pure_builtin e (builtin_print a)

/-- The `while (a->count)` loop of `lval_call`, on the lambda's environment
`fe`, its remaining formals and the remaining arguments: the environment and
formals left when the loop ends, or the error it returns.  `given` and `total`
are the counts saved at entry. -/
def lval_call_bind (given total : Nat) :
    Lenv → List Lval → List Lval → M (Except Lval (Lenv × List Lval))
  | fe, fs, [] => .ok (.ok (fe, fs))
  | _, [], _ :: _ =>
    .ok (.error (lval_err ("Function passed too many arguments! Got " ++ toString given
      ++ ", Expected " ++ toString total ++ ".")))
  | fe, .opr s :: fs, v :: a =>
    if s = "&" then
      match fs with
      | [nopr] =>
        match nopr with
        | .opr n => .ok (.ok (lenv_put fe n (builtin_list (v :: a)), []))
        | _ => .error .undefined
      | _ =>
        .ok (.error (lval_err
          "Function formal invalid! Operator '&' not followed by a single operator."))
    else lval_call_bind given total (lenv_put fe s v) fs a
  | _, _ :: _, _ :: _ => .error .undefined

/-- The step of `lval_call` after the loop: a leading `&` in the remaining
formals binds the following formal to the empty Q-expression. -/
def lval_call_rest : Lenv → List Lval → M (Except Lval (Lenv × List Lval))
  | fe, [] => .ok (.ok (fe, []))
  | fe, .opr s :: fs =>
    if s = "&" then
      match fs with
      | [nopr] =>
        match nopr with
        | .opr n => .ok (.ok (lenv_put fe n (.qexpr []), []))
        | _ => .error .undefined
      | _ =>
        .ok (.error (lval_err
          "Function format invalid! Symbol '&' no followed by a single symbol."))
    else .ok (.ok (fe, .opr s :: fs))
  | _, _ :: _ => .error .undefined

/-- Return from the body of a lambda: the caller's environment is the parent
of the callee's scope, which is dropped. -/
def lval_call_leave (r : M (Lval × Lenv)) : M (Lval × Lenv) :=
  match r with
  | .ok (v, .mk (some e) _) => .ok (v, e)
  | .ok (_, .mk none _) => .error .undefined
  | .error flt => .error flt

/-- The end of `lval_call`: with no formal left the body is evaluated by
`builtin_eval` in the lambda's environment with parent `e`, otherwise a copy of
the partially applied lambda is returned. -/
def lval_call_finish (ev : Eval) (e fe : Lenv) (formals : Lval) (fs : List Lval) (body : Lval) :
    M (Lval × Lenv) :=
  match fs with
  | [] => lval_call_leave (builtin_eval ev (fe.setPar e) [lval_copy body])
  | _ :: _ => .ok (lval_copy (.lambda fe (formals.setCells fs) body), e)

/-- Function `lval_call`. -/
def lval_call (H : Host) (ev : Eval) (e : Lenv) (f : Lval) (a : List Lval) : M (Lval × Lenv) :=
  match f with
  | .builtin b => call_builtin H ev b e a
  | .lambda fe formals body =>
    match formals.cells? with
    | none => .error .undefined
    | some fs =>
      match lval_call_bind a.length fs.length fe fs a with
      | .error flt => .error flt
      | .ok (.error er) => .ok (er, e)
      | .ok (.ok (fe1, fs1)) =>
        match lval_call_rest fe1 fs1 with
        | .error flt => .error flt
        | .ok (.error er) => .ok (er, e)
        | .ok (.ok (fe2, fs2)) => lval_call_finish ev e fe2 formals fs2 body
  | _ => .error .undefined

/-- The first loop of `lval_eval_sexpr`: every cell is replaced by its value,
left to right, each evaluation starting in the environment the previous one
left. -/
def lval_eval_cells (ev : Eval) : Lenv → List Lval → M (List Lval × Lenv)
  | e, [] => .ok ([], e)
  | e, c :: cs =>
    match ev e c with
    | .error flt => .error flt
    | .ok (c1, e1) =>
      match lval_eval_cells ev e1 cs with
      | .error flt => .error flt
      | .ok (cs1, e2) => .ok (c1 :: cs1, e2)

/-- The second loop of `lval_eval_sexpr`: the cell at the lowest index whose
type is `LVAL_ERR`. -/
def first_err : List Lval → Option Lval
  | [] => none
  | x :: r => if x.type = .LVAL_ERR then some x else first_err r

/-- Function `lval_eval_sexpr`, on the cells of `v`. -/
def lval_eval_sexpr (H : Host) (ev : Eval) (e : Lenv) (cell : List Lval) : M (Lval × Lenv) :=
  match lval_eval_cells ev e cell with
  | .error flt => .error flt
  | .ok (vs, e1) =>
    match first_err vs with
    | some er => .ok (er, e1)
    | none =>
      match vs with
      | [] => .ok (.sexpr [], e1)
      | [x] => .ok (x, e1)
      | f :: a =>
        if f.type ≠ .LVAL_FUN then
          .ok (lval_err ("S-Expression starts with incorrect type! Got " ++ ltype_name f.type
            ++ ", Expected " ++ ltype_name .LVAL_FUN ++ "."), e1)
        else lval_call H ev e1 f a

/-- Function `lval_eval`; the fuel bounds the nesting of S-expression
evaluations. -/
def lval_eval (H : Host) : Nat → Lenv → Lval → M (Lval × Lenv)
  | _, e, .opr s => .ok (lenv_get e s, e)
  | 0, _, .sexpr _ => .error .fuel
  | n + 1, e, .sexpr cell => lval_eval_sexpr H (lval_eval H n) e cell
  | _, e, v => .ok (v, e)

/-! ## The root environment -/

/-- Function `lenv_add_builtin`. -/
def lenv_add_builtin (e : Lenv) (name : String) (func : Builtin) : Lenv :=
  lenv_put e name (.builtin func)

/-- Function `lenv_add_builtins`. -/
def lenv_add_builtins (e : Lenv) : Lenv :=
  [("list", Builtin.list), ("head", .head), ("tail", .tail), ("eval", .eval), ("join", .join),
   ("+", .add), ("-", .sub), ("*", .mul), ("/", .div), ("%", .mod), ("^", .pow),
   ("min", .min), ("max", .max),
   ("\\", .lambda), ("def", .def_), ("=", .put),
   ("if", .if_), ("==", .eq), ("!=", .ne), (">", .gt), ("<", .lt), (">=", .ge), ("<=", .le),
   ("and", .and_), ("or", .or_), ("not", .not_),
   ("load", .load), ("error", .error), ("print", .print)].foldl
    (fun e p => lenv_add_builtin e p.1 p.2) e

/-- The environment `main` evaluates in: `lenv_new` filled by
`lenv_add_builtins`. -/
def root_env : Lenv := lenv_add_builtins lenv_new

/-! ## Vocabulary of the statements -/

/-- The keys (`oprs`) of a list of bindings, in order. -/
def keys (b : List (String × Lval)) : List String := b.map Prod.fst

/-- The scopes on the chain `e`, `e->par`, ..., innermost first, each as its
list of bindings. -/
def Lenv.scopes : Lenv → List (List (String × Lval))
  | .mk none b => [b]
  | .mk (some p) b => b :: p.scopes

/-- The bindings of the outermost scope of the chain, the one `lenv_def`
walks to. -/
def Lenv.root_binds : Lenv → List (String × Lval)
  | .mk none b => b
  | .mk (some p) _ => p.root_binds

/-- The scopes of the chain below the outermost one, innermost first. -/
def Lenv.inner_scopes : Lenv → List (List (String × Lval))
  | .mk none _ => []
  | .mk (some p) b => b :: p.inner_scopes

/-- The number of scopes on the chain. -/
def Lenv.depth (e : Lenv) : Nat := e.scopes.length

/-- An evaluator that returns an environment chain as long as the one it got. -/
def KeepsDepth (ev : Eval) : Prop :=
  ∀ e v r e1, ev e v = .ok (r, e1) → e1.depth = e.depth

/-- The values of `long`. -/
def in_long (z : Int) : Prop := -(2 ^ 63) ≤ z ∧ z < 2 ^ 63

/-- The meaning the spec gives the operators `+`, `-`, `*`, `min`, `max` on
integers, before any reduction to 64 bits. -/
def spec_arith (op : String) (x y : Int) : Int :=
  if op = "+" then x + y
  else if op = "-" then x - y
  else if op = "*" then x * y
  else if op = "min" then min x y
  else if op = "max" then max x y
  else x

/-! ## The reader -/

/-- The fields of `mpc_ast_t` that `lval_read` looks at. -/
inductive Ast
  | node (tag : String) (contents : String) (children : List Ast)

/-- Whether the characters `p` start the list `s`. -/
def starts_with : List Char → List Char → Bool
  | [], _ => true
  | _ :: _, [] => false
  | c :: p, d :: s => c == d && starts_with p s

/-- The scan of `strstr` over the positions of `hay`. -/
def strstr_from (needle : List Char) : List Char → Bool
  | [] => starts_with needle []
  | c :: r => starts_with needle (c :: r) || strstr_from needle r

/-- The test `strstr(hay, needle) != NULL`. -/
def strstr (hay needle : String) : Bool := strstr_from needle.data hay.data

/-- The test `isspace(c)` of the C locale. -/
def is_space (c : Char) : Bool :=
  c == ' ' || c == '\t' || c == '\n' || c == '\x0b' || c == '\x0c' || c == '\r'

/-- The digits that `strtol` consumes in base 10, accumulated from `acc`. -/
def strtol_digits : Nat → List Char → Nat
  | acc, [] => acc
  | acc, c :: r =>
    if '0' ≤ c ∧ c ≤ '9' then strtol_digits (acc * 10 + (c.toNat - 48)) r else acc

/-- The call `strtol(s, NULL, 10)`: the value returned and whether `errno` is
set to `ERANGE`. -/
def strtol (s : List Char) : Int × Bool :=
  let s1 := s.dropWhile is_space
  let sign_rest : Bool × List Char :=
    match s1 with
    | '-' :: r => (true, r)
    | '+' :: r => (false, r)
    | r => (false, r)
  let n : Int := (strtol_digits 0 sign_rest.2 : Nat)
  let v : Int := if sign_rest.1 then -n else n
  if v < -(2 ^ 63) then (-(2 ^ 63), true)
  else if 2 ^ 63 ≤ v then (2 ^ 63 - 1, true)
  else (v, false)

/-- Function `lval_read_num`, on `t->contents`. -/
def lval_read_num (contents : String) : Lval :=
  match strtol contents.data with
  | (x, false) => .num x
  | (_, true) => lval_err "Invalid number."

/-- Function `lval_read_str`, on `t->contents`: the last character is cut, the
first skipped and the rest passed through `mpcf_unescape`, here the parameter
`unescape`. -/
def lval_read_str (unescape : String → String) (contents : String) : M Lval :=
  match contents.data with
  | [] => .error .undefined
  | _ :: r => .ok (.str (unescape ⟨r.dropLast⟩))

/-- The children that the loop of `lval_read` skips: brackets, `regex` nodes
and comments. -/
def lval_read_skips : Ast → Bool
  | .node tag contents _ =>
    contents == "(" || contents == ")" || contents == "\x7b" || contents == "\x7d"
      || tag == "regex" || strstr tag "comment"

mutual
/-- Function `lval_read`. -/
def lval_read (unescape : String → String) : Ast → M Lval
  | .node tag contents children =>
    if strstr tag "number" then .ok (lval_read_num contents)
    else if strstr tag "string" then lval_read_str unescape contents
    else if strstr tag "operator" then .ok (.opr contents)
    else
      lval_read_children unescape
        (if strstr tag "qexpr" then some (.qexpr [])
         else if strstr tag "sexpr" then some (.sexpr [])
         else if tag = ">" then some (.sexpr [])
         else none) children
/-- The loop of `lval_read` over the children, `x` being the list built so far
(`none` is the `NULL` that an unknown tag leaves). -/
def lval_read_children (unescape : String → String) : Option Lval → List Ast → M Lval
  | x, [] =>
    match x with
    | some v => .ok v
    | none => .error .undefined
  | x, c :: r =>
    if lval_read_skips c then lval_read_children unescape x r
    else
      match lval_read unescape c with
      | .error flt => .error flt
      | .ok v =>
        match x with
        | some xv => lval_read_children unescape (some (lval_add xv v)) r
        | none => .error .undefined
end

/-! ## Predicates that hold at every node of a value -/

mutual
/-- The predicate `p` holds of the value and of every value inside it: the
cells of a list, the formals and the body of a lambda and the values bound in
its environment. -/
def lval_all (p : Lval → Bool) : Lval → Bool
  | .lambda env f b => p (.lambda env f b) && lenv_all p env && lval_all p f && lval_all p b
  | .sexpr c => p (.sexpr c) && cells_all p c
  | .qexpr c => p (.qexpr c) && cells_all p c
  | .err m => p (.err m)
  | .num n => p (.num n)
  | .opr s => p (.opr s)
  | .str s => p (.str s)
  | .builtin b => p (.builtin b)
/-- Every cell satisfies `lval_all p`. -/
def cells_all (p : Lval → Bool) : List Lval → Bool
  | [] => true
  | x :: r => lval_all p x && cells_all p r
/-- Every value bound in a scope of the chain satisfies `lval_all p`. -/
def lenv_all (p : Lval → Bool) : Lenv → Bool
  | .mk none b => binds_all p b
  | .mk (some q) b => lenv_all p q && binds_all p b
/-- Every value of a list of bindings satisfies `lval_all p`. -/
def binds_all (p : Lval → Bool) : List (String × Lval) → Bool
  | [] => true
  | (_, v) :: r => lval_all p v && binds_all p r
end

/-- The value is not an Error. -/
def not_err : Lval → Bool
  | .err _ => false
  | _ => true

/-- The value is not a lambda whose captured environment has a parent. -/
def no_par : Lval → Bool
  | .lambda (.mk (some _) _) _ _ => false
  | _ => true

/-- The laws of a node predicate that evaluation keeps at every node: it holds
of every Number and list, of every lambda whose environment has no parent, and
for a lambda it depends on the parent of the environment only. -/
structure GoodPred (p : Lval → Bool) : Prop where
  num : ∀ n, p (.num n) = true
  sexpr : ∀ c, p (.sexpr c) = true
  qexpr : ∀ c, p (.qexpr c) = true
  lambda_new : ∀ b f bd, p (.lambda (.mk none b) f bd) = true
  lambda_par : ∀ par b b2 f f2 bd bd2, p (.lambda (.mk par b) f bd) = true →
    p (.lambda (.mk par b2) f2 bd2) = true

/-- A value that evaluation may return when `p` is kept: an Error, or a value
with `p` at every node. -/
def Okv (p : Lval → Bool) (r : Lval) : Prop := r.type = .LVAL_ERR ∨ lval_all p r = true

/-- An evaluator that keeps `p` at every node of the environment and of the
value it returns. -/
def Keeps (p : Lval → Bool) (ev : Eval) : Prop :=
  ∀ e v r e1, lenv_all p e = true → lval_all p v = true → ev e v = .ok (r, e1) →
    lenv_all p e1 = true ∧ Okv p r

/-! ## The loop of `main` -/

/-- The environments that `main` reaches: the root filled by
`lenv_add_builtins`; from a reached environment, the one left by
`lval_eval(e, lval_read(r.output))` on a line of the prompt, `good` being a
condition on the value read; and the one left by `builtin_load` on a file
name of the command line. -/
inductive Reachable (H : Host) (unescape : String → String) (good : Lval → Bool) : Lenv → Prop
  | root : Reachable H unescape good root_env
  | line (e e1 : Lenv) (t : Ast) (v r : Lval) (n : Nat) :
      Reachable H unescape good e → lval_read unescape t = .ok v → good v = true →
      lval_eval H n e v = .ok (r, e1) → Reachable H unescape good e1
  | file (e e1 : Lenv) (name : String) (r : Lval) (n : Nat) :
      Reachable H unescape good e →
      builtin_load H (lval_eval H n) e [.str name] = .ok (r, e1) → Reachable H unescape good e1

/-! ## Programs of the statements -/

/-- The tree that the grammar gives for the line `{99999999999999999999}`. -/
def big_literal_ast : Ast :=
  .node ">" "" [.node "regex" "" [],
    .node "expr|qexpr|>" "" [.node "char" "\x7b" [],
      .node "expr|number|regex" "99999999999999999999" [], .node "char" "\x7d" []],
    .node "regex" "" []]

/-- The tree that the grammar gives for the line
`def {x} {99999999999999999999}`. -/
def big_literal_def_ast : Ast :=
  .node ">" "" [.node "regex" "" [],
    .node "expr|operator|regex" "def" [],
    .node "expr|qexpr|>" "" [.node "char" "\x7b" [],
      .node "expr|operator|regex" "x" [], .node "char" "\x7d" []],
    .node "expr|qexpr|>" "" [.node "char" "\x7b" [],
      .node "expr|number|regex" "99999999999999999999" [], .node "char" "\x7d" []],
    .node "regex" "" []]

/-- The line `def {fact} (\ {n} {if (<= n 0) {1} {* n (fact (- n 1))}})` as
read. -/
def fact_def : Lval :=
  .sexpr [.opr "def", .qexpr [.opr "fact"],
    .sexpr [.opr "\\", .qexpr [.opr "n"],
      .qexpr [.opr "if", .sexpr [.opr "<=", .opr "n", .num 0], .qexpr [.num 1],
        .qexpr [.opr "*", .opr "n", .sexpr [.opr "fact", .sexpr [.opr "-", .opr "n", .num 1]]]]]]

/-- The line `fact n` as read. -/
def fact_call (n : Int) : Lval := .sexpr [.opr "fact", .num n]

/-- The line `(\ {x} {\ {y} {+ x y}}) 1` as read: a call whose body creates a
lambda. -/
def make_adder_call : Lval :=
  .sexpr [.sexpr [.opr "\\", .qexpr [.opr "x"],
    .qexpr [.opr "\\", .qexpr [.opr "y"], .qexpr [.opr "+", .opr "x", .opr "y"]]], .num 1]

/-- The tree that the grammar gives for the file `(def {x} 1)`. -/
def lib_ast : Ast :=
  .node ">" "" [.node "regex" "" [],
    .node "expr|sexpr|>" "" [.node "char" "(" [],
      .node "expr|operator|regex" "def" [],
      .node "expr|qexpr|>" "" [.node "char" "\x7b" [],
        .node "expr|operator|regex" "x" [], .node "char" "\x7d" []],
      .node "expr|number|regex" "1" [], .node "char" ")" []],
    .node "regex" "" []]

/-- A host whose one readable file, `lib`, holds `(def {x} 1)`; its `pow` is
exact on natural exponents. -/
def lib_host : Host :=
  ⟨fun s => if s = "lib" then .ok [.sexpr [.opr "def", .qexpr [.opr "x"], .num 1]]
    else .error "no such file", fun x y => x ^ y.toNat⟩

/-- A host with no readable file, whose `pow` is exact on natural exponents;
used to run concrete programs. -/
def stub_host : Host := ⟨fun _ => .error "no such file", fun x y => x ^ y.toNat⟩

/-! ## Auxiliary facts -/

/-! ### A deep copy of an immutable value is the value -/

mutual
theorem lval_copy_eq : ∀ v : Lval, lval_copy v = v
  | .builtin b => rfl
  | .lambda env formals body => by
    simp only [lval_copy]
    rw [lenv_copy_eq env, lval_copy_eq formals, lval_copy_eq body]
  | .num n => rfl
  | .err m => rfl
  | .opr s => rfl
  | .str s => rfl
  | .sexpr cell => by simp only [lval_copy]; rw [lval_copy_cells_eq cell]
  | .qexpr cell => by simp only [lval_copy]; rw [lval_copy_cells_eq cell]
theorem lval_copy_cells_eq : ∀ l : List Lval, lval_copy_cells l = l
  | [] => rfl
  | x :: r => by simp only [lval_copy_cells]; rw [lval_copy_eq x, lval_copy_cells_eq r]
theorem lenv_copy_eq : ∀ e : Lenv, lenv_copy e = e
  | .mk par binds => by simp only [lenv_copy]; rw [lenv_copy_binds_eq binds]
theorem lenv_copy_binds_eq : ∀ l : List (String × Lval), lenv_copy_binds l = l
  | [] => rfl
  | (s, v) :: r => by simp only [lenv_copy_binds]; rw [lval_copy_eq v, lenv_copy_binds_eq r]
end

/-- Function `lenv_put` with the copy resolved. -/
theorem lenv_put_mk (par : Option Lenv) (b : List (String × Lval)) (k : String) (v : Lval) :
    lenv_put (.mk par b) k v = .mk par (lenv_put_binds k v b) := by
  simp only [lenv_put, lval_copy_eq]

theorem first_err_eq_some {vs : List Lval} {er : Lval} (h : first_err vs = some er) :
    ∃ pre post, vs = pre ++ er :: post ∧ (∀ p ∈ pre, p.type ≠ .LVAL_ERR) ∧ er.type = .LVAL_ERR := by
  induction vs with
  | nil => simp [first_err] at h
  | cons x r ih =>
    unfold first_err at h
    by_cases hx : x.type = .LVAL_ERR
    · simp only [hx, if_true, Option.some.injEq] at h
      subst h
      exact ⟨[], r, rfl, by simp, hx⟩
    · simp only [hx, if_false] at h
      obtain ⟨pre, post, h1, h2, h3⟩ := ih h
      refine ⟨x :: pre, post, by simp [h1], ?_, h3⟩
      intro p hp
      rcases List.mem_cons.1 hp with rfl | hp
      · exact hx
      · exact h2 p hp

theorem first_err_eq_none {vs : List Lval} :
    first_err vs = none ↔ ∀ x ∈ vs, x.type ≠ .LVAL_ERR := by
  induction vs with
  | nil => simp [first_err]
  | cons x r ih =>
    unfold first_err
    by_cases hx : x.type = .LVAL_ERR
    · simp [hx]
    · simp [hx, ih]

/-- The cell loop evaluates cell `i` in the environment left by cell `i - 1`. -/
theorem lval_eval_cells_trace (ev : Eval) :
    ∀ (cell : List Lval) (e e1 : Lenv) (vs : List Lval),
      lval_eval_cells ev e cell = .ok (vs, e1) →
      ∃ envs : List Lenv, envs.length = cell.length + 1 ∧ envs.head? = some e ∧
        envs.getLast? = some e1 ∧ vs.length = cell.length ∧
        ∀ i c, cell[i]? = some c → ∃ v ei ej, envs[i]? = some ei ∧ envs[i + 1]? = some ej ∧
          vs[i]? = some v ∧ ev ei c = .ok (v, ej) := by
  intro cell
  induction cell with
  | nil =>
    intro e e1 vs h
    simp only [lval_eval_cells, Except.ok.injEq, Prod.mk.injEq] at h
    obtain ⟨rfl, rfl⟩ := h
    exact ⟨[e], by simp⟩
  | cons c cs ih =>
    intro e e1 vs h
    unfold lval_eval_cells at h
    cases hc : ev e c with
    | error flt => simp [hc] at h
    | ok p =>
      obtain ⟨c1, e2⟩ := p
      simp only [hc] at h
      cases hr : lval_eval_cells ev e2 cs with
      | error flt => simp [hr] at h
      | ok q =>
        obtain ⟨cs1, e3⟩ := q
        simp only [hr, Except.ok.injEq, Prod.mk.injEq] at h
        obtain ⟨rfl, rfl⟩ := h
        obtain ⟨envs, hl, hh, hlast, hvl, hi⟩ := ih e2 e3 cs1 hr
        refine ⟨e :: envs, by simp [hl], by simp, ?_, by simp [hvl], ?_⟩
        · cases envs with
          | nil => simp at hl
          | cons a t => simpa [List.getLast?_cons_cons] using hlast
        · intro i d hd
          cases i with
          | zero =>
            simp only [List.getElem?_cons_zero, Option.some.injEq] at hd
            subst hd
            refine ⟨c1, e, e2, by simp, ?_, by simp, hc⟩
            cases envs with
            | nil => simp at hl
            | cons a t =>
              simp only [List.head?_cons, Option.some.injEq] at hh
              simp [hh]
          | succ j =>
            simp only [List.getElem?_cons_succ] at hd
            obtain ⟨v, ei, ej, h1, h2, h3, h4⟩ := hi j d hd
            exact ⟨v, ei, ej, by simpa using h1, by simpa using h2, by simpa using h3, h4⟩

/-- The head diagnostic of `lval_eval_sexpr` fits the buffer of `lval_err`. -/
theorem head_error_untruncated (t : LType) :
    lval_err ("S-Expression starts with incorrect type! Got " ++ ltype_name t
      ++ ", Expected " ++ ltype_name .LVAL_FUN ++ ".")
    = .err ("S-Expression starts with incorrect type! Got " ++ ltype_name t
      ++ ", Expected Function.") := by
  cases t <;> rfl

theorem lenv_scan_eq_none {k : String} {b : List (String × Lval)} :
    lenv_scan k b = none ↔ k ∉ keys b := by
  induction b with
  | nil => simp [lenv_scan, keys]
  | cons p r ih =>
    obtain ⟨s, w⟩ := p
    unfold lenv_scan
    by_cases h : s = k
    · simp [h, keys]
    · have h2 : ¬ k = s := fun hh => h hh.symm
      simpa [h, h2, keys] using ih

theorem lenv_scan_eq_some {k : String} {b : List (String × Lval)} {v : Lval}
    (h : lenv_scan k b = some v) :
    ∃ b1 b2, b = b1 ++ (k, v) :: b2 ∧ k ∉ keys b1 := by
  induction b with
  | nil => simp [lenv_scan] at h
  | cons p r ih =>
    obtain ⟨s, w⟩ := p
    unfold lenv_scan at h
    by_cases hs : s = k
    · simp only [hs, if_true, Option.some.injEq] at h
      subst h; subst hs
      exact ⟨[], r, rfl, by simp [keys]⟩
    · simp only [hs, if_false] at h
      obtain ⟨b1, b2, h1, h2⟩ := ih h
      refine ⟨(s, w) :: b1, b2, by simp [h1], ?_⟩
      have h3 : ¬ k = s := fun hh => hs hh.symm
      simpa [keys, h3] using h2

theorem lenv_scan_mem {k : String} {b : List (String × Lval)} {v : Lval}
    (h : lenv_scan k b = some v) : (k, v) ∈ b := by
  obtain ⟨b1, b2, h1, _⟩ := lenv_scan_eq_some h
  simp [h1]

theorem lval_err_of_short {msg : String} (h : msg.length ≤ 510) : lval_err msg = .err msg := by
  unfold lval_err
  have : msg.data.take 510 = msg.data := List.take_of_length_le h
  rw [this]

theorem lval_err_of_long {msg : String} (h : 510 < msg.length) : lval_err msg ≠ .err msg := by
  intro hh
  unfold lval_err at hh
  have h3 : ∀ m m2 : String, Lval.err m = Lval.err m2 → m.length = m2.length := by
    intro m m2 hm
    injection hm with hm
    rw [hm]
  have h4 := h3 _ _ hh
  simp only [String.length, List.length_take] at h4 h
  omega

/-- When some scope of the chain binds `k`, `lenv_get` returns the value at the
first matching index of the innermost such scope. -/
theorem lenv_get_nearest (k : String) : ∀ e : Lenv, (∃ s ∈ e.scopes, k ∈ keys s) →
    ∃ pre b1 v b2 post, e.scopes = pre ++ (b1 ++ (k, v) :: b2) :: post ∧
      (∀ s ∈ pre, k ∉ keys s) ∧ k ∉ keys b1 ∧ lenv_get e k = v
  | .mk none b => by
    intro h
    simp only [Lenv.scopes, List.mem_singleton, exists_eq_left] at h
    cases hs : lenv_scan k b with
    | none => exact absurd h (lenv_scan_eq_none.1 hs)
    | some v =>
      obtain ⟨b1, b2, h1, h2⟩ := lenv_scan_eq_some hs
      exact ⟨[], b1, v, b2, [], by simp [Lenv.scopes, h1], by simp, h2,
        by simp [lenv_get, hs, lval_copy_eq]⟩
  | .mk (some p) b => by
    intro h
    cases hs : lenv_scan k b with
    | none =>
      have hk := lenv_scan_eq_none.1 hs
      have hp : ∃ s ∈ p.scopes, k ∈ keys s := by
        obtain ⟨s, hs1, hs2⟩ := h
        simp only [Lenv.scopes, List.mem_cons] at hs1
        rcases hs1 with rfl | hs1
        · exact absurd hs2 hk
        · exact ⟨s, hs1, hs2⟩
      obtain ⟨pre, b1, v, b2, post, h1, h2, h3, h4⟩ := lenv_get_nearest k p hp
      refine ⟨b :: pre, b1, v, b2, post, by simp [Lenv.scopes, h1], ?_, h3,
        by simp [lenv_get, hs, h4]⟩
      intro s hs1
      rcases List.mem_cons.1 hs1 with rfl | hs1
      · exact hk
      · exact h2 s hs1
    | some v =>
      obtain ⟨b1, b2, h1, h2⟩ := lenv_scan_eq_some hs
      exact ⟨[], b1, v, b2, p.scopes, by simp [Lenv.scopes, h1], by simp, h2,
        by simp [lenv_get, hs, lval_copy_eq]⟩

theorem lenv_get_unbound (k : String) : ∀ e : Lenv, (∀ s ∈ e.scopes, k ∉ keys s) →
    lenv_get e k = lval_err ("Unbound operator '" ++ k ++ "'!")
  | .mk none b => by
    intro h
    have hs : lenv_scan k b = none := lenv_scan_eq_none.2 (h b (by simp [Lenv.scopes]))
    simp [lenv_get, hs]
  | .mk (some p) b => by
    intro h
    have hs : lenv_scan k b = none := lenv_scan_eq_none.2 (h b (by simp [Lenv.scopes]))
    have := lenv_get_unbound k p (fun s hs1 => h s (by simp [Lenv.scopes, hs1]))
    simp [lenv_get, hs, this]

theorem lenv_get_stored (k : String) : ∀ e : Lenv, (∃ s ∈ e.scopes, k ∈ keys s) →
    ∃ s ∈ e.scopes, (k, lenv_get e k) ∈ s := by
  intro e h
  obtain ⟨pre, b1, v, b2, post, h1, _, _, h4⟩ := lenv_get_nearest k e h
  exact ⟨b1 ++ (k, v) :: b2, by simp [h1], by simp [h4]⟩

theorem lenv_scan_put_same (k : String) (v : Lval) (b : List (String × Lval)) :
    lenv_scan k (lenv_put_binds k v b) = some v := by
  induction b with
  | nil => simp [lenv_put_binds, lenv_scan]
  | cons p r ih =>
    obtain ⟨s, w⟩ := p
    unfold lenv_put_binds
    by_cases h : s = k
    · simp [h, lenv_scan]
    · simp [h, lenv_scan, ih]

theorem lenv_scan_put_other {k j : String} (h : j ≠ k) (v : Lval) (b : List (String × Lval)) :
    lenv_scan j (lenv_put_binds k v b) = lenv_scan j b := by
  induction b with
  | nil =>
    have h2 : ¬ k = j := fun hh => h hh.symm
    simp [lenv_put_binds, lenv_scan, h2]
  | cons p r ih =>
    obtain ⟨s, w⟩ := p
    unfold lenv_put_binds
    by_cases hs : s = k
    · subst hs
      have h2 : ¬ s = j := fun hh => h hh.symm
      simp [lenv_scan, h2]
    · by_cases hj : s = j
      · subst hj
        simp [hs, lenv_scan]
      · simp [hs, lenv_scan, hj, ih]

theorem lenv_put_binds_fresh {k : String} (v : Lval) {b : List (String × Lval)}
    (h : k ∉ keys b) : lenv_put_binds k v b = b ++ [(k, v)] := by
  induction b with
  | nil => rfl
  | cons p r ih =>
    obtain ⟨s, w⟩ := p
    have hs : ¬ s = k := by
      intro hh; apply h; simp [keys, hh]
    have hr : k ∉ keys r := by
      intro hh; apply h; simp only [keys, List.map_cons, List.mem_cons]; right; exact hh
    simp [lenv_put_binds, hs, ih hr]

theorem lenv_put_binds_bound {k : String} (v : Lval) {b : List (String × Lval)}
    (h : k ∈ keys b) :
    ∃ b1 w b2, b = b1 ++ (k, w) :: b2 ∧ k ∉ keys b1 ∧
      lenv_put_binds k v b = b1 ++ (k, v) :: b2 := by
  induction b with
  | nil => simp [keys] at h
  | cons p r ih =>
    obtain ⟨s, w⟩ := p
    by_cases hs : s = k
    · subst hs
      exact ⟨[], w, r, rfl, by simp [keys], by simp [lenv_put_binds]⟩
    · have hr : k ∈ keys r := by
        simp only [keys, List.map_cons, List.mem_cons] at h
        rcases h with h | h
        · exact absurd h.symm hs
        · exact h
      obtain ⟨b1, w2, b2, h1, h2, h3⟩ := ih hr
      refine ⟨(s, w) :: b1, w2, b2, by simp [h1], ?_, by simp [lenv_put_binds, hs, h3]⟩
      have h4 : ¬ k = s := fun hh => hs hh.symm
      simpa [keys, h4] using h2

theorem keys_lenv_put_binds (k : String) (v : Lval) (b : List (String × Lval)) :
    keys (lenv_put_binds k v b) = if k ∈ keys b then keys b else keys b ++ [k] := by
  by_cases h : k ∈ keys b
  · obtain ⟨b1, w, b2, h1, _, h3⟩ := lenv_put_binds_bound v h
    rw [if_pos h, h3, h1]
    simp [keys]
  · rw [if_neg h, lenv_put_binds_fresh v h]
    simp [keys]

theorem lenv_get_congr {k : String} {par : Option Lenv} {b1 b2 : List (String × Lval)}
    (h : lenv_scan k b1 = lenv_scan k b2) : lenv_get (.mk par b1) k = lenv_get (.mk par b2) k := by
  cases par <;> simp [lenv_get, h]



theorem check_oprs_eq_none {msg : LType → Lval} {l : List Lval} :
    check_oprs msg l = none ↔ ∀ c ∈ l, c.type = .LVAL_OPR := by
  induction l with
  | nil => simp [check_oprs]
  | cons x r ih =>
    unfold check_oprs
    by_cases hx : x.type = .LVAL_OPR
    · simp [hx, ih]
    · simp [hx]

theorem check_oprs_eq_some {msg : LType → Lval} {l : List Lval} {er : Lval}
    (h : check_oprs msg l = some er) : ∃ t, er = msg t := by
  induction l with
  | nil => simp [check_oprs] at h
  | cons x r ih =>
    unfold check_oprs at h
    by_cases hx : x.type = .LVAL_OPR
    · simp only [hx, ne_eq, not_true_eq_false, if_false] at h
      exact ih h
    · simp only [hx, ne_eq, not_false_eq_true, if_true, Option.some.injEq] at h
      exact ⟨x.type, h.symm⟩

theorem lval_err_type (msg : String) : (lval_err msg).type = .LVAL_ERR := rfl

theorem lenv_def_root_binds (k : String) (v : Lval) :
    ∀ e : Lenv, (lenv_def e k v).root_binds = lenv_put_binds k v e.root_binds
  | .mk none b => by simp [lenv_def, lenv_put, Lenv.root_binds, lval_copy_eq]
  | .mk (some p) b => by
    simp only [lenv_def, Lenv.root_binds]
    exact lenv_def_root_binds k v p

theorem lenv_def_inner_scopes (k : String) (v : Lval) :
    ∀ e : Lenv, (lenv_def e k v).inner_scopes = e.inner_scopes
  | .mk none b => by simp [lenv_def, lenv_put, Lenv.inner_scopes]
  | .mk (some p) b => by
    simp only [lenv_def, Lenv.inner_scopes]
    rw [lenv_def_inner_scopes k v p]

theorem scopes_eq_inner_root : ∀ e : Lenv, e.scopes = e.inner_scopes ++ [e.root_binds]
  | .mk none b => by simp [Lenv.scopes, Lenv.inner_scopes, Lenv.root_binds]
  | .mk (some p) b => by
    simp only [Lenv.scopes, Lenv.inner_scopes, Lenv.root_binds, List.cons_append]
    rw [scopes_eq_inner_root p]

theorem foldl_lenv_def_root_binds (pairs : List (String × Lval)) : ∀ e : Lenv,
    (pairs.foldl (fun e p => lenv_def e p.1 p.2) e).root_binds =
      pairs.foldl (fun b p => lenv_put_binds p.1 p.2 b) e.root_binds := by
  induction pairs with
  | nil => intro e; rfl
  | cons p r ih =>
    intro e
    simp only [List.foldl_cons]
    rw [ih, lenv_def_root_binds]

theorem foldl_lenv_def_inner_scopes (pairs : List (String × Lval)) : ∀ e : Lenv,
    (pairs.foldl (fun e p => lenv_def e p.1 p.2) e).inner_scopes = e.inner_scopes := by
  induction pairs with
  | nil => intro e; rfl
  | cons p r ih =>
    intro e
    simp only [List.foldl_cons]
    rw [ih, lenv_def_inner_scopes]

theorem foldl_lenv_put (pairs : List (String × Lval)) : ∀ (par : Option Lenv)
    (b : List (String × Lval)),
    pairs.foldl (fun e p => lenv_put e p.1 p.2) (.mk par b) =
      .mk par (pairs.foldl (fun b p => lenv_put_binds p.1 p.2 b) b) := by
  induction pairs with
  | nil => intro par b; rfl
  | cons p r ih =>
    intro par b
    simp only [List.foldl_cons]
    rw [lenv_put_mk, ih]

theorem lenv_scan_foldl_put_of_not_mem {s : String} (pairs : List (String × Lval))
    (h : ∀ p ∈ pairs, p.1 ≠ s) : ∀ b : List (String × Lval),
    lenv_scan s (pairs.foldl (fun b p => lenv_put_binds p.1 p.2 b) b) = lenv_scan s b := by
  induction pairs with
  | nil => intro b; rfl
  | cons p r ih =>
    intro b
    simp only [List.foldl_cons]
    rw [ih (fun q hq => h q (List.mem_cons_of_mem _ hq))]
    exact lenv_scan_put_other (fun hh => h p (List.mem_cons_self _ _) hh.symm) _ _

/-- After a sequence of puts, a key whose last occurrence in the sequence is at
index `i` is bound to the value given at index `i`. -/
theorem lenv_scan_foldl_put (pairs : List (String × Lval)) :
    ∀ (b : List (String × Lval)) (i : Nat) (s : String) (v : Lval),
      pairs[i]? = some (s, v) → (∀ j p, i < j → pairs[j]? = some p → p.1 ≠ s) →
      lenv_scan s (pairs.foldl (fun b p => lenv_put_binds p.1 p.2 b) b) = some v := by
  induction pairs with
  | nil => intro b i s v h; simp at h
  | cons p r ih =>
    intro b i s v h hlast
    simp only [List.foldl_cons]
    cases i with
    | zero =>
      simp only [List.getElem?_cons_zero, Option.some.injEq] at h
      subst h
      rw [lenv_scan_foldl_put_of_not_mem]
      · exact lenv_scan_put_same _ _ _
      · intro q hq
        obtain ⟨j, hj⟩ := List.getElem?_of_mem hq
        exact hlast (j + 1) q (Nat.succ_pos j) (by simpa using hj)
    | succ i =>
      simp only [List.getElem?_cons_succ] at h
      apply ih _ i s v h
      intro j q hij hq
      exact hlast (j + 1) q (Nat.succ_lt_succ hij) (by simpa using hq)

theorem builtin_var_loop_def (pairs : List (String × Lval)) : ∀ e : Lenv,
    builtin_var_loop "def" e (pairs.map (fun p => .opr p.1)) (pairs.map Prod.snd) =
      pairs.foldl (fun e p => lenv_def e p.1 p.2) e := by
  induction pairs with
  | nil => intro e; rfl
  | cons p r ih =>
    intro e
    have h1 : ¬ ("def" = "=") := by decide
    simp only [List.map_cons, builtin_var_loop, List.foldl_cons, if_true, h1, if_false]
    exact ih _

theorem builtin_var_loop_put (pairs : List (String × Lval)) : ∀ e : Lenv,
    builtin_var_loop "=" e (pairs.map (fun p => .opr p.1)) (pairs.map Prod.snd) =
      pairs.foldl (fun e p => lenv_put e p.1 p.2) e := by
  induction pairs with
  | nil => intro e; rfl
  | cons p r ih =>
    intro e
    have h1 : ¬ ("=" = "def") := by decide
    simp only [List.map_cons, builtin_var_loop, List.foldl_cons, if_true, h1, if_false]
    exact ih _

theorem builtin_var_ok (e : Lenv) (pairs : List (String × Lval)) (func : String) :
    builtin_var e (.qexpr (pairs.map (fun p => .opr p.1)) :: pairs.map Prod.snd) func =
      .ok (.sexpr [], builtin_var_loop func e (pairs.map (fun p => .opr p.1))
        (pairs.map Prod.snd)) := by
  have h1 : check_oprs (fun t => lval_err ("Function 'def' cannot define non-operator! Got "
      ++ ltype_name t ++ ", Expected " ++ ltype_name .LVAL_OPR))
      (pairs.map (fun p => Lval.opr p.1)) = none := by
    rw [check_oprs_eq_none]
    intro c hc
    obtain ⟨p, _, rfl⟩ := List.mem_map.1 hc
    rfl
  simp [builtin_var, Lval.type, Lval.cell, h1]

/-! ### Evaluation keeps the length of the environment chain -/


theorem depth_lenv_put (e : Lenv) (k : String) (v : Lval) :
    (lenv_put e k v).depth = e.depth := by
  obtain ⟨par, b⟩ := e
  cases par <;> simp [lenv_put, Lenv.depth, Lenv.scopes]

theorem depth_lenv_def (k : String) (v : Lval) : ∀ e : Lenv, (lenv_def e k v).depth = e.depth
  | .mk none b => by simp [lenv_def, lenv_put, Lenv.depth, Lenv.scopes]
  | .mk (some p) b => by
    have := depth_lenv_def k v p
    simp only [Lenv.depth] at this
    simp [lenv_def, Lenv.depth, Lenv.scopes, this]

theorem depth_setPar (fe e : Lenv) : (fe.setPar e).depth = e.depth + 1 := by
  obtain ⟨par, b⟩ := fe
  simp [Lenv.setPar, Lenv.depth, Lenv.scopes]

theorem depth_builtin_var_loop (func : String) : ∀ (ks vs : List Lval) (e : Lenv),
    (builtin_var_loop func e ks vs).depth = e.depth := by
  intro ks
  induction ks with
  | nil => intro vs e; simp [builtin_var_loop]
  | cons k ks ih =>
    intro vs e
    cases vs with
    | nil => simp [builtin_var_loop]
    | cons v vs =>
      cases k <;> simp only [builtin_var_loop]
      rw [ih]
      split <;> split <;> simp [depth_lenv_put, depth_lenv_def]

theorem depth_builtin_var {e e1 : Lenv} {a : List Lval} {func : String} {r : Lval}
    (h : builtin_var e a func = .ok (r, e1)) : e1.depth = e.depth := by
  unfold builtin_var at h
  split at h
  · simp at h
  · split at h
    · simp only [Except.ok.injEq, Prod.mk.injEq] at h; rw [← h.2]
    · split at h
      · simp only [Except.ok.injEq, Prod.mk.injEq] at h; rw [← h.2]
      · split at h
        · simp only [Except.ok.injEq, Prod.mk.injEq] at h; rw [← h.2]
        · simp only [Except.ok.injEq, Prod.mk.injEq] at h
          rw [← h.2, depth_builtin_var_loop]

theorem depth_pure_builtin {e e1 : Lenv} {m : M Lval} {r : Lval}
    (h : pure_builtin e m = .ok (r, e1)) : e1.depth = e.depth := by
  unfold pure_builtin at h
  split at h
  · simp only [Except.ok.injEq, Prod.mk.injEq] at h; rw [← h.2]
  · simp at h

theorem depth_builtin_eval {ev : Eval} (hev : KeepsDepth ev) {e e1 : Lenv} {a : List Lval}
    {r : Lval} (h : builtin_eval ev e a = .ok (r, e1)) : e1.depth = e.depth := by
  unfold builtin_eval at h
  split at h
  · split at h
    · exact hev _ _ _ _ h
    · simp only [Except.ok.injEq, Prod.mk.injEq] at h; rw [← h.2]
  · simp only [Except.ok.injEq, Prod.mk.injEq] at h; rw [← h.2]

theorem depth_builtin_if {ev : Eval} (hev : KeepsDepth ev) {e e1 : Lenv} {a : List Lval}
    {r : Lval} (h : builtin_if ev e a = .ok (r, e1)) : e1.depth = e.depth := by
  unfold builtin_if at h
  split at h
  · split at h
    · split at h <;> exact hev _ _ _ _ h
    all_goals (simp only [Except.ok.injEq, Prod.mk.injEq] at h; rw [← h.2])
  · simp only [Except.ok.injEq, Prod.mk.injEq] at h; rw [← h.2]

theorem depth_builtin_load_loop {ev : Eval} (hev : KeepsDepth ev) :
    ∀ (xs : List Lval) (e e1 : Lenv), builtin_load_loop ev e xs = .ok e1 → e1.depth = e.depth := by
  intro xs
  induction xs with
  | nil =>
    intro e e1 h
    simp only [builtin_load_loop, Except.ok.injEq] at h
    rw [h]
  | cons x xs ih =>
    intro e e1 h
    unfold builtin_load_loop at h
    split at h
    · rename_i v e2 hx
      rw [ih _ _ h, hev _ _ _ _ hx]
    · simp at h

theorem depth_builtin_load {H : Host} {ev : Eval} (hev : KeepsDepth ev) {e e1 : Lenv}
    {a : List Lval} {r : Lval} (h : builtin_load H ev e a = .ok (r, e1)) :
    e1.depth = e.depth := by
  unfold builtin_load at h
  split at h
  · split at h
    · split at h
      · split at h
        · rename_i e2 hl
          simp only [Except.ok.injEq, Prod.mk.injEq] at h
          rw [← h.2, depth_builtin_load_loop hev _ _ _ hl]
        · simp at h
      · simp only [Except.ok.injEq, Prod.mk.injEq] at h; rw [← h.2]
    · simp only [Except.ok.injEq, Prod.mk.injEq] at h; rw [← h.2]
  · simp only [Except.ok.injEq, Prod.mk.injEq] at h; rw [← h.2]

theorem depth_call_builtin {H : Host} {ev : Eval} (hev : KeepsDepth ev) {b : Builtin}
    {e e1 : Lenv} {a : List Lval} {r : Lval} (h : call_builtin H ev b e a = .ok (r, e1)) :
    e1.depth = e.depth := by
  cases b <;> simp only [call_builtin] at h <;>
    first
    | exact depth_pure_builtin h
    | exact depth_builtin_var h
    | exact depth_builtin_eval hev h
    | exact depth_builtin_if hev h
    | exact depth_builtin_load hev h
    | (simp only [Except.ok.injEq, Prod.mk.injEq] at h; rw [← h.2])

theorem lval_call_leave_ok {m : M (Lval × Lenv)} {r : Lval} {e1 : Lenv}
    (h : lval_call_leave m = .ok (r, e1)) :
    ∃ b, m = .ok (r, .mk (some e1) b) := by
  unfold lval_call_leave at h
  split at h
  · simp only [Except.ok.injEq, Prod.mk.injEq] at h
    obtain ⟨rfl, rfl⟩ := h
    exact ⟨_, rfl⟩
  · simp at h
  · simp at h

theorem depth_lval_call_finish {ev : Eval} (hev : KeepsDepth ev) {e fe e1 : Lenv}
    {formals body r : Lval} {fs : List Lval}
    (h : lval_call_finish ev e fe formals fs body = .ok (r, e1)) : e1.depth = e.depth := by
  unfold lval_call_finish at h
  split at h
  · obtain ⟨b, hb⟩ := lval_call_leave_ok h
    have h1 := depth_builtin_eval hev hb
    rw [depth_setPar] at h1
    simp only [Lenv.depth, Lenv.scopes, List.length_cons, Nat.add_right_cancel_iff] at h1
    exact h1
  · simp only [Except.ok.injEq, Prod.mk.injEq] at h; rw [← h.2]

theorem depth_lval_call {H : Host} {ev : Eval} (hev : KeepsDepth ev) {e e1 : Lenv}
    {f r : Lval} {a : List Lval} (h : lval_call H ev e f a = .ok (r, e1)) :
    e1.depth = e.depth := by
  unfold lval_call at h
  split at h
  · exact depth_call_builtin hev h
  · split at h
    · simp at h
    · split at h
      · simp at h
      · simp only [Except.ok.injEq, Prod.mk.injEq] at h; rw [← h.2]
      · split at h
        · simp at h
        · simp only [Except.ok.injEq, Prod.mk.injEq] at h; rw [← h.2]
        · exact depth_lval_call_finish hev h
  · simp at h

theorem depth_lval_eval_cells {ev : Eval} (hev : KeepsDepth ev) :
    ∀ (cell : List Lval) (e e1 : Lenv) (vs : List Lval),
      lval_eval_cells ev e cell = .ok (vs, e1) → e1.depth = e.depth := by
  intro cell
  induction cell with
  | nil =>
    intro e e1 vs h
    simp only [lval_eval_cells, Except.ok.injEq, Prod.mk.injEq] at h
    rw [← h.2]
  | cons c cs ih =>
    intro e e1 vs h
    unfold lval_eval_cells at h
    split at h
    · simp at h
    · rename_i c1 e2 hc
      split at h
      · simp at h
      · rename_i cs1 e3 hr
        simp only [Except.ok.injEq, Prod.mk.injEq] at h
        rw [← h.2, ih _ _ _ hr, hev _ _ _ _ hc]

theorem depth_lval_eval_sexpr {H : Host} {ev : Eval} (hev : KeepsDepth ev) {e e1 : Lenv}
    {cell : List Lval} {r : Lval} (h : lval_eval_sexpr H ev e cell = .ok (r, e1)) :
    e1.depth = e.depth := by
  unfold lval_eval_sexpr at h
  split at h
  · simp at h
  · rename_i vs e2 hc
    have h2 := depth_lval_eval_cells hev _ _ _ _ hc
    split at h
    · simp only [Except.ok.injEq, Prod.mk.injEq] at h; rw [← h.2, h2]
    · split at h
      · simp only [Except.ok.injEq, Prod.mk.injEq] at h; rw [← h.2, h2]
      · simp only [Except.ok.injEq, Prod.mk.injEq] at h; rw [← h.2, h2]
      · split at h
        · simp only [Except.ok.injEq, Prod.mk.injEq] at h; rw [← h.2, h2]
        · rw [depth_lval_call hev h, h2]

/-- Evaluation returns an environment chain of the length it started with. -/
theorem lval_eval_keeps_depth (H : Host) : ∀ n : Nat, KeepsDepth (lval_eval H n) := by
  intro n
  induction n with
  | zero =>
    intro e v r e1 h
    cases v <;> simp only [lval_eval, Except.ok.injEq, Prod.mk.injEq] at h <;>
      first | (rw [← h.2]) | (cases h)
  | succ n ih =>
    intro e v r e1 h
    cases v <;> simp only [lval_eval, Except.ok.injEq, Prod.mk.injEq] at h <;>
      first | (rw [← h.2]) | exact depth_lval_eval_sexpr ih h

/-! ### The binding loop of `lval_call` -/

/-- The binding loop of `lval_call` on formals that start with the symbols `ps`,
none of them `&`, and at most as many arguments: each argument is put under its
formal, in order, and the formals not reached are left. -/
theorem lval_call_bind_prefix (given total : Nat) (rest : List Lval) :
    ∀ (ps : List String) (as : List Lval) (fe : Lenv), "&" ∉ ps → as.length ≤ ps.length →
      lval_call_bind given total fe (ps.map .opr ++ rest) as =
        .ok (.ok ((ps.zip as).foldl (fun c p => lenv_put c p.1 p.2) fe,
          (ps.drop as.length).map .opr ++ rest)) := by
  intro ps
  induction ps with
  | nil =>
    intro as fe _ hl
    cases as with
    | nil => simp [lval_call_bind]
    | cons v a => simp at hl
  | cons s ps ih =>
    intro as fe hamp hl
    cases as with
    | nil => simp [lval_call_bind]
    | cons v a =>
      have hs : ¬ s = "&" := fun h => hamp (by simp [h])
      have hps : "&" ∉ ps := fun h => hamp (List.mem_cons_of_mem _ h)
      simp only [List.length_cons, Nat.add_le_add_iff_right] at hl
      simp only [List.map_cons, List.cons_append, lval_call_bind, hs, if_false, List.zip_cons_cons,
        List.foldl_cons, List.length_cons, List.drop_succ_cons]
      exact ih a _ hps hl

/-- The binding loop of `lval_call` on formals `ps`, `&`, `r` and more arguments
than `ps` has symbols: the surplus arguments are put under `r` as one
Q-expression and no formal is left. -/
theorem lval_call_bind_variadic (given total : Nat) (r : String) :
    ∀ (ps : List String) (as : List Lval) (fe : Lenv), "&" ∉ ps → ps.length < as.length →
      lval_call_bind given total fe (ps.map .opr ++ [.opr "&", .opr r]) as =
        .ok (.ok (lenv_put ((ps.zip as).foldl (fun c p => lenv_put c p.1 p.2) fe) r
          (.qexpr (as.drop ps.length)), [])) := by
  intro ps
  induction ps with
  | nil =>
    intro as fe _ hl
    cases as with
    | nil => simp at hl
    | cons v a => simp [lval_call_bind, builtin_list]
  | cons s ps ih =>
    intro as fe hamp hl
    cases as with
    | nil => simp at hl
    | cons v a =>
      have hs : ¬ s = "&" := fun h => hamp (by simp [h])
      have hps : "&" ∉ ps := fun h => hamp (List.mem_cons_of_mem _ h)
      simp only [List.length_cons, Nat.add_lt_add_iff_right] at hl
      simp only [List.map_cons, List.cons_append, lval_call_bind, hs, if_false, List.zip_cons_cons,
        List.foldl_cons, List.length_cons, List.drop_succ_cons]
      exact ih a _ hps hl

/-- The step after the loop leaves formals alone that do not start with `&`. -/
theorem lval_call_rest_plain (fe : Lenv) (qs : List String) (h : "&" ∉ qs) :
    lval_call_rest fe (qs.map .opr) = .ok (.ok (fe, qs.map .opr)) := by
  cases qs with
  | nil => rfl
  | cons s qs =>
    have hs : ¬ s = "&" := fun hh => h (by simp [hh])
    simp [lval_call_rest, hs]

/-- A lambda whose formals are all bound evaluates its body, retagged as an
S-expression, in its environment with parent `e`. -/
theorem lval_call_finish_full (ev : Eval) (e fe : Lenv) (formals : Lval) (bs : List Lval) :
    lval_call_finish ev e fe formals [] (.qexpr bs) =
      lval_call_leave (ev (fe.setPar e) (.sexpr bs)) := by
  simp only [lval_call_finish, lval_copy_eq, builtin_eval]

/-- A lambda with formals left is returned, with the bindings made so far. -/
theorem lval_call_finish_curried (ev : Eval) (e fe : Lenv) (fs0 : List Lval) (f : Lval)
    (fs : List Lval) (body : Lval) :
    lval_call_finish ev e fe (.qexpr fs0) (f :: fs) body =
      .ok (.lambda fe (.qexpr (f :: fs)) body, e) := by
  simp only [lval_call_finish, lval_copy_eq, Lval.setCells]

theorem depth_pos (e : Lenv) : 0 < e.depth := by
  obtain ⟨par, b⟩ := e
  cases par <;> simp [Lenv.depth, Lenv.scopes]

/-- Returning from a body evaluated by `lval_eval` in a scope with a parent. -/
theorem lval_call_leave_eval (H : Host) (n : Nat) (fe e : Lenv) (v r : Lval) (env1 : Lenv)
    (h : lval_eval H n (fe.setPar e) v = .ok (r, env1)) :
    ∃ e1, env1.par = some e1 ∧ lval_call_leave (lval_eval H n (fe.setPar e) v) = .ok (r, e1) := by
  have hd := lval_eval_keeps_depth H n _ _ _ _ h
  rw [depth_setPar] at hd
  obtain ⟨par, b⟩ := env1
  cases par with
  | none =>
    have := depth_pos e
    simp only [Lenv.depth, Lenv.scopes, List.length_singleton] at hd this
    omega
  | some e1 => exact ⟨e1, rfl, by rw [h]; rfl⟩

theorem zip_take_drop (ps : List String) (as : List Lval) (k : Nat) :
    ps.zip as = (ps.take k).zip (as.take k) ++ (ps.drop k).zip (as.drop k) := by
  induction ps generalizing as k with
  | nil => simp
  | cons s ps ih =>
    cases as with
    | nil => simp
    | cons v a =>
      cases k with
      | zero => simp
      | succ k => simp [← ih]

theorem zip_take_right (ps : List String) (as : List Lval) (k : Nat) :
    ps.zip (as.take k) = (ps.take k).zip (as.take k) := by
  induction ps generalizing as k with
  | nil => simp
  | cons s ps ih =>
    cases as with
    | nil => simp
    | cons v a =>
      cases k with
      | zero => simp
      | succ k => simp [ih]

/-! ### Facts for the call errors, the arithmetic and the comparisons -/

/-- An S-expression whose only cell is a symbol evaluates to the value of the
symbol: the value is returned as it is, a Function too. -/
theorem lval_eval_sole_symbol (H : Host) (n : Nat) (e : Lenv) (s : String) :
    lval_eval H (n + 1) e (.sexpr [.opr s]) = .ok (lenv_get e s, e) := by
  have h : lval_eval H n e (.opr s) = .ok (lenv_get e s, e) := by cases n <;> rfl
  simp only [lval_eval, lval_eval_sexpr, lval_eval_cells, h, first_err]
  by_cases ht : (lenv_get e s).type = .LVAL_ERR <;> simp [ht]

/-- A count that fits a C `int` prints in at most ten digits. -/
theorem toString_length_int {n : Nat} (h : n < 2 ^ 31) : (toString n).length ≤ 10 := by
  have h2 : n < 10 ^ 10 := lt_trans h (by norm_num)
  exact Nat.repr_length n 10 (by norm_num) h2

/-- The binding loop of `lval_call` on formals that are the symbols `ps`, none
of them `&`, and more arguments than formals: after binding every formal it
finds arguments left. -/
theorem lval_call_bind_too_many (given total : Nat) :
    ∀ (ps : List String) (as : List Lval) (fe : Lenv), "&" ∉ ps → ps.length < as.length →
      lval_call_bind given total fe (ps.map .opr) as =
        .ok (.error (lval_err ("Function passed too many arguments! Got " ++ toString given
          ++ ", Expected " ++ toString total ++ "."))) := by
  intro ps
  induction ps with
  | nil =>
    intro as fe _ hl
    cases as with
    | nil => simp at hl
    | cons v a => simp [lval_call_bind]
  | cons s ps ih =>
    intro as fe hamp hl
    cases as with
    | nil => simp at hl
    | cons v a =>
      have hs : ¬ s = "&" := fun h => hamp (by simp [h])
      have hps : "&" ∉ ps := fun h => hamp (List.mem_cons_of_mem _ h)
      simp only [List.length_cons, Nat.add_lt_add_iff_right] at hl
      simp only [List.map_cons, lval_call_bind, hs, if_false]
      exact ih a _ hps hl

/-- The binding loop of `lval_call` reaching `&` with arguments left and a
number of formals after it other than one. -/
theorem lval_call_bind_bad_amp (given total : Nat) (rest : List Lval) (hrest : rest.length ≠ 1) :
    ∀ (ps : List String) (as : List Lval) (fe : Lenv), "&" ∉ ps → ps.length < as.length →
      lval_call_bind given total fe (ps.map .opr ++ .opr "&" :: rest) as =
        .ok (.error (lval_err
          "Function formal invalid! Operator '&' not followed by a single operator.")) := by
  intro ps
  induction ps with
  | nil =>
    intro as fe _ hl
    cases as with
    | nil => simp at hl
    | cons v a =>
      simp only [List.map_nil, List.nil_append, lval_call_bind, if_true]
      cases rest with
      | nil => rfl
      | cons r1 rest =>
        cases rest with
        | nil => simp at hrest
        | cons r2 rest => rfl
  | cons s ps ih =>
    intro as fe hamp hl
    cases as with
    | nil => simp at hl
    | cons v a =>
      have hs : ¬ s = "&" := fun h => hamp (by simp [h])
      have hps : "&" ∉ ps := fun h => hamp (List.mem_cons_of_mem _ h)
      simp only [List.length_cons, Nat.add_lt_add_iff_right] at hl
      simp only [List.map_cons, List.cons_append, lval_call_bind, hs, if_false]
      exact ih a _ hps hl

/-- The step after the loop on formals that start with `&` and are not two. -/
theorem lval_call_rest_bad_amp (fe : Lenv) (rest : List Lval) (hrest : rest.length ≠ 1) :
    lval_call_rest fe (.opr "&" :: rest) =
      .ok (.error (lval_err
        "Function format invalid! Symbol '&' no followed by a single symbol.")) := by
  simp only [lval_call_rest, if_true]
  cases rest with
  | nil => rfl
  | cons r1 rest =>
    cases rest with
    | nil => simp at hrest
    | cons r2 rest => rfl

theorem ltype_name_length (t : LType) : (ltype_name t).length ≤ 12 := by
  cases t <;> decide

theorem wrap64_of_in_long {z : Int} (h : in_long z) : wrap64 z = z := by
  unfold in_long at h
  unfold wrap64
  norm_num at h ⊢
  omega

theorem check_types_nums (func : String) (ns : List Int) : ∀ k : Nat,
    check_types func .LVAL_NUM k (ns.map .num) = none := by
  induction ns with
  | nil => intro k; rfl
  | cons n ns ih => intro k; simp [check_types, Lval.type, ih]

/-- The type assertion loop stops at the first cell of another type and names
its index. -/
theorem check_types_first_bad (func : String) (expect : LType) :
    ∀ (a : List Lval) (k i : Nat) (x : Lval), a[i]? = some x → x.type ≠ expect →
      (∀ j y, j < i → a[j]? = some y → y.type = expect) →
      check_types func expect k a = some (err_type func (k + i) x.type expect) := by
  intro a
  induction a with
  | nil => intro k i x h; simp at h
  | cons c cs ih =>
    intro k i x h hx hbefore
    cases i with
    | zero =>
      simp only [List.getElem?_cons_zero, Option.some.injEq] at h
      subst h
      simp [check_types, hx]
    | succ i =>
      simp only [List.getElem?_cons_succ] at h
      have hc : c.type = expect := hbefore 0 c (Nat.succ_pos i) (by simp)
      have := ih (k + 1) i x h hx (fun j y hj hy => hbefore (j + 1) y (Nat.succ_lt_succ hj)
        (by simpa using hy))
      simp only [check_types, hc, ne_eq, not_true_eq_false, if_false, this]
      congr 2
      omega

theorem builtin_op_loop_step (H : Host) {op : String}
    (hop : op ∈ ["+", "-", "*", "min", "max"]) (x y : Int) (r : List Lval)
    (h : in_long (spec_arith op x y)) :
    builtin_op_loop H op x (.num y :: r) = builtin_op_loop H op (spec_arith op x y) r := by
  simp only [List.mem_cons, List.mem_singleton, List.not_mem_nil, or_false] at hop
  rcases hop with rfl | rfl | rfl | rfl | rfl
  · have e1 : spec_arith "+" x y = x + y := by simp [spec_arith]
    rw [e1] at h ⊢
    simp [builtin_op_loop, wrap64_of_in_long h]
  · have e1 : spec_arith "-" x y = x - y := by simp [spec_arith]
    rw [e1] at h ⊢
    simp [builtin_op_loop, wrap64_of_in_long h]
  · have e1 : spec_arith "*" x y = x * y := by simp [spec_arith]
    rw [e1] at h ⊢
    simp [builtin_op_loop, wrap64_of_in_long h]
  · have e1 : spec_arith "min" x y = if x < y then x else y := by
      simp only [spec_arith]
      simp only [show ¬ ("min" = "+") by decide, show ¬ ("min" = "-") by decide,
        show ¬ ("min" = "*") by decide, if_false, if_true, min_def]
      split_ifs <;> omega
    rw [e1]
    simp [builtin_op_loop]
  · have e1 : spec_arith "max" x y = if x > y then x else y := by
      simp only [spec_arith]
      simp only [show ¬ ("max" = "+") by decide, show ¬ ("max" = "-") by decide,
        show ¬ ("max" = "*") by decide, show ¬ ("max" = "min") by decide, if_false, if_true,
        max_def]
      split_ifs <;> omega
    rw [e1]
    simp [builtin_op_loop]

theorem builtin_op_loop_fold (H : Host) {op : String}
    (hop : op ∈ ["+", "-", "*", "min", "max"]) : ∀ (rest : List Int) (x : Int),
    (∀ i, i ≤ rest.length → in_long ((rest.take i).foldl (spec_arith op) x)) →
    builtin_op_loop H op x (rest.map .num) = .ok (.num (rest.foldl (spec_arith op) x)) := by
  intro rest
  induction rest with
  | nil => intro x _; rfl
  | cons y r ih =>
    intro x h
    have h1 := h 1 (by simp)
    simp only [List.take_succ_cons, List.take_zero, List.foldl_cons, List.foldl_nil] at h1
    simp only [List.map_cons, List.foldl_cons]
    rw [builtin_op_loop_step H hop x y _ h1]
    apply ih
    intro i hi
    have := h (i + 1) (by simpa using hi)
    simpa using this

/-- The loop of `builtin_op` for `/` on numbers: the first zero divisor ends it
with the Error, provided no step before it divides `-2^63` by `-1`. -/
theorem builtin_op_loop_div (H : Host) : ∀ (rest : List Int) (x : Int),
    (∀ i y, rest[i]? = some y → (∀ j, j < i → rest[j]? ≠ some 0) →
      ¬ ((rest.take i).foldl Int.tdiv x = -(2 ^ 63) ∧ y = -1)) →
    builtin_op_loop H "/" x (rest.map .num) =
      if 0 ∈ rest then .ok (.err "Division By Zero!")
      else .ok (.num (rest.foldl Int.tdiv x)) := by
  intro rest
  induction rest with
  | nil => intro x _; rfl
  | cons y r ih =>
    intro x h
    have hne1 : ¬ ("/" = "+") := by decide
    have hne2 : ¬ ("/" = "-") := by decide
    have hne3 : ¬ ("/" = "*") := by decide
    simp only [List.map_cons, builtin_op_loop, hne1, hne2, hne3, if_false, if_true]
    by_cases hy : y = 0
    · subst hy
      simp only [if_true, List.mem_cons, true_or]
      rfl
    · have h0 := h 0 y (by simp) (by intro j hj; omega)
      simp only [List.take_zero, List.foldl_nil] at h0
      have hy2 : ¬ (0 = y) := fun hh => hy hh.symm
      simp only [hy, if_false, h0, List.mem_cons, hy2, false_or, List.foldl_cons]
      apply ih
      intro i z hz hbefore
      have := h (i + 1) z (by simpa using hz) (by
        intro j hj
        cases j with
        | zero => simp [hy]
        | succ j =>
          simp only [List.getElem?_cons_succ]
          exact hbefore j (by omega))
      simpa using this

theorem err_type_type (func : String) (i : Nat) (got expect : LType) :
    (err_type func i got expect).type = .LVAL_ERR := rfl

theorem err_num_type (func : String) (got expect : Nat) :
    (err_num func got expect).type = .LVAL_ERR := rfl

mutual
theorem lval_eq_refl : ∀ x : Lval, lval_eq x x = true
  | .err m => by simp [lval_eq]
  | .num n => by simp [lval_eq]
  | .opr s => by simp [lval_eq]
  | .str s => by simp [lval_eq]
  | .builtin b => by simp [lval_eq]
  | .lambda env f b => by simp [lval_eq, lval_eq_refl f, lval_eq_refl b]
  | .sexpr c => by simp [lval_eq, lval_eq_cells_refl c]
  | .qexpr c => by simp [lval_eq, lval_eq_cells_refl c]
theorem lval_eq_cells_refl : ∀ xs : List Lval, lval_eq_cells xs xs = true
  | [] => by simp [lval_eq_cells]
  | x :: r => by simp [lval_eq_cells, lval_eq_refl x, lval_eq_cells_refl r]
end

mutual
theorem lval_eq_symm : ∀ x y : Lval, lval_eq x y = lval_eq y x
  | .err m, y => by cases y <;> simp [lval_eq, eq_comm]
  | .num n, y => by cases y <;> simp [lval_eq, eq_comm]
  | .opr s, y => by cases y <;> simp [lval_eq, eq_comm]
  | .str s, y => by cases y <;> simp [lval_eq, eq_comm]
  | .builtin b, y => by cases y <;> simp [lval_eq, eq_comm]
  | .lambda env f b, y => by
    cases y with
    | lambda env2 f2 b2 => simp [lval_eq, lval_eq_symm f f2, lval_eq_symm b b2]
    | _ => simp [lval_eq]
  | .sexpr c, y => by
    cases y with
    | sexpr c2 => simp [lval_eq, lval_eq_cells_symm c c2]
    | _ => simp [lval_eq]
  | .qexpr c, y => by
    cases y with
    | qexpr c2 => simp [lval_eq, lval_eq_cells_symm c c2]
    | _ => simp [lval_eq]
theorem lval_eq_cells_symm : ∀ xs ys : List Lval, lval_eq_cells xs ys = lval_eq_cells ys xs
  | [], ys => by cases ys <;> simp [lval_eq_cells]
  | x :: r, ys => by
    cases ys with
    | nil => simp [lval_eq_cells]
    | cons y r2 => simp [lval_eq_cells, lval_eq_symm x y, lval_eq_cells_symm r r2]
end

mutual
theorem lval_eq_trans : ∀ x y z : Lval, lval_eq x y = true → lval_eq y z = true →
    lval_eq x z = true
  | .err m, y, z => by
    cases y <;> cases z <;> simp [lval_eq]
    intro h1 h2; rw [h1, h2]
  | .num n, y, z => by
    cases y <;> cases z <;> simp [lval_eq]
    intro h1 h2; rw [h1, h2]
  | .opr s, y, z => by
    cases y <;> cases z <;> simp [lval_eq]
    intro h1 h2; rw [h1, h2]
  | .str s, y, z => by
    cases y <;> cases z <;> simp [lval_eq]
    intro h1 h2; rw [h1, h2]
  | .builtin b, y, z => by
    cases y <;> cases z <;> simp [lval_eq]
    intro h1 h2; rw [h1, h2]
  | .lambda env f b, y, z => by
    cases y <;> cases z <;> simp [lval_eq]
    rename_i e2 f2 b2 e3 f3 b3
    intro h1 h2 h3 h4
    exact ⟨lval_eq_trans f f2 f3 h1 h3, lval_eq_trans b b2 b3 h2 h4⟩
  | .sexpr c, y, z => by
    cases y <;> cases z <;> simp [lval_eq]
    rename_i c2 c3
    exact lval_eq_cells_trans c c2 c3
  | .qexpr c, y, z => by
    cases y <;> cases z <;> simp [lval_eq]
    rename_i c2 c3
    exact lval_eq_cells_trans c c2 c3
theorem lval_eq_cells_trans : ∀ xs ys zs : List Lval, lval_eq_cells xs ys = true →
    lval_eq_cells ys zs = true → lval_eq_cells xs zs = true
  | [], ys, zs => by
    cases ys <;> cases zs <;> simp [lval_eq_cells]
  | x :: r, ys, zs => by
    cases ys <;> cases zs <;> simp [lval_eq_cells]
    rename_i y r2 z r3
    intro h1 h2 h3 h4
    exact ⟨lval_eq_trans x y z h1 h3, lval_eq_cells_trans r r2 r3 h2 h4⟩
end

theorem lval_eq_of_type_ne : ∀ x y : Lval, x.type ≠ y.type → lval_eq x y = false := by
  intro x y h
  cases x <;> cases y <;> first | (simp [lval_eq]; done) | (exact absurd rfl h)

/-- The list case of `lval_eq`: equal lengths and equal cells at every index. -/
theorem lval_eq_cells_iff : ∀ xs ys : List Lval, lval_eq_cells xs ys = true ↔
    xs.length = ys.length ∧ ∀ (i : Nat) (x y : Lval), xs[i]? = some x → ys[i]? = some y → lval_eq x y = true
  | [], ys => by
    cases ys <;> simp [lval_eq_cells]
  | x :: r, ys => by
    cases ys with
    | nil => simp [lval_eq_cells]
    | cons y r2 =>
      simp only [lval_eq_cells, Bool.and_eq_true, lval_eq_cells_iff r r2, List.length_cons,
        Nat.add_right_cancel_iff]
      constructor
      · rintro ⟨h1, h2, h3⟩
        refine ⟨h2, ?_⟩
        intro i a b ha hb
        cases i with
        | zero =>
          simp only [List.getElem?_cons_zero, Option.some.injEq] at ha hb
          subst ha; subst hb; exact h1
        | succ i =>
          simp only [List.getElem?_cons_succ] at ha hb
          exact h3 i a b ha hb
      · rintro ⟨h1, h2⟩
        refine ⟨h2 0 x y (by simp) (by simp), h1, ?_⟩
        intro i a b ha hb
        exact h2 (i + 1) a b (by simpa using ha) (by simpa using hb)

theorem builtin_cmp_arity (a : List Lval) (op : String) (h : a.length ≠ 2) :
    builtin_cmp a op = .ok (err_num op a.length 2) := by
  match a, h with
  | [], _ => rfl
  | [_], _ => rfl
  | [_, _], h => simp at h
  | _ :: _ :: _ :: _, _ => rfl

theorem builtin_ord_arity (a : List Lval) (op : String) (h : a.length ≠ 2) :
    builtin_ord a op = .ok (err_num op a.length 2) := by
  match a, h with
  | [], _ => rfl
  | [_], _ => rfl
  | [_, _], h => simp at h
  | _ :: _ :: _ :: _, _ => rfl

theorem builtin_ord_type (x y : Lval) (op : String)
    (h : x.type ≠ .LVAL_NUM ∨ y.type ≠ .LVAL_NUM) :
    ∃ er : Lval, er.type = .LVAL_ERR ∧ builtin_ord [x, y] op = .ok er := by
  by_cases hx : x.type = .LVAL_NUM
  · have hy : y.type ≠ .LVAL_NUM := by
      rcases h with h | h
      · exact absurd hx h
      · exact h
    refine ⟨err_type op 1 y.type .LVAL_NUM, rfl, ?_⟩
    cases x <;> simp only [Lval.type] at hx <;> try cases hx
    cases y <;> first | rfl | exact absurd rfl hy
  · refine ⟨err_type op 0 x.type .LVAL_NUM, rfl, ?_⟩
    cases x <;> first | rfl | exact absurd rfl hx

/-! ### Facts for the list builtins, `error` and the lambda constructor -/

theorem err_empty_type (func : String) (i : Nat) : (err_empty func i).type = .LVAL_ERR := rfl

theorem builtin_head_arity (a : List Lval) (h : a.length ≠ 1) :
    builtin_head a = .ok (err_num "head" a.length 1) := by
  match a, h with
  | [], _ => rfl
  | [_], h => simp at h
  | _ :: _ :: _, _ => rfl

theorem builtin_tail_arity (a : List Lval) (h : a.length ≠ 1) :
    builtin_tail a = .ok (err_num "tail" a.length 1) := by
  match a, h with
  | [], _ => rfl
  | [_], h => simp at h
  | _ :: _ :: _, _ => rfl

theorem builtin_head_type (x : Lval) (h : x.type ≠ .LVAL_QEXPR) :
    builtin_head [x] = .ok (err_type "head" 0 x.type .LVAL_QEXPR) := by
  cases x <;> first | rfl | exact absurd rfl h

theorem builtin_tail_type (x : Lval) (h : x.type ≠ .LVAL_QEXPR) :
    builtin_tail [x] = .ok (err_type "tail" 0 x.type .LVAL_QEXPR) := by
  cases x <;> first | rfl | exact absurd rfl h

theorem check_types_eq_none {func : String} {expect : LType} {a : List Lval} : ∀ {k : Nat},
    check_types func expect k a = none ↔ ∀ x ∈ a, x.type = expect := by
  induction a with
  | nil => intro k; simp [check_types]
  | cons c cs ih =>
    intro k
    by_cases hc : c.type = expect
    · simp [check_types, hc, ih]
    · simp [check_types, hc]

theorem check_types_eq_some {func : String} {expect : LType} {a : List Lval} {er : Lval} :
    ∀ {k : Nat}, check_types func expect k a = some er → er.type = .LVAL_ERR := by
  induction a with
  | nil => intro k h; simp [check_types] at h
  | cons c cs ih =>
    intro k h
    by_cases hc : c.type = expect
    · simp only [check_types, hc, ne_eq, not_true_eq_false, if_false] at h
      exact ih h
    · simp only [check_types, hc, ne_eq, not_false_eq_true, if_true, Option.some.injEq] at h
      rw [← h]; rfl

theorem lval_join_qexpr (xs ys : List Lval) :
    lval_join (.qexpr xs) (.qexpr ys) = .qexpr (xs ++ ys) := by
  unfold lval_join
  simp only [Lval.cell]
  induction ys generalizing xs with
  | nil => simp
  | cons y r ih =>
    simp only [List.foldl_cons]
    have : lval_add (.qexpr xs) y = .qexpr (xs ++ [y]) := rfl
    rw [this, ih]
    simp

theorem builtin_join_loop_qexpr (qs : List (List Lval)) : ∀ xs : List Lval,
    builtin_join_loop (.qexpr xs) (qs.map .qexpr) = .qexpr (xs ++ qs.flatten) := by
  induction qs with
  | nil => intro xs; simp [builtin_join_loop]
  | cons q r ih =>
    intro xs
    simp only [List.map_cons, builtin_join_loop, lval_join_qexpr, ih, List.flatten_cons,
      List.append_assoc]

theorem check_oprs_lval_err_type {msg : LType → String} {l : List Lval} {er : Lval}
    (h : check_oprs (fun t => lval_err (msg t)) l = some er) : er.type = .LVAL_ERR := by
  obtain ⟨t, rfl⟩ := check_oprs_eq_some h
  rfl

theorem format_noargs_plain : ∀ l : List Char, '%' ∉ l → format_noargs l = some l
  | [], _ => rfl
  | c :: r, h => by
    have hc : c ≠ '%' := fun hh => h (by simp [hh])
    have hr : '%' ∉ r := fun hh => h (List.mem_cons_of_mem _ hh)
    have ih := format_noargs_plain r hr
    unfold format_noargs
    split
    · rename_i heq; cases heq
    · rename_i heq
      simp only [List.cons.injEq] at heq
      exact absurd heq.1 hc
    · rename_i heq
      simp only [List.cons.injEq] at heq
      exact absurd heq.1 hc
    · rename_i c2 r2 _ _ heq
      simp only [List.cons.injEq] at heq
      obtain ⟨rfl, rfl⟩ := heq
      rw [ih]; rfl

/-! ### Node predicates kept by evaluation -/

theorem cells_all_iff {p : Lval → Bool} {l : List Lval} :
    cells_all p l = true ↔ ∀ x ∈ l, lval_all p x = true := by
  induction l with
  | nil => simp [cells_all]
  | cons x r ih => simp [cells_all, ih]

theorem cells_all_append {p : Lval → Bool} {l1 l2 : List Lval} :
    cells_all p (l1 ++ l2) = true ↔ cells_all p l1 = true ∧ cells_all p l2 = true := by
  simp only [cells_all_iff, List.mem_append]
  constructor
  · intro h; exact ⟨fun x hx => h x (Or.inl hx), fun x hx => h x (Or.inr hx)⟩
  · rintro ⟨h1, h2⟩ x (hx | hx)
    · exact h1 x hx
    · exact h2 x hx

theorem binds_all_iff {p : Lval → Bool} {b : List (String × Lval)} :
    binds_all p b = true ↔ ∀ q ∈ b, lval_all p q.2 = true := by
  induction b with
  | nil => simp [binds_all]
  | cons q r ih =>
    obtain ⟨k, v⟩ := q
    simp [binds_all, ih]

theorem lenv_all_mk {p : Lval → Bool} (par : Option Lenv) (b : List (String × Lval)) :
    lenv_all p (.mk par b) = true ↔
      (∀ q, par = some q → lenv_all p q = true) ∧ binds_all p b = true := by
  cases par with
  | none => simp [lenv_all]
  | some q => simp [lenv_all]

theorem lval_all_sexpr {p : Lval → Bool} (hp : GoodPred p) (c : List Lval) :
    lval_all p (.sexpr c) = cells_all p c := by
  simp [lval_all, hp.sexpr]

theorem lval_all_qexpr {p : Lval → Bool} (hp : GoodPred p) (c : List Lval) :
    lval_all p (.qexpr c) = cells_all p c := by
  simp [lval_all, hp.qexpr]

theorem lval_all_cell {p : Lval → Bool} {v : Lval} (h : lval_all p v = true) :
    cells_all p v.cell = true := by
  cases v <;> simp only [Lval.cell, cells_all] <;>
    (simp only [lval_all, Bool.and_eq_true] at h; exact h.2)

theorem okv_err {p : Lval → Bool} (msg : String) : Okv p (lval_err msg) := Or.inl rfl

theorem okv_num {p : Lval → Bool} (hp : GoodPred p) (n : Int) : Okv p (.num n) :=
  Or.inr (by simp [lval_all, hp.num])

theorem okv_truth {p : Lval → Bool} (hp : GoodPred p) (b : Bool) : Okv p (lval_truth b) :=
  okv_num hp _

theorem lenv_scan_all {p : Lval → Bool} {k : String} {b : List (String × Lval)} {v : Lval}
    (hb : binds_all p b = true) (h : lenv_scan k b = some v) : lval_all p v = true :=
  binds_all_iff.1 hb (k, v) (lenv_scan_mem h)

theorem lenv_get_okv {p : Lval → Bool} (k : String) : ∀ e : Lenv, lenv_all p e = true →
    Okv p (lenv_get e k)
  | .mk none b, h => by
    have hb := ((lenv_all_mk none b).1 h).2
    cases hs : lenv_scan k b with
    | none => simp only [lenv_get, hs]; exact okv_err _
    | some v => simp only [lenv_get, hs, lval_copy_eq]; exact Or.inr (lenv_scan_all hb hs)
  | .mk (some q) b, h => by
    have hb := ((lenv_all_mk (some q) b).1 h).2
    have hq := ((lenv_all_mk (some q) b).1 h).1 q rfl
    cases hs : lenv_scan k b with
    | none => simp only [lenv_get, hs]; exact lenv_get_okv k q hq
    | some v => simp only [lenv_get, hs, lval_copy_eq]; exact Or.inr (lenv_scan_all hb hs)

theorem binds_all_put {p : Lval → Bool} (k : String) (v : Lval) (hv : lval_all p v = true) :
    ∀ b : List (String × Lval), binds_all p b = true →
      binds_all p (lenv_put_binds k v b) = true := by
  intro b
  induction b with
  | nil => intro _; simp [lenv_put_binds, binds_all, hv]
  | cons q r ih =>
    obtain ⟨s, w⟩ := q
    intro h
    simp only [binds_all, Bool.and_eq_true] at h
    by_cases hs : s = k
    · simp [lenv_put_binds, hs, binds_all, hv, h.2]
    · simp [lenv_put_binds, hs, binds_all, h.1, ih h.2]

theorem lenv_all_put {p : Lval → Bool} (e : Lenv) (k : String) (v : Lval)
    (he : lenv_all p e = true) (hv : lval_all p v = true) :
    lenv_all p (lenv_put e k v) = true := by
  obtain ⟨par, b⟩ := e
  rw [lenv_put_mk]
  rw [lenv_all_mk] at he ⊢
  exact ⟨he.1, binds_all_put k v hv b he.2⟩

theorem lenv_all_def {p : Lval → Bool} (k : String) (v : Lval) (hv : lval_all p v = true) :
    ∀ e : Lenv, lenv_all p e = true → lenv_all p (lenv_def e k v) = true
  | .mk none b, h => by
    simp only [lenv_def]
    exact lenv_all_put _ k v h hv
  | .mk (some q) b, h => by
    simp only [lenv_def]
    rw [lenv_all_mk] at h ⊢
    refine ⟨?_, h.2⟩
    intro q2 hq2
    simp only [Option.some.injEq] at hq2
    subst hq2
    exact lenv_all_def k v hv q (h.1 q rfl)

theorem lenv_all_setPar {p : Lval → Bool} (fe e : Lenv) (hfe : lenv_all p fe = true)
    (he : lenv_all p e = true) : lenv_all p (fe.setPar e) = true := by
  obtain ⟨par, b⟩ := fe
  simp only [Lenv.setPar]
  rw [lenv_all_mk] at hfe ⊢
  refine ⟨?_, hfe.2⟩
  intro q hq
  simp only [Option.some.injEq] at hq
  subst hq
  exact he

theorem lenv_all_builtin_var_loop {p : Lval → Bool} (func : String) :
    ∀ (ks vs : List Lval) (e : Lenv), lenv_all p e = true → cells_all p vs = true →
      lenv_all p (builtin_var_loop func e ks vs) = true := by
  intro ks
  induction ks with
  | nil => intro vs e he _; simpa [builtin_var_loop] using he
  | cons k ks ih =>
    intro vs e he hvs
    cases vs with
    | nil => simpa [builtin_var_loop] using he
    | cons v vs =>
      simp only [cells_all, Bool.and_eq_true] at hvs
      cases k <;> simp only [builtin_var_loop] <;> try exact he
      apply ih _ _ _ hvs.2
      split <;> split <;>
        first
        | exact he
        | exact lenv_all_put _ _ _ he hvs.1
        | exact lenv_all_def _ _ hvs.1 _ he
        | exact lenv_all_put _ _ _ (lenv_all_def _ _ hvs.1 _ he) hvs.1

theorem keeps_builtin_var {p : Lval → Bool} (hp : GoodPred p) {e e1 : Lenv} {a : List Lval}
    {func : String} {r : Lval} (he : lenv_all p e = true) (ha : cells_all p a = true)
    (h : builtin_var e a func = .ok (r, e1)) : lenv_all p e1 = true ∧ Okv p r := by
  unfold builtin_var at h
  split at h
  · simp at h
  · rename_i oprs vals
    simp only [cells_all, Bool.and_eq_true] at ha
    split at h
    · simp only [Except.ok.injEq, Prod.mk.injEq] at h
      rw [← h.1, ← h.2]; exact ⟨he, okv_err _⟩
    · split at h
      · rename_i er hc
        simp only [Except.ok.injEq, Prod.mk.injEq] at h
        rw [← h.1, ← h.2]
        exact ⟨he, Or.inl (check_oprs_lval_err_type hc)⟩
      · split at h
        · simp only [Except.ok.injEq, Prod.mk.injEq] at h
          rw [← h.1, ← h.2]; exact ⟨he, okv_err _⟩
        · simp only [Except.ok.injEq, Prod.mk.injEq] at h
          rw [← h.1, ← h.2]
          exact ⟨lenv_all_builtin_var_loop func _ _ _ he ha.2,
            Or.inr (by rw [lval_all_sexpr hp]; rfl)⟩

theorem keeps_pure_builtin {p : Lval → Bool} {e e1 : Lenv} {m : M Lval} {r : Lval}
    (he : lenv_all p e = true) (hm : ∀ v, m = .ok v → Okv p v)
    (h : pure_builtin e m = .ok (r, e1)) : lenv_all p e1 = true ∧ Okv p r := by
  unfold pure_builtin at h
  split at h
  · rename_i v
    simp only [Except.ok.injEq, Prod.mk.injEq] at h
    rw [← h.1, ← h.2]; exact ⟨he, hm v rfl⟩
  · simp at h

theorem okv_builtin_op_loop {p : Lval → Bool} (hp : GoodPred p) (H : Host) (op : String) :
    ∀ (a : List Lval) (x : Int) (v : Lval), builtin_op_loop H op x a = .ok v → Okv p v := by
  intro a
  induction a with
  | nil =>
    intro x v h
    simp only [builtin_op_loop, Except.ok.injEq] at h
    rw [← h]; exact okv_num hp x
  | cons c cs ih =>
    intro x v h
    cases c <;> simp only [builtin_op_loop] at h <;> try (cases h)
    repeat' split at h
    all_goals first
      | exact ih _ _ h
      | (simp only [Except.ok.injEq] at h; rw [← h]; exact okv_err _)
      | (cases h)

theorem okv_builtin_op {p : Lval → Bool} (hp : GoodPred p) (H : Host) (a : List Lval)
    (op : String) (v : Lval) (h : builtin_op H a op = .ok v) : Okv p v := by
  unfold builtin_op at h
  split at h
  · rename_i er hc
    simp only [Except.ok.injEq] at h
    rw [← h]; exact Or.inl (check_types_eq_some hc)
  · split at h
    · exact okv_builtin_op_loop hp H op _ _ _ h
    · simp at h

theorem okv_builtin_logop {p : Lval → Bool} (hp : GoodPred p) (a : List Lval) (op : String)
    (v : Lval) (h : builtin_logop a op = .ok v) : Okv p v := by
  unfold builtin_logop at h
  repeat' split at h
  all_goals first
    | (simp only [Except.ok.injEq] at h; rw [← h]; first | exact Or.inl rfl | exact okv_truth hp _)
    | (cases h)

theorem okv_builtin_cmp {p : Lval → Bool} (hp : GoodPred p) (a : List Lval) (op : String)
    (v : Lval) (h : builtin_cmp a op = .ok v) : Okv p v := by
  unfold builtin_cmp at h
  repeat' split at h
  all_goals
    simp only [Except.ok.injEq] at h; rw [← h]; first | exact Or.inl rfl | exact okv_truth hp _

theorem okv_builtin_ord {p : Lval → Bool} (hp : GoodPred p) (a : List Lval) (op : String)
    (v : Lval) (h : builtin_ord a op = .ok v) : Okv p v := by
  unfold builtin_ord at h
  repeat' split at h
  all_goals first
    | (simp only [Except.ok.injEq] at h; rw [← h]; first | exact Or.inl rfl | exact okv_truth hp _)

theorem okv_builtin_head {p : Lval → Bool} (hp : GoodPred p) (a : List Lval)
    (ha : cells_all p a = true) (v : Lval) (h : builtin_head a = .ok v) : Okv p v := by
  unfold builtin_head at h
  split at h
  · rename_i x
    simp only [cells_all, Bool.and_eq_true, and_true] at ha
    split at h
    · simp only [Except.ok.injEq] at h; rw [← h]; exact Or.inl rfl
    · rename_i y ys
      simp only [Except.ok.injEq] at h
      rw [← h]
      rw [lval_all_qexpr hp] at ha
      simp only [cells_all, Bool.and_eq_true] at ha
      exact Or.inr (by rw [lval_all_qexpr hp]; simp [cells_all, ha.1])
    · simp only [Except.ok.injEq] at h; rw [← h]; exact Or.inl rfl
  · simp only [Except.ok.injEq] at h; rw [← h]; exact Or.inl rfl

theorem okv_builtin_tail {p : Lval → Bool} (hp : GoodPred p) (a : List Lval)
    (ha : cells_all p a = true) (v : Lval) (h : builtin_tail a = .ok v) : Okv p v := by
  unfold builtin_tail at h
  split at h
  · rename_i x
    simp only [cells_all, Bool.and_eq_true, and_true] at ha
    split at h
    · simp only [Except.ok.injEq] at h; rw [← h]; exact Or.inl rfl
    · rename_i y ys
      simp only [Except.ok.injEq] at h
      rw [← h]
      rw [lval_all_qexpr hp] at ha
      simp only [cells_all, Bool.and_eq_true] at ha
      exact Or.inr (by rw [lval_all_qexpr hp]; exact ha.2)
    · simp only [Except.ok.injEq] at h; rw [← h]; exact Or.inl rfl
  · simp only [Except.ok.injEq] at h; rw [← h]; exact Or.inl rfl

theorem lval_all_add {p : Lval → Bool} (hp : GoodPred p) (v x : Lval)
    (hv : lval_all p v = true) (hx : lval_all p x = true) : lval_all p (lval_add v x) = true := by
  cases v <;> simp only [lval_add, Lval.setCells, Lval.cell] <;> try exact hv
  · rw [lval_all_sexpr hp] at hv ⊢
    exact cells_all_append.2 ⟨hv, by simp [cells_all, hx]⟩
  · rw [lval_all_qexpr hp] at hv ⊢
    exact cells_all_append.2 ⟨hv, by simp [cells_all, hx]⟩

theorem lval_all_join {p : Lval → Bool} (hp : GoodPred p) (x y : Lval)
    (hx : lval_all p x = true) (hy : lval_all p y = true) : lval_all p (lval_join x y) = true := by
  unfold lval_join
  have hc := lval_all_cell hy
  generalize y.cell = ys at hc
  induction ys generalizing x with
  | nil => exact hx
  | cons c cs ih =>
    simp only [cells_all, Bool.and_eq_true] at hc
    simp only [List.foldl_cons]
    exact ih _ (lval_all_add hp x c hx hc.1) hc.2

theorem lval_all_join_loop {p : Lval → Bool} (hp : GoodPred p) : ∀ (r : List Lval) (x : Lval),
    lval_all p x = true → cells_all p r = true → lval_all p (builtin_join_loop x r) = true := by
  intro r
  induction r with
  | nil => intro x hx _; exact hx
  | cons y r ih =>
    intro x hx hr
    simp only [cells_all, Bool.and_eq_true] at hr
    simp only [builtin_join_loop]
    exact ih _ (lval_all_join hp x y hx hr.1) hr.2

theorem okv_builtin_join {p : Lval → Bool} (hp : GoodPred p) (a : List Lval)
    (ha : cells_all p a = true) (v : Lval) (h : builtin_join a = .ok v) : Okv p v := by
  unfold builtin_join at h
  split at h
  · rename_i er hc
    simp only [Except.ok.injEq] at h
    rw [← h]; exact Or.inl (check_types_eq_some hc)
  · cases a with
    | nil => simp at h
    | cons x r =>
      simp only [cells_all, Bool.and_eq_true] at ha
      simp only [Except.ok.injEq] at h
      rw [← h]
      exact Or.inr (lval_all_join_loop hp r x ha.1 ha.2)

theorem okv_builtin_lambda {p : Lval → Bool} (hp : GoodPred p) (a : List Lval)
    (ha : cells_all p a = true) (v : Lval) (h : builtin_lambda a = .ok v) : Okv p v := by
  unfold builtin_lambda at h
  split at h
  · rename_i formals body
    simp only [cells_all, Bool.and_eq_true, and_true] at ha
    split at h
    · simp only [Except.ok.injEq] at h; rw [← h]; exact Or.inl rfl
    · split at h
      · simp only [Except.ok.injEq] at h; rw [← h]; exact Or.inl rfl
      · split at h
        · rename_i er hc
          simp only [Except.ok.injEq] at h
          rw [← h]; exact Or.inl (check_oprs_lval_err_type hc)
        · simp only [Except.ok.injEq] at h
          rw [← h]
          refine Or.inr ?_
          simp [lval_lambda, lenv_new, lval_all, hp.lambda_new, lenv_all, binds_all, ha.1, ha.2]
  · simp only [Except.ok.injEq] at h; rw [← h]; exact Or.inl rfl

theorem okv_builtin_error {p : Lval → Bool} (a : List Lval) (v : Lval)
    (h : builtin_error a = .ok v) : Okv p v := by
  unfold builtin_error at h
  repeat' split at h
  all_goals first
    | (simp only [Except.ok.injEq] at h; rw [← h]; exact Or.inl rfl)
    | (cases h)

theorem keeps_builtin_eval {p : Lval → Bool} (hp : GoodPred p) {ev : Eval} (hev : Keeps p ev)
    {e e1 : Lenv} {a : List Lval} {r : Lval} (he : lenv_all p e = true)
    (ha : cells_all p a = true) (h : builtin_eval ev e a = .ok (r, e1)) :
    lenv_all p e1 = true ∧ Okv p r := by
  unfold builtin_eval at h
  split at h
  · rename_i x
    simp only [cells_all, Bool.and_eq_true, and_true] at ha
    split at h
    · rename_i c
      rw [lval_all_qexpr hp] at ha
      exact hev _ _ _ _ he (by rw [lval_all_sexpr hp]; exact ha) h
    · simp only [Except.ok.injEq, Prod.mk.injEq] at h
      rw [← h.1, ← h.2]; exact ⟨he, Or.inl rfl⟩
  · simp only [Except.ok.injEq, Prod.mk.injEq] at h
    rw [← h.1, ← h.2]; exact ⟨he, Or.inl rfl⟩

theorem keeps_builtin_if {p : Lval → Bool} (hp : GoodPred p) {ev : Eval} (hev : Keeps p ev)
    {e e1 : Lenv} {a : List Lval} {r : Lval} (he : lenv_all p e = true)
    (ha : cells_all p a = true) (h : builtin_if ev e a = .ok (r, e1)) :
    lenv_all p e1 = true ∧ Okv p r := by
  unfold builtin_if at h
  split at h
  · rename_i c t f
    simp only [cells_all, Bool.and_eq_true, and_true] at ha
    split at h
    · rename_i n ct cf
      have h1 := ha.2.1
      have h2 := ha.2.2
      rw [lval_all_qexpr hp] at h1 h2
      split at h
      · exact hev _ _ _ _ he (by rw [lval_all_sexpr hp]; exact h1) h
      · exact hev _ _ _ _ he (by rw [lval_all_sexpr hp]; exact h2) h
    all_goals
      simp only [Except.ok.injEq, Prod.mk.injEq] at h
      rw [← h.1, ← h.2]; exact ⟨he, Or.inl rfl⟩
  · simp only [Except.ok.injEq, Prod.mk.injEq] at h
    rw [← h.1, ← h.2]; exact ⟨he, Or.inl rfl⟩

theorem keeps_builtin_load_loop {p : Lval → Bool} {ev : Eval} (hev : Keeps p ev) :
    ∀ (xs : List Lval) (e e1 : Lenv), lenv_all p e = true → cells_all p xs = true →
      builtin_load_loop ev e xs = .ok e1 → lenv_all p e1 = true := by
  intro xs
  induction xs with
  | nil =>
    intro e e1 he _ h
    simp only [builtin_load_loop, Except.ok.injEq] at h
    rw [← h]; exact he
  | cons x xs ih =>
    intro e e1 he hxs h
    simp only [cells_all, Bool.and_eq_true] at hxs
    unfold builtin_load_loop at h
    split at h
    · rename_i v e2 hx
      exact ih _ _ (hev _ _ _ _ he hxs.1 hx).1 hxs.2 h
    · simp at h

theorem keeps_builtin_load {p : Lval → Bool} (hp : GoodPred p) {H : Host}
    (hH : ∀ s exprs, H.load_file s = .ok exprs → cells_all p exprs = true)
    {ev : Eval} (hev : Keeps p ev) {e e1 : Lenv} {a : List Lval} {r : Lval}
    (he : lenv_all p e = true) (h : builtin_load H ev e a = .ok (r, e1)) :
    lenv_all p e1 = true ∧ Okv p r := by
  unfold builtin_load at h
  split at h
  · split at h
    · rename_i s
      split at h
      · rename_i exprs hl
        split at h
        · rename_i e2 hloop
          simp only [Except.ok.injEq, Prod.mk.injEq] at h
          rw [← h.1, ← h.2]
          exact ⟨keeps_builtin_load_loop hev _ _ _ he (hH s exprs hl) hloop,
            Or.inr (by rw [lval_all_sexpr hp]; rfl)⟩
        · simp at h
      · simp only [Except.ok.injEq, Prod.mk.injEq] at h
        rw [← h.1, ← h.2]; exact ⟨he, Or.inl rfl⟩
    · simp only [Except.ok.injEq, Prod.mk.injEq] at h
      rw [← h.1, ← h.2]; exact ⟨he, Or.inl rfl⟩
  · simp only [Except.ok.injEq, Prod.mk.injEq] at h
    rw [← h.1, ← h.2]; exact ⟨he, Or.inl rfl⟩

theorem keeps_call_builtin {p : Lval → Bool} (hp : GoodPred p) {H : Host}
    (hH : ∀ s exprs, H.load_file s = .ok exprs → cells_all p exprs = true)
    {ev : Eval} (hev : Keeps p ev) {b : Builtin} {e e1 : Lenv} {a : List Lval} {r : Lval}
    (he : lenv_all p e = true) (ha : cells_all p a = true)
    (h : call_builtin H ev b e a = .ok (r, e1)) : lenv_all p e1 = true ∧ Okv p r := by
  cases b <;> simp only [call_builtin] at h
  case list =>
    simp only [Except.ok.injEq, Prod.mk.injEq] at h
    rw [← h.1, ← h.2]
    exact ⟨he, Or.inr (by rw [builtin_list, lval_all_qexpr hp]; exact ha)⟩
  case head => exact keeps_pure_builtin he (fun v hv => okv_builtin_head hp a ha v hv) h
  case tail => exact keeps_pure_builtin he (fun v hv => okv_builtin_tail hp a ha v hv) h
  case eval => exact keeps_builtin_eval hp hev he ha h
  case join => exact keeps_pure_builtin he (fun v hv => okv_builtin_join hp a ha v hv) h
  case lambda => exact keeps_pure_builtin he (fun v hv => okv_builtin_lambda hp a ha v hv) h
  case def_ => exact keeps_builtin_var hp he ha h
  case put => exact keeps_builtin_var hp he ha h
  case if_ => exact keeps_builtin_if hp hev he ha h
  case load => exact keeps_builtin_load hp hH hev he h
  case error => exact keeps_pure_builtin he (fun v hv => okv_builtin_error a v hv) h
  case print =>
    refine keeps_pure_builtin he (fun v hv => ?_) h
    simp only [builtin_print, Except.ok.injEq] at hv
    rw [← hv]; exact Or.inr (by rw [lval_all_sexpr hp]; rfl)
  all_goals first
    | exact keeps_pure_builtin he (fun v hv => okv_builtin_op hp H a _ v hv) h
    | exact keeps_pure_builtin he (fun v hv => okv_builtin_cmp hp a _ v hv) h
    | exact keeps_pure_builtin he (fun v hv => okv_builtin_ord hp a _ v hv) h
    | exact keeps_pure_builtin he (fun v hv => okv_builtin_logop hp a _ v hv) h

theorem par_lenv_put (e : Lenv) (k : String) (v : Lval) : (lenv_put e k v).par = e.par := by
  obtain ⟨par, b⟩ := e
  rfl

theorem keeps_lval_call_bind {p : Lval → Bool} (given total : Nat) :
    ∀ (a fs : List Lval) (fe : Lenv) (res : Except Lval (Lenv × List Lval)),
      lenv_all p fe = true → cells_all p fs = true → cells_all p a = true →
      (∀ c, p (.qexpr c) = true) →
      lval_call_bind given total fe fs a = .ok res →
      match res with
      | .ok (fe1, fs1) => lenv_all p fe1 = true ∧ cells_all p fs1 = true ∧ fe1.par = fe.par
      | .error er => er.type = .LVAL_ERR := by
  intro a
  induction a with
  | nil =>
    intro fs fe res hfe hfs _ _ h
    simp only [lval_call_bind, Except.ok.injEq] at h
    rw [← h]
    exact ⟨hfe, hfs, rfl⟩
  | cons v a ih =>
    intro fs fe res hfe hfs ha hq h
    simp only [cells_all, Bool.and_eq_true] at ha
    cases fs with
    | nil =>
      simp only [lval_call_bind, Except.ok.injEq] at h
      rw [← h]
      rfl
    | cons f fs =>
      simp only [cells_all, Bool.and_eq_true] at hfs
      cases f <;> simp only [lval_call_bind] at h <;> try (cases h)
      rename_i s
      split at h
      · split at h
        · rename_i nopr
          split at h
          · rename_i n
            simp only [Except.ok.injEq] at h
            rw [← h]
            refine ⟨lenv_all_put _ _ _ hfe ?_, rfl, par_lenv_put _ _ _⟩
            simp only [builtin_list, lval_all, hq, Bool.true_and, cells_all, ha.1, ha.2,
              Bool.and_self]
          · cases h
        · simp only [Except.ok.injEq] at h
          rw [← h]
          rfl
      · have := ih fs (lenv_put fe s v) res (lenv_all_put _ _ _ hfe ha.1) hfs.2 ha.2 hq h
        cases res with
        | error er => exact this
        | ok q =>
          obtain ⟨fe1, fs1⟩ := q
          exact ⟨this.1, this.2.1, by rw [this.2.2, par_lenv_put]⟩

theorem keeps_lval_call_rest {p : Lval → Bool} (fe : Lenv) (fs : List Lval)
    (res : Except Lval (Lenv × List Lval)) (hfe : lenv_all p fe = true)
    (hfs : cells_all p fs = true) (hq : ∀ c, p (.qexpr c) = true) :
    lval_call_rest fe fs = .ok res →
    match res with
    | .ok (fe1, fs1) => lenv_all p fe1 = true ∧ cells_all p fs1 = true ∧ fe1.par = fe.par
    | .error er => er.type = .LVAL_ERR := by
  intro h
  cases fs with
  | nil =>
    simp only [lval_call_rest, Except.ok.injEq] at h
    rw [← h]
    exact ⟨hfe, rfl, rfl⟩
  | cons f fs =>
    cases f <;> simp only [lval_call_rest] at h <;> try (cases h)
    rename_i s
    split at h
    · split at h
      · split at h
        · simp only [Except.ok.injEq] at h
          rw [← h]
          refine ⟨lenv_all_put _ _ _ hfe ?_, rfl, par_lenv_put _ _ _⟩
          simp only [lval_all, hq, cells_all, Bool.and_self]
        · cases h
      · simp only [Except.ok.injEq] at h
        rw [← h]
        rfl
    · simp only [Except.ok.injEq] at h
      rw [← h]
      exact ⟨hfe, hfs, rfl⟩

theorem lval_all_lambda {p : Lval → Bool} {env : Lenv} {f b : Lval}
    (h : lval_all p (.lambda env f b) = true) :
    p (.lambda env f b) = true ∧ lenv_all p env = true ∧ lval_all p f = true ∧
      lval_all p b = true := by
  simp only [lval_all, Bool.and_eq_true] at h
  exact ⟨h.1.1.1, h.1.1.2, h.1.2, h.2⟩

theorem keeps_lval_call_finish {p : Lval → Bool} (hp : GoodPred p) {ev : Eval}
    (hev : Keeps p ev) {e fe fe2 e1 : Lenv} {formals body r : Lval} {fs fs2 : List Lval}
    (he : lenv_all p e = true) (hf : lval_all p (.lambda fe formals body) = true)
    (hfs : formals.cells? = some fs)
    (hfe2 : lenv_all p fe2 = true) (hfs2 : cells_all p fs2 = true) (hpar : fe2.par = fe.par)
    (h : lval_call_finish ev e fe2 formals fs2 body = .ok (r, e1)) :
    lenv_all p e1 = true ∧ Okv p r := by
  obtain ⟨hpl, _, _, hbody⟩ := lval_all_lambda hf
  cases fs2 with
  | nil =>
    simp only [lval_call_finish] at h
    obtain ⟨b, hb⟩ := lval_call_leave_ok h
    have := keeps_builtin_eval hp hev (lenv_all_setPar fe2 e hfe2 he)
      (by simp [cells_all, lval_copy_eq, hbody]) hb
    exact ⟨((lenv_all_mk _ _).1 this.1).1 e1 rfl, this.2⟩
  | cons f2 fs2 =>
    simp only [lval_call_finish, lval_copy_eq, Except.ok.injEq, Prod.mk.injEq] at h
    rw [← h.1, ← h.2]
    refine ⟨he, Or.inr ?_⟩
    obtain ⟨par, b⟩ := fe
    obtain ⟨par2, b2⟩ := fe2
    simp only [Lenv.par] at hpar
    subst hpar
    have hpl2 := hp.lambda_par _ b b2 formals (formals.setCells (f2 :: fs2)) body body hpl
    have hform : lval_all p (formals.setCells (f2 :: fs2)) = true := by
      cases formals <;> simp only [Lval.cells?] at hfs <;> cases hfs
      · simp only [Lval.setCells]; rw [lval_all_sexpr hp]; exact hfs2
      · simp only [Lval.setCells]; rw [lval_all_qexpr hp]; exact hfs2
    simp only [lval_all, hpl2, hfe2, hform, hbody, Bool.and_self]

theorem keeps_lval_call {p : Lval → Bool} (hp : GoodPred p) {H : Host}
    (hH : ∀ s exprs, H.load_file s = .ok exprs → cells_all p exprs = true)
    {ev : Eval} (hev : Keeps p ev) {e e1 : Lenv} {f r : Lval} {a : List Lval}
    (he : lenv_all p e = true) (hf : lval_all p f = true) (ha : cells_all p a = true)
    (h : lval_call H ev e f a = .ok (r, e1)) : lenv_all p e1 = true ∧ Okv p r := by
  unfold lval_call at h
  split at h
  · exact keeps_call_builtin hp hH hev he ha h
  · rename_i fe formals body
    obtain ⟨_, hfe, hform, _⟩ := lval_all_lambda hf
    split at h
    · simp at h
    · rename_i fs hfs
      have hfsc : cells_all p fs = true := by
        have := lval_all_cell hform
        cases formals <;> simp only [Lval.cells?] at hfs <;> cases hfs <;> exact this
      split at h
      · simp at h
      · rename_i er hb
        have := keeps_lval_call_bind _ _ a fs fe _ hfe hfsc ha hp.qexpr hb
        simp only [Except.ok.injEq, Prod.mk.injEq] at h
        rw [← h.1, ← h.2]
        exact ⟨he, Or.inl this⟩
      · rename_i fe1 fs1 hb
        have h1 := keeps_lval_call_bind _ _ a fs fe _ hfe hfsc ha hp.qexpr hb
        simp only at h1
        split at h
        · simp at h
        · rename_i er hr
          have := keeps_lval_call_rest fe1 fs1 _ h1.1 h1.2.1 hp.qexpr hr
          simp only [Except.ok.injEq, Prod.mk.injEq] at h
          rw [← h.1, ← h.2]
          exact ⟨he, Or.inl this⟩
        · rename_i fe2 fs2 hr
          have h2 := keeps_lval_call_rest fe1 fs1 _ h1.1 h1.2.1 hp.qexpr hr
          simp only at h2
          exact keeps_lval_call_finish hp hev he hf hfs h2.1 h2.2.1
            (by rw [h2.2.2, h1.2.2]) h
  · simp at h

theorem keeps_lval_eval_cells {p : Lval → Bool} {ev : Eval} (hev : Keeps p ev) :
    ∀ (cell : List Lval) (e e1 : Lenv) (vs : List Lval), lenv_all p e = true →
      cells_all p cell = true → lval_eval_cells ev e cell = .ok (vs, e1) →
      lenv_all p e1 = true ∧ ∀ v ∈ vs, Okv p v := by
  intro cell
  induction cell with
  | nil =>
    intro e e1 vs he _ h
    simp only [lval_eval_cells, Except.ok.injEq, Prod.mk.injEq] at h
    rw [← h.1, ← h.2]
    exact ⟨he, by simp⟩
  | cons c cs ih =>
    intro e e1 vs he hc h
    simp only [cells_all, Bool.and_eq_true] at hc
    unfold lval_eval_cells at h
    split at h
    · simp at h
    · rename_i c1 e2 hc1
      have h1 := hev _ _ _ _ he hc.1 hc1
      split at h
      · simp at h
      · rename_i cs1 e3 hr
        have h2 := ih _ _ _ h1.1 hc.2 hr
        simp only [Except.ok.injEq, Prod.mk.injEq] at h
        rw [← h.1, ← h.2]
        refine ⟨h2.1, ?_⟩
        intro v hv
        rcases List.mem_cons.1 hv with rfl | hv
        · exact h1.2
        · exact h2.2 v hv

theorem first_err_mem {vs : List Lval} {er : Lval} (h : first_err vs = some er) :
    er.type = .LVAL_ERR := by
  obtain ⟨_, _, _, _, h3⟩ := first_err_eq_some h
  exact h3

theorem keeps_lval_eval_sexpr {p : Lval → Bool} (hp : GoodPred p) {H : Host}
    (hH : ∀ s exprs, H.load_file s = .ok exprs → cells_all p exprs = true)
    {ev : Eval} (hev : Keeps p ev) {e e1 : Lenv} {cell : List Lval} {r : Lval}
    (he : lenv_all p e = true) (hc : cells_all p cell = true)
    (h : lval_eval_sexpr H ev e cell = .ok (r, e1)) : lenv_all p e1 = true ∧ Okv p r := by
  unfold lval_eval_sexpr at h
  split at h
  · simp at h
  · rename_i vs e2 hcells
    have h1 := keeps_lval_eval_cells hev _ _ _ _ he hc hcells
    split at h
    · rename_i er hf
      simp only [Except.ok.injEq, Prod.mk.injEq] at h
      rw [← h.1, ← h.2]
      exact ⟨h1.1, Or.inl (first_err_mem hf)⟩
    · rename_i hf
      have hall : cells_all p vs = true := by
        rw [cells_all_iff]
        intro v hv
        rcases h1.2 v hv with ht | hv2
        · exact absurd ht (first_err_eq_none.1 hf v hv)
        · exact hv2
      split at h
      · simp only [Except.ok.injEq, Prod.mk.injEq] at h
        rw [← h.1, ← h.2]
        exact ⟨h1.1, Or.inr (by rw [lval_all_sexpr hp]; rfl)⟩
      · simp only [Except.ok.injEq, Prod.mk.injEq] at h
        rw [← h.1, ← h.2]
        simp only [cells_all, Bool.and_eq_true, and_true] at hall
        exact ⟨h1.1, Or.inr hall⟩
      · simp only [cells_all, Bool.and_eq_true] at hall
        split at h
        · simp only [Except.ok.injEq, Prod.mk.injEq] at h
          rw [← h.1, ← h.2]
          exact ⟨h1.1, Or.inl rfl⟩
        · exact keeps_lval_call hp hH hev h1.1 hall.1 hall.2 h

/-- Evaluation keeps a good node predicate: from an environment and a value
with `p` at every node it returns an environment with `p` at every node and
either an Error or a value with `p` at every node. -/
theorem lval_eval_keeps {p : Lval → Bool} (hp : GoodPred p) (H : Host)
    (hH : ∀ s exprs, H.load_file s = .ok exprs → cells_all p exprs = true) :
    ∀ n : Nat, Keeps p (lval_eval H n) := by
  intro n
  induction n with
  | zero =>
    intro e v r e1 he hv h
    cases v <;> simp only [lval_eval, Except.ok.injEq, Prod.mk.injEq] at h <;>
      first
      | (rw [← h.1, ← h.2]; exact ⟨he, lenv_get_okv _ _ he⟩)
      | (rw [← h.1, ← h.2]; exact ⟨he, Or.inr hv⟩)
      | (cases h)
  | succ n ih =>
    intro e v r e1 he hv h
    cases v <;> simp only [lval_eval, Except.ok.injEq, Prod.mk.injEq] at h <;>
      first
      | (rw [← h.1, ← h.2]; exact ⟨he, lenv_get_okv _ _ he⟩)
      | (rw [← h.1, ← h.2]; exact ⟨he, Or.inr hv⟩)
      | exact keeps_lval_eval_sexpr hp hH ih he (lval_all_cell hv) h

/-! ### The reader and the loop of `main` keep the node predicates -/

theorem goodpred_not_err : GoodPred not_err :=
  ⟨fun _ => rfl, fun _ => rfl, fun _ => rfl, fun _ _ _ => rfl, fun _ _ _ _ _ _ _ _ => rfl⟩

theorem goodpred_no_par : GoodPred no_par :=
  ⟨fun _ => rfl, fun _ => rfl, fun _ => rfl, fun _ _ _ => rfl,
   fun par _ _ _ _ _ _ h => by cases par <;> first | rfl | exact h⟩

theorem lval_read_num_no_par (s : String) : lval_all no_par (lval_read_num s) = true := by
  unfold lval_read_num
  split <;> rfl

theorem lval_read_str_no_par {u : String → String} {s : String} {v : Lval}
    (h : lval_read_str u s = .ok v) : lval_all no_par v = true := by
  unfold lval_read_str at h
  split at h
  · cases h
  · cases h; rfl

mutual
/-- The reader builds no lambda: its values hold no lambda with a parent. -/
theorem lval_read_no_par (u : String → String) :
    ∀ (t : Ast) (v : Lval), lval_read u t = .ok v → lval_all no_par v = true
  | .node tag contents children, v, h => by
    unfold lval_read at h
    split at h
    · cases h; exact lval_read_num_no_par contents
    · split at h
      · exact lval_read_str_no_par h
      · split at h
        · cases h; rfl
        · refine lval_read_children_no_par u _ children v ?_ h
          intro xv hx
          split at hx
          · cases hx; rfl
          · split at hx
            · cases hx; rfl
            · split at hx
              · cases hx; rfl
              · cases hx
theorem lval_read_children_no_par (u : String → String) :
    ∀ (x : Option Lval) (cs : List Ast) (v : Lval),
      (∀ xv, x = some xv → lval_all no_par xv = true) →
      lval_read_children u x cs = .ok v → lval_all no_par v = true
  | x, [], v, hx, h => by
    unfold lval_read_children at h
    split at h
    · cases h; exact hx _ rfl
    · cases h
  | x, c :: r, v, hx, h => by
    unfold lval_read_children at h
    split at h
    · exact lval_read_children_no_par u x r v hx h
    · split at h
      · cases h
      · rename_i w hw
        split at h
        · rename_i xv
          refine lval_read_children_no_par u _ r v ?_ h
          intro y hy
          cases hy
          exact lval_all_add goodpred_no_par _ _ (hx _ rfl) (lval_read_no_par u c w hw)
        · cases h
end

theorem lval_all_no_par_lambda {env : Lenv} {f b : Lval}
    (h : lval_all no_par (.lambda env f b) = true) : env.par = none := by
  obtain ⟨par, bs⟩ := env
  cases par with
  | none => rfl
  | some q => simp [lval_all, no_par] at h

theorem okv_no_par {r : Lval} (h : Okv no_par r) : lval_all no_par r = true := by
  rcases h with h | h
  · cases r <;> first | rfl | cases h
  · exact h

theorem reachable_keeps {p : Lval → Bool} (hp : GoodPred p) (H : Host) (u : String → String)
    (hH : ∀ s exprs, H.load_file s = .ok exprs → cells_all p exprs = true)
    (hroot : lenv_all p root_env = true) (good : Lval → Bool)
    (hgood : ∀ t v, lval_read u t = .ok v → good v = true → lval_all p v = true)
    {e : Lenv} (he : Reachable H u good e) : lenv_all p e = true := by
  induction he with
  | root => exact hroot
  | line e e1 t v r n _ hr hg hev ih => exact (lval_eval_keeps hp H hH n e v r e1 ih (hgood t v hr hg) hev).1
  | file e e1 name r n _ hl ih => exact (keeps_builtin_load hp hH (lval_eval_keeps hp H hH n) ih hl).1

theorem files_no_par {H : Host} {u : String → String}
    (hH : ∀ s exprs, H.load_file s = .ok exprs → ∃ t, lval_read u t = .ok (.sexpr exprs)) :
    ∀ s exprs, H.load_file s = .ok exprs → cells_all no_par exprs = true := by
  intro s exprs h
  obtain ⟨t, ht⟩ := hH s exprs h
  have := lval_read_no_par u t _ ht
  rwa [lval_all_sexpr goodpred_no_par] at this

theorem binds_all_mem {p : Lval → Bool} {b : List (String × Lval)} (h : binds_all p b = true)
    {k : String} {v : Lval} (hm : (k, v) ∈ b) : lval_all p v = true :=
  binds_all_iff.1 h (k, v) hm

theorem lenv_all_binds {p : Lval → Bool} {e : Lenv} (h : lenv_all p e = true) :
    binds_all p e.binds = true := by
  obtain ⟨par, b⟩ := e
  exact ((lenv_all_mk par b).1 h).2


/-! ## The claims -/

/-- C1: `lval_eval_sexpr` first evaluates every child, left to right, child `i`
in the environment left by child `i - 1` (the list `envs`); when some evaluated
child is an Error the result is the leftmost such child, returned in the
environment the children left, so the head is not applied and the result of the
whole expression is an Error. -/
theorem C1_error_absorption (H : Host) (ev : Eval) (e e1 : Lenv) (cell vs : List Lval)
    (hcells : lval_eval_cells ev e cell = .ok (vs, e1))
    (herr : ∃ x ∈ vs, x.type = .LVAL_ERR) :
    (∃ envs : List Lenv, envs.length = cell.length + 1 ∧ envs.head? = some e ∧
        envs.getLast? = some e1 ∧ vs.length = cell.length ∧
        ∀ i c, cell[i]? = some c → ∃ v ei ej, envs[i]? = some ei ∧ envs[i + 1]? = some ej ∧
          vs[i]? = some v ∧ ev ei c = .ok (v, ej)) ∧
    ∃ pre er post, vs = pre ++ er :: post ∧ (∀ p ∈ pre, p.type ≠ .LVAL_ERR) ∧
      er.type = .LVAL_ERR ∧ lval_eval_sexpr H ev e cell = .ok (er, e1) := by
  refine ⟨lval_eval_cells_trace ev cell e e1 vs hcells, ?_⟩
  cases hf : first_err vs with
  | none =>
    obtain ⟨x, hx, hxe⟩ := herr
    exact absurd hxe (first_err_eq_none.1 hf x hx)
  | some er =>
    obtain ⟨pre, post, h1, h2, h3⟩ := first_err_eq_some hf
    refine ⟨pre, er, post, h1, h2, h3, ?_⟩
    simp [lval_eval_sexpr, hcells, hf]

/-- The hypotheses of the theorem of C1 hold for `(+ 1 (error "boom"))` in
the root environment: the result is the Error and `+` is not applied. -/
theorem C1_error_absorption_witness :
    lval_eval_cells (lval_eval stub_host 1) root_env
        [.opr "+", .num 1, .sexpr [.opr "error", .str "boom"]]
      = .ok ([.builtin .add, .num 1, .err "boom"], root_env) ∧
    (∃ x ∈ [Lval.builtin .add, .num 1, .err "boom"], x.type = .LVAL_ERR) ∧
    ∃ pre er post, [Lval.builtin .add, .num 1, .err "boom"] = pre ++ er :: post ∧
      (∀ p ∈ pre, p.type ≠ .LVAL_ERR) ∧ er.type = .LVAL_ERR ∧
      lval_eval_sexpr stub_host (lval_eval stub_host 1) root_env
        [.opr "+", .num 1, .sexpr [.opr "error", .str "boom"]] = .ok (er, root_env) :=
  ⟨rfl, ⟨.err "boom", by simp, rfl⟩,
    (C1_error_absorption stub_host (lval_eval stub_host 1) root_env root_env
      [.opr "+", .num 1, .sexpr [.opr "error", .str "boom"]]
      [.builtin .add, .num 1, .err "boom"] rfl ⟨.err "boom", by simp, rfl⟩).2⟩

/-- C2: when no evaluated child of an S-expression is an Error, `lval_eval_sexpr`
returns the empty S-expression for zero children, the evaluated child itself
for one child (whatever its type, a Function included), the Error
"S-Expression starts with incorrect type! Got T, Expected Function." for two or
more children whose evaluated head has a type `T` other than Function, and
otherwise the result of `lval_call` on the head and the remaining children. -/
theorem C2_eval_sexpr_dispatch (H : Host) (ev : Eval) (e e1 : Lenv) (cell vs : List Lval)
    (hcells : lval_eval_cells ev e cell = .ok (vs, e1))
    (hok : ∀ x ∈ vs, x.type ≠ .LVAL_ERR) :
    vs.length = cell.length ∧
    (cell = [] → lval_eval_sexpr H ev e cell = .ok (.sexpr [], e1)) ∧
    (∀ x, vs = [x] → lval_eval_sexpr H ev e cell = .ok (x, e1)) ∧
    (∀ f x a, vs = f :: x :: a → f.type ≠ .LVAL_FUN →
      lval_eval_sexpr H ev e cell =
        .ok (.err ("S-Expression starts with incorrect type! Got " ++ ltype_name f.type
          ++ ", Expected Function."), e1)) ∧
    (∀ f x a, vs = f :: x :: a → f.type = .LVAL_FUN →
      lval_eval_sexpr H ev e cell = lval_call H ev e1 f (x :: a)) := by
  have hf : first_err vs = none := first_err_eq_none.2 hok
  obtain ⟨_, _, _, _, hlen, _⟩ := lval_eval_cells_trace ev cell e e1 vs hcells
  refine ⟨hlen, ?_, ?_, ?_, ?_⟩
  · intro hc
    subst hc
    simp only [lval_eval_cells, Except.ok.injEq, Prod.mk.injEq] at hcells
    obtain ⟨rfl, rfl⟩ := hcells
    simp [lval_eval_sexpr, lval_eval_cells, first_err]
  · intro x hx
    subst hx
    simp [lval_eval_sexpr, hcells, hf]
  · intro f x a hv hfun
    subst hv
    simp [lval_eval_sexpr, hcells, hf, hfun, head_error_untruncated]
  · intro f x a hv hfun
    subst hv
    simp [lval_eval_sexpr, hcells, hf, hfun]

/-- The hypotheses of the theorem of C2 hold for `(1 2)` in the root
environment, whose head is a Number. -/
theorem C2_eval_sexpr_dispatch_witness :
    lval_eval_cells (lval_eval stub_host 0) root_env [.num 1, .num 2]
        = .ok ([.num 1, .num 2], root_env) ∧
    (∀ x ∈ [Lval.num 1, Lval.num 2], x.type ≠ .LVAL_ERR) ∧
    lval_eval_sexpr stub_host (lval_eval stub_host 0) root_env [.num 1, .num 2] =
      .ok (.err "S-Expression starts with incorrect type! Got Number, Expected Function.",
        root_env) :=
  ⟨rfl, by decide,
    (C2_eval_sexpr_dispatch stub_host (lval_eval stub_host 0) root_env root_env
      [.num 1, .num 2] [.num 1, .num 2] rfl (by decide)).2.2.2.1 (.num 1) (.num 2) [] rfl
      (by decide)⟩

/-- C3: `lval_eval` returns a Number, String, Error, Function or Q-expression
unchanged and leaves the environment unchanged, whatever the fuel (the children
of a Q-expression are not evaluated); a Symbol evaluates to `lenv_get` of it. -/
theorem C3_eval_atoms (H : Host) (n : Nat) (e : Lenv) :
    (∀ v : Lval, v.type ∈ [LType.LVAL_NUM, .LVAL_STR, .LVAL_ERR, .LVAL_FUN, .LVAL_QEXPR] →
      lval_eval H n e v = .ok (v, e)) ∧
    (∀ c : List Lval, lval_eval H n e (.qexpr c) = .ok (.qexpr c, e)) ∧
    (∀ s : String, lval_eval H n e (.opr s) = .ok (lenv_get e s, e)) := by
  refine ⟨?_, ?_, ?_⟩
  · intro v hv
    cases v <;> first | (cases n <;> rfl) | (simp [Lval.type] at hv)
  · intro c
    cases n <;> rfl
  · intro s
    cases n <;> rfl

/-- C4 (amended): `lenv_get e k` returns the value at the first matching index of
the innermost scope of the chain that binds `k`; when no scope binds `k` it
returns the Error whose message is the first 510 bytes of
"Unbound operator 'k'!", which is the whole message when `k` has at most 490
bytes; and when no value stored on the chain is an Error, the result is an
Error exactly when no scope binds `k`. -/
theorem C4_lenv_get (e : Lenv) (k : String) :
    ((∃ s ∈ e.scopes, k ∈ keys s) →
      ∃ pre b1 v b2 post, e.scopes = pre ++ (b1 ++ (k, v) :: b2) :: post ∧
        (∀ s ∈ pre, k ∉ keys s) ∧ k ∉ keys b1 ∧ lenv_get e k = v) ∧
    ((∀ s ∈ e.scopes, k ∉ keys s) →
      lenv_get e k = .err ⟨("Unbound operator '" ++ k ++ "'!").data.take 510⟩ ∧
      (k.length ≤ 490 → lenv_get e k = .err ("Unbound operator '" ++ k ++ "'!"))) ∧
    ((∀ s ∈ e.scopes, ∀ p ∈ s, p.2.type ≠ .LVAL_ERR) →
      ((lenv_get e k).type = .LVAL_ERR ↔ ∀ s ∈ e.scopes, k ∉ keys s)) := by
  refine ⟨lenv_get_nearest k e, ?_, ?_⟩
  · intro h
    refine ⟨by rw [lenv_get_unbound k e h]; rfl, ?_⟩
    intro hk
    rw [lenv_get_unbound k e h]
    apply lval_err_of_short
    simp only [String.length_append]
    have h1 : ("Unbound operator '").length = 18 := by decide
    have h2 : ("'!").length = 2 := by decide
    omega
  · intro hne
    constructor
    · intro ht
      by_contra hb
      push_neg at hb
      obtain ⟨s, hs, hmem⟩ := lenv_get_stored k e hb
      exact hne s hs _ hmem ht
    · intro h
      rw [lenv_get_unbound k e h]
      rfl

/-- C4 as stated fails for a symbol of 491 bytes: no scope of the empty
environment binds it, and the Error returned is not "Unbound operator 'k'!",
whose 511 bytes do not fit the buffer of `lval_err`. -/
theorem C4_counterexample :
    (∀ s ∈ (lenv_new).scopes, (String.mk (List.replicate 491 'a')) ∉ keys s) ∧
    lenv_get lenv_new (String.mk (List.replicate 491 'a')) ≠
      .err ("Unbound operator '" ++ String.mk (List.replicate 491 'a') ++ "'!") := by
  constructor
  · intro s hs
    simp only [lenv_new, Lenv.scopes, List.mem_singleton] at hs
    subst hs
    simp [keys]
  · have h1 : lenv_get lenv_new (String.mk (List.replicate 491 'a')) =
        lval_err ("Unbound operator '" ++ String.mk (List.replicate 491 'a') ++ "'!") := rfl
    rw [h1]
    apply lval_err_of_long
    have h2 : ("Unbound operator '").length = 18 := by decide
    have h3 : ("'!").length = 2 := by decide
    have h4 : (String.mk (List.replicate 491 'a')).length = 491 := by
      simp only [String.length, List.length_replicate]
    simp only [String.length_append, h2, h3, h4]
    decide

/-- The first hypothesis of the theorem of C4 holds for `+` looked up from a scope
below the root environment. -/
theorem C4_lenv_get_witness :
    (∃ s ∈ (Lenv.mk (some root_env) [("x", .num 1)]).scopes, "+" ∈ keys s) ∧
    ∃ pre b1 v b2 post,
      (Lenv.mk (some root_env) [("x", .num 1)]).scopes = pre ++ (b1 ++ ("+", v) :: b2) :: post ∧
      (∀ s ∈ pre, "+" ∉ keys s) ∧ "+" ∉ keys b1 ∧
      lenv_get (Lenv.mk (some root_env) [("x", .num 1)]) "+" = v :=
  ⟨⟨root_env.binds, List.mem_cons_of_mem _ (List.mem_singleton.2 rfl), by decide⟩,
   (C4_lenv_get (Lenv.mk (some root_env) [("x", .num 1)]) "+").1
     ⟨root_env.binds, List.mem_cons_of_mem _ (List.mem_singleton.2 rfl), by decide⟩⟩

/-- C5: after `lenv_put e k v`, `lenv_get` of `k` is `v` and `lenv_get` of every
other symbol is what it was; the scope grows by one binding iff `k` was not
bound in it (the binding is then appended), otherwise the value at the first
index of `k` is replaced in place; the parent is unchanged; and pairwise
distinct keys stay pairwise distinct. -/
theorem C5_lenv_put (e : Lenv) (k : String) (v : Lval) :
    lenv_get (lenv_put e k v) k = v ∧
    (∀ j : String, j ≠ k → lenv_get (lenv_put e k v) j = lenv_get e j) ∧
    ((lenv_put e k v).binds.length = e.binds.length + 1 ↔ k ∉ keys e.binds) ∧
    (k ∉ keys e.binds → (lenv_put e k v).binds = e.binds ++ [(k, v)]) ∧
    (k ∈ keys e.binds → ∃ b1 w b2, e.binds = b1 ++ (k, w) :: b2 ∧ k ∉ keys b1 ∧
      (lenv_put e k v).binds = b1 ++ (k, v) :: b2) ∧
    (lenv_put e k v).par = e.par ∧
    ((keys e.binds).Nodup → (keys (lenv_put e k v).binds).Nodup) := by
  obtain ⟨par, b⟩ := e
  refine ⟨?_, ?_, ?_, ?_, ?_, rfl, ?_⟩
  · cases par <;> simp [lenv_put, lenv_get, lval_copy_eq, lenv_scan_put_same]
  · intro j hj
    exact lenv_get_congr (lenv_scan_put_other hj _ _)
  · simp only [lenv_put, Lenv.binds, lval_copy_eq]
    have hl := congrArg List.length (keys_lenv_put_binds k v b)
    simp only [keys, List.length_map] at hl
    by_cases h : k ∈ keys b
    · have h' : k ∈ List.map Prod.fst b := h
      rw [if_pos h'] at hl
      simp only [List.length_map] at hl
      constructor
      · intro h2; omega
      · intro h2; exact absurd h h2
    · have h' : k ∉ List.map Prod.fst b := h
      rw [if_neg h'] at hl
      simp only [List.length_append, List.length_map, List.length_singleton] at hl
      exact ⟨fun _ => h, fun _ => hl⟩
  · intro h
    rw [lenv_put_mk]
    exact lenv_put_binds_fresh _ h
  · intro h
    rw [lenv_put_mk]
    exact lenv_put_binds_bound _ h
  · intro hnd
    simp only [lenv_put, Lenv.binds, lval_copy_eq] at hnd ⊢
    rw [keys_lenv_put_binds]
    by_cases h : k ∈ keys b
    · rw [if_pos h]; exact hnd
    · rw [if_neg h]
      rw [List.nodup_append]
      refine ⟨hnd, List.nodup_singleton k, ?_⟩
      intro a ha hb
      simp only [List.mem_singleton] at hb
      subst hb
      exact h ha

/-- C6: called in `e` with a Q-expression of symbols `s1..sn` and values `v1..vn`
(the list `pairs`), the builtin `def` performs `lenv_def` of each `s_i := v_i` in
order: the bindings land in the outermost scope of the chain and every scope
below it, `e` included when it has a parent, keeps its bindings; the builtin
`=` performs `lenv_put` of each `s_i := v_i` in order in the scope of `e` itself
and leaves its parent chain as it was.  Both return the empty S-expression.
After either, each symbol is bound in the target scope to the value given at
its last occurrence in the list. -/
theorem C6_def_and_put (H : Host) (ev : Eval) (e : Lenv) (pairs : List (String × Lval)) :
    (call_builtin H ev .def_ e
        (.qexpr (pairs.map (fun p => .opr p.1)) :: pairs.map Prod.snd) =
      .ok (.sexpr [], pairs.foldl (fun e p => lenv_def e p.1 p.2) e)) ∧
    (pairs.foldl (fun e p => lenv_def e p.1 p.2) e).root_binds =
      pairs.foldl (fun b p => lenv_put_binds p.1 p.2 b) e.root_binds ∧
    (pairs.foldl (fun e p => lenv_def e p.1 p.2) e).inner_scopes = e.inner_scopes ∧
    (call_builtin H ev .put e
        (.qexpr (pairs.map (fun p => .opr p.1)) :: pairs.map Prod.snd) =
      .ok (.sexpr [], pairs.foldl (fun e p => lenv_put e p.1 p.2) e)) ∧
    (pairs.foldl (fun e p => lenv_put e p.1 p.2) e).binds =
      pairs.foldl (fun b p => lenv_put_binds p.1 p.2 b) e.binds ∧
    (pairs.foldl (fun e p => lenv_put e p.1 p.2) e).par = e.par ∧
    (∀ (b : List (String × Lval)) (i : Nat) (s : String) (v : Lval),
      pairs[i]? = some (s, v) → (∀ j p, i < j → pairs[j]? = some p → p.1 ≠ s) →
      lenv_scan s (pairs.foldl (fun b p => lenv_put_binds p.1 p.2 b) b) = some v) := by
  refine ⟨?_, foldl_lenv_def_root_binds pairs e, foldl_lenv_def_inner_scopes pairs e, ?_, ?_, ?_,
    lenv_scan_foldl_put pairs⟩
  · simp only [call_builtin]
    rw [builtin_var_ok, builtin_var_loop_def]
  · simp only [call_builtin]
    rw [builtin_var_ok, builtin_var_loop_put]
  · obtain ⟨par, b⟩ := e
    rw [foldl_lenv_put]; rfl
  · obtain ⟨par, b⟩ := e
    rw [foldl_lenv_put]; rfl

/-- C7: on a non-empty argument list `builtin_var` returns a value, which is an
Error exactly when the first argument is not a Q-expression, or one of its
cells is not a Symbol, or the number of its cells differs from the number of
remaining arguments; with an Error the environment is returned unchanged, and
otherwise the value is the empty S-expression. -/
theorem C7_builtin_var_errors (e : Lenv) (x : Lval) (rest : List Lval) (func : String) :
    ∃ r e1, builtin_var e (x :: rest) func = .ok (r, e1) ∧
      (r.type = .LVAL_ERR ↔
        (x.type ≠ .LVAL_QEXPR ∨ (∃ c ∈ x.cell, c.type ≠ .LVAL_OPR) ∨
          x.cell.length ≠ rest.length)) ∧
      (r.type = .LVAL_ERR → e1 = e) ∧
      (r.type ≠ .LVAL_ERR → r = .sexpr []) := by
  unfold builtin_var
  by_cases hq : x.type = .LVAL_QEXPR
  · simp only [hq, ne_eq, not_true_eq_false, if_false, false_or]
    cases hc : check_oprs (fun t => lval_err ("Function 'def' cannot define non-operator! Got "
      ++ ltype_name t ++ ", Expected " ++ ltype_name .LVAL_OPR)) x.cell with
    | some er =>
      obtain ⟨t, ht⟩ := check_oprs_eq_some hc
      have hne : ¬ ∀ c ∈ x.cell, c.type = .LVAL_OPR := by
        rw [← check_oprs_eq_none, hc]; simp
      push_neg at hne
      refine ⟨er, e, rfl, ?_, fun _ => rfl, ?_⟩
      · subst ht
        simp only [lval_err_type, true_iff]
        exact Or.inl hne
      · subst ht
        intro h; exact absurd (lval_err_type _) h
    | none =>
      have hall := check_oprs_eq_none.1 hc
      by_cases hl : x.cell.length = rest.length
      · simp only [hl, not_true_eq_false, if_false, or_false]
        refine ⟨_, _, rfl, ?_, ?_, fun _ => rfl⟩
        · constructor
          · intro h; cases h
          · rintro ⟨c, hc1, hc2⟩
            exact absurd (hall c hc1) hc2
        · intro h; cases h
      · simp only [hl, not_false_eq_true, if_true, or_true]
        exact ⟨_, _, rfl, by simp [lval_err_type], fun _ => rfl,
          fun h => absurd (lval_err_type _) h⟩
  · simp only [hq, ne_eq, not_false_eq_true, if_true, true_or]
    exact ⟨_, _, rfl, by simp [err_type, lval_err_type], fun _ => rfl,
      fun h => absurd (lval_err_type _) h⟩

/-- C8: a lambda with formals `p1..pn`, none of them `&`, body `B` and captured
environment `CE`, called in `e` with exactly `n` arguments, returns what
evaluating `B` retagged as an S-expression returns in the environment obtained
from `CE` by `lenv_put` of `p_i := a_i` in order with its parent set to `e`; the
caller continues in the parent of the environment that evaluation leaves.  With
`add-mul` defined as `(\ {x y} {+ x (* x y)})`, `add-mul 10 20` evaluates to
210. -/
theorem C8_lval_call_full (H : Host) (n : Nat) (e CE : Lenv) (ps : List String)
    (as bs : List Lval) (hamp : "&" ∉ ps) (hlen : as.length = ps.length) :
    (∀ ev : Eval,
      lval_call H ev e (.lambda CE (.qexpr (ps.map .opr)) (.qexpr bs)) as =
        lval_call_leave
          (ev (((ps.zip as).foldl (fun c p => lenv_put c p.1 p.2) CE).setPar e) (.sexpr bs))) ∧
    (∀ r env1,
      lval_eval H n (((ps.zip as).foldl (fun c p => lenv_put c p.1 p.2) CE).setPar e) (.sexpr bs)
        = .ok (r, env1) →
      ∃ e1, env1.par = some e1 ∧
        lval_call H (lval_eval H n) e (.lambda CE (.qexpr (ps.map .opr)) (.qexpr bs)) as
          = .ok (r, e1)) ∧
    (∃ r1, lval_eval H 3 root_env (.sexpr [.opr "def", .qexpr [.opr "add-mul"],
        .sexpr [.opr "\\", .qexpr [.opr "x", .opr "y"],
          .qexpr [.opr "+", .opr "x", .sexpr [.opr "*", .opr "x", .opr "y"]]]])
        = .ok (.sexpr [], r1) ∧
      lval_eval H 3 r1 (.sexpr [.opr "add-mul", .num 10, .num 20]) = .ok (.num 210, r1)) := by
  have hcall : ∀ ev : Eval,
      lval_call H ev e (.lambda CE (.qexpr (ps.map .opr)) (.qexpr bs)) as =
        lval_call_leave
          (ev (((ps.zip as).foldl (fun c p => lenv_put c p.1 p.2) CE).setPar e) (.sexpr bs)) := by
    intro ev
    have hb := lval_call_bind_prefix as.length (ps.map Lval.opr).length [] ps as CE hamp
      (le_of_eq hlen)
    simp only [List.append_nil, hlen, List.drop_length, List.map_nil] at hb
    simp only [lval_call, Lval.cells?, hlen, hb, lval_call_rest, lval_call_finish_full]
  refine ⟨hcall, ?_, ⟨_, rfl, rfl⟩⟩
  intro r env1 h
  obtain ⟨e1, h1, h2⟩ := lval_call_leave_eval H n _ e _ r env1 h
  exact ⟨e1, h1, by rw [hcall]; exact h2⟩

/-- The hypotheses of the theorem of C8 hold for the lambda of `add-mul`
applied to 10 and 20. -/
theorem C8_lval_call_full_witness :
    "&" ∉ ["x", "y"] ∧ [Lval.num 10, Lval.num 20].length = ["x", "y"].length ∧
    lval_call stub_host (lval_eval stub_host 2) root_env
      (.lambda lenv_new (.qexpr [.opr "x", .opr "y"])
        (.qexpr [.opr "+", .opr "x", .sexpr [.opr "*", .opr "x", .opr "y"]]))
      [.num 10, .num 20] = .ok (.num 210, root_env) :=
  ⟨by decide, rfl,
    ((C8_lval_call_full stub_host 2 root_env lenv_new ["x", "y"] [.num 10, .num 20]
      [.opr "+", .opr "x", .sexpr [.opr "*", .opr "x", .opr "y"]] (by decide) rfl).1
      (lval_eval stub_host 2)).trans rfl⟩

/-- C9: partial application is currying.  A lambda with formals `p1..pn`, none of
them `&`, applied to the first `k < n` of the arguments `a1..an` returns, in an
unchanged environment, the lambda whose formals are `p(k+1)..pn`, whose body is
the same and whose captured environment is the original one after `lenv_put` of
`p1 := a1`, ..., `pk := ak`; applying that lambda to `a(k+1)..an` in any
environment gives the outcome of applying the original lambda to `a1..an` there.
With `add-mul-ten` defined as `(add-mul 10)`, `add-mul-ten 50` evaluates to
510. -/
theorem C9_partial_application (H : Host) (ev : Eval) (e CE : Lenv) (ps : List String)
    (as bs : List Lval) (k : Nat) (hamp : "&" ∉ ps) (hlen : as.length = ps.length)
    (hk2 : k < ps.length) :
    lval_call H ev e (.lambda CE (.qexpr (ps.map .opr)) (.qexpr bs)) (as.take k) =
      .ok (.lambda (((ps.take k).zip (as.take k)).foldl (fun c p => lenv_put c p.1 p.2) CE)
        (.qexpr ((ps.drop k).map .opr)) (.qexpr bs), e) ∧
    (∀ e2 : Lenv,
      lval_call H ev e2
        (.lambda (((ps.take k).zip (as.take k)).foldl (fun c p => lenv_put c p.1 p.2) CE)
          (.qexpr ((ps.drop k).map .opr)) (.qexpr bs)) (as.drop k) =
      lval_call H ev e2 (.lambda CE (.qexpr (ps.map .opr)) (.qexpr bs)) as) ∧
    (∃ r1 r2, lval_eval H 3 root_env (.sexpr [.opr "def", .qexpr [.opr "add-mul"],
        .sexpr [.opr "\\", .qexpr [.opr "x", .opr "y"],
          .qexpr [.opr "+", .opr "x", .sexpr [.opr "*", .opr "x", .opr "y"]]]])
        = .ok (.sexpr [], r1) ∧
      lval_eval H 3 r1 (.sexpr [.opr "def", .qexpr [.opr "add-mul-ten"],
        .sexpr [.opr "add-mul", .num 10]]) = .ok (.sexpr [], r2) ∧
      lval_eval H 3 r2 (.sexpr [.opr "add-mul-ten", .num 50]) = .ok (.num 510, r2)) := by
  have hamp2 : "&" ∉ ps.drop k := fun h => hamp (List.mem_of_mem_drop h)
  have hlt : (as.take k).length = k := by
    rw [List.length_take]; omega
  refine ⟨?_, ?_, ⟨_, _, rfl, rfl, rfl⟩⟩
  · have hb := lval_call_bind_prefix (as.take k).length (ps.map Lval.opr).length [] ps
      (as.take k) CE hamp (by omega)
    simp only [List.append_nil, hlt] at hb
    have hne : ps.drop k ≠ [] := by
      intro h
      have := congrArg List.length h
      simp only [List.length_drop, List.length_nil] at this
      omega
    obtain ⟨s, qs, hq⟩ := List.exists_cons_of_ne_nil hne
    have hr := lval_call_rest_plain
      ((ps.zip (as.take k)).foldl (fun c p => lenv_put c p.1 p.2) CE) (ps.drop k) hamp2
    simp only [lval_call, Lval.cells?, hlt, hb, hr]
    rw [zip_take_right, hq]
    exact lval_call_finish_curried _ _ _ _ _ _ _
  · intro e2
    have hb1 := lval_call_bind_prefix (as.drop k).length ((ps.drop k).map Lval.opr).length []
      (ps.drop k) (as.drop k)
      (((ps.take k).zip (as.take k)).foldl (fun c p => lenv_put c p.1 p.2) CE) hamp2
      (by simp only [List.length_drop]; omega)
    have hb2 := lval_call_bind_prefix as.length (ps.map Lval.opr).length [] ps as CE hamp
      (le_of_eq hlen)
    have hd : (as.drop k).length = (ps.drop k).length := by
      simp only [List.length_drop]; omega
    simp only [List.append_nil, hd, hlen, List.drop_length, List.map_nil] at hb1 hb2
    simp only [lval_call, Lval.cells?, hd, hlen, hb1, hb2, lval_call_rest,
      lval_call_finish_full]
    rw [zip_take_drop ps as k, List.foldl_append]

/-- The hypotheses of the theorem of C9 hold for the lambda of `add-mul`
applied to its first argument only. -/
theorem C9_partial_application_witness :
    "&" ∉ ["x", "y"] ∧ [Lval.num 10, Lval.num 50].length = ["x", "y"].length ∧
    1 < ["x", "y"].length ∧
    lval_call stub_host (lval_eval stub_host 2) root_env
      (.lambda lenv_new (.qexpr [.opr "x", .opr "y"])
        (.qexpr [.opr "+", .opr "x", .sexpr [.opr "*", .opr "x", .opr "y"]]))
      [.num 10] =
    .ok (.lambda (.mk none [("x", .num 10)]) (.qexpr [.opr "y"])
        (.qexpr [.opr "+", .opr "x", .sexpr [.opr "*", .opr "x", .opr "y"]]), root_env) :=
  ⟨by decide, rfl, by decide,
    (C9_partial_application stub_host (lval_eval stub_host 2) root_env lenv_new ["x", "y"]
      [.num 10, .num 50] [.opr "+", .opr "x", .sexpr [.opr "*", .opr "x", .opr "y"]] 1
      (by decide) rfl (by decide)).1⟩

/-- C10: a lambda with formals `p1..pn`, `&`, `r` (no `p_i` is `&`), called in `e`
with `m >= max n 1` arguments, evaluates its body in the environment obtained
from the captured one by `lenv_put` of `p_i := a_i` for `i <= n`, in order, and
then of `r` to the Q-expression of `a(n+1)..am` (the empty Q-expression when
`m = n`), with its parent set to `e`.  With `pack` defined as `(\ {& xs} {xs})`,
`pack 1 2 3` evaluates to `{1 2 3}`. -/
theorem C10_variadic (H : Host) (n : Nat) (e CE : Lenv) (ps : List String) (r : String)
    (as bs : List Lval) (hamp : "&" ∉ ps) (hlen : max ps.length 1 ≤ as.length) :
    (∀ ev : Eval,
      lval_call H ev e (.lambda CE (.qexpr (ps.map .opr ++ [.opr "&", .opr r])) (.qexpr bs)) as =
        lval_call_leave
          (ev ((lenv_put ((ps.zip as).foldl (fun c p => lenv_put c p.1 p.2) CE) r
            (.qexpr (as.drop ps.length))).setPar e) (.sexpr bs))) ∧
    (∀ v env1,
      lval_eval H n ((lenv_put ((ps.zip as).foldl (fun c p => lenv_put c p.1 p.2) CE) r
          (.qexpr (as.drop ps.length))).setPar e) (.sexpr bs) = .ok (v, env1) →
      ∃ e1, env1.par = some e1 ∧
        lval_call H (lval_eval H n) e
          (.lambda CE (.qexpr (ps.map .opr ++ [.opr "&", .opr r])) (.qexpr bs)) as
          = .ok (v, e1)) ∧
    (∃ r1, lval_eval H 3 root_env (.sexpr [.opr "def", .qexpr [.opr "pack"],
        .sexpr [.opr "\\", .qexpr [.opr "&", .opr "xs"], .qexpr [.opr "xs"]]])
        = .ok (.sexpr [], r1) ∧
      lval_eval H 3 r1 (.sexpr [.opr "pack", .num 1, .num 2, .num 3])
        = .ok (.qexpr [.num 1, .num 2, .num 3], r1)) := by
  have hl : ps.length ≤ as.length := le_trans (le_max_left _ _) hlen
  have hcall : ∀ ev : Eval,
      lval_call H ev e (.lambda CE (.qexpr (ps.map .opr ++ [.opr "&", .opr r])) (.qexpr bs)) as =
        lval_call_leave
          (ev ((lenv_put ((ps.zip as).foldl (fun c p => lenv_put c p.1 p.2) CE) r
            (.qexpr (as.drop ps.length))).setPar e) (.sexpr bs)) := by
    intro ev
    rcases Nat.lt_or_ge ps.length as.length with hlt | hge
    · have hb := lval_call_bind_variadic as.length
        (ps.map Lval.opr ++ [Lval.opr "&", Lval.opr r]).length r ps as CE hamp hlt
      simp only [lval_call, Lval.cells?, hb, lval_call_rest, lval_call_finish_full]
    · have heq : as.length = ps.length := le_antisymm hge hl
      have hb := lval_call_bind_prefix as.length
        (ps.map Lval.opr ++ [Lval.opr "&", Lval.opr r]).length [Lval.opr "&", Lval.opr r] ps as CE hamp hge
      simp only [heq, List.drop_length, List.map_nil, List.nil_append] at hb
      have hd : as.drop ps.length = [] := by
        rw [← heq]; exact List.drop_length as
      simp only [lval_call, Lval.cells?, heq, hb, hd, lval_call_rest, if_true,
        lval_call_finish_full]
  refine ⟨hcall, ?_, ⟨_, rfl, rfl⟩⟩
  intro v env1 h
  obtain ⟨e1, h1, h2⟩ := lval_call_leave_eval H n _ e _ v env1 h
  exact ⟨e1, h1, by rw [hcall]; exact h2⟩

/-- The hypotheses of the theorem of C10 hold for formals `x & xs` and three
arguments. -/
theorem C10_variadic_witness :
    "&" ∉ ["x"] ∧ max ["x"].length 1 ≤ [Lval.num 1, Lval.num 2, Lval.num 3].length ∧
    lval_call stub_host (lval_eval stub_host 1) root_env
      (.lambda lenv_new (.qexpr [.opr "x", .opr "&", .opr "xs"]) (.qexpr [.opr "xs"]))
      [.num 1, .num 2, .num 3] = .ok (.qexpr [.num 2, .num 3], root_env) :=
  ⟨by decide, by decide,
    ((C10_variadic stub_host 1 root_env lenv_new ["x"] "xs" [.num 1, .num 2, .num 3]
      [.opr "xs"] (by decide) (by decide)).1 (lval_eval stub_host 1)).trans rfl⟩

/-- C11 (amended): an S-expression whose only child is a symbol evaluates to the
value bound to the symbol, which is returned as it is: after
`def {pack} (\ {& xs} {xs})`, the expression `pack` alone evaluates to the
lambda bound to `pack`, which is not called.  The collector is bound to the
empty Q-expression when `lval_call` runs with the arguments exhausted and `&`
and the collector as the formals left: called with no argument, a lambda with
formals `& r` evaluates its body with `r` bound to `{}`, and
`(\ {x & xs} {xs}) 1` evaluates to `{}`. -/
theorem C11_pack_alone (H : Host) :
    (∀ (n : Nat) (e : Lenv) (s : String),
      lval_eval H (n + 1) e (.sexpr [.opr s]) = .ok (lenv_get e s, e)) ∧
    (∃ r1, lval_eval H 3 root_env (.sexpr [.opr "def", .qexpr [.opr "pack"],
        .sexpr [.opr "\\", .qexpr [.opr "&", .opr "xs"], .qexpr [.opr "xs"]]])
        = .ok (.sexpr [], r1) ∧
      lval_eval H 3 r1 (.sexpr [.opr "pack"])
        = .ok (.lambda lenv_new (.qexpr [.opr "&", .opr "xs"]) (.qexpr [.opr "xs"]), r1)) ∧
    (∀ (ev : Eval) (e CE : Lenv) (r : String) (bs : List Lval),
      lval_call H ev e (.lambda CE (.qexpr [.opr "&", .opr r]) (.qexpr bs)) [] =
        lval_call_leave (ev ((lenv_put CE r (.qexpr [])).setPar e) (.sexpr bs))) ∧
    lval_eval H 3 root_env (.sexpr [.sexpr [.opr "\\", .qexpr [.opr "x", .opr "&", .opr "xs"],
        .qexpr [.opr "xs"]], .num 1]) = .ok (.qexpr [], root_env) := by
  refine ⟨lval_eval_sole_symbol H, ⟨_, rfl, rfl⟩, ?_, rfl⟩
  intro ev e CE r bs
  simp only [lval_call, Lval.cells?, lval_call_bind, lval_call_rest, if_true,
    lval_call_finish_full]

/-- C11 as stated fails: after `def {pack} (\ {& xs} {xs})` in the root
environment, `pack` alone evaluates to the lambda, which is not the empty
Q-expression. -/
theorem C11_counterexample :
    lval_eval stub_host 3 root_env (.sexpr [.opr "def", .qexpr [.opr "pack"],
        .sexpr [.opr "\\", .qexpr [.opr "&", .opr "xs"], .qexpr [.opr "xs"]]])
      = .ok (.sexpr [], lenv_put root_env "pack"
          (.lambda lenv_new (.qexpr [.opr "&", .opr "xs"]) (.qexpr [.opr "xs"]))) ∧
    lval_eval stub_host 3 (lenv_put root_env "pack"
        (.lambda lenv_new (.qexpr [.opr "&", .opr "xs"]) (.qexpr [.opr "xs"])))
        (.sexpr [.opr "pack"])
      = .ok (.lambda lenv_new (.qexpr [.opr "&", .opr "xs"]) (.qexpr [.opr "xs"]),
          lenv_put root_env "pack"
            (.lambda lenv_new (.qexpr [.opr "&", .opr "xs"]) (.qexpr [.opr "xs"]))) ∧
    Lval.lambda lenv_new (.qexpr [.opr "&", .opr "xs"]) (.qexpr [.opr "xs"]) ≠ .qexpr [] :=
  ⟨rfl, rfl, fun h => Lval.noConfusion h⟩

/-- C12: a lambda with `n` formals, none of them `&`, called with `m > n` arguments
returns the Error of `lval_err` on
"Function passed too many arguments! Got m, Expected n." in an unchanged
environment, whatever the evaluator: the body is not evaluated.  For a count
`m` that fits a C `int` the message is not truncated. -/
theorem C12_too_many_arguments (H : Host) (e CE : Lenv) (ps : List String) (as : List Lval)
    (body : Lval) (hamp : "&" ∉ ps) (hlen : ps.length < as.length) :
    (∀ ev : Eval,
      lval_call H ev e (.lambda CE (.qexpr (ps.map .opr)) body) as =
        .ok (lval_err ("Function passed too many arguments! Got " ++ toString as.length
          ++ ", Expected " ++ toString ps.length ++ "."), e)) ∧
    (as.length < 2 ^ 31 →
      lval_err ("Function passed too many arguments! Got " ++ toString as.length
          ++ ", Expected " ++ toString ps.length ++ ".") =
        .err ("Function passed too many arguments! Got " ++ toString as.length
          ++ ", Expected " ++ toString ps.length ++ ".")) := by
  constructor
  · intro ev
    have hb := lval_call_bind_too_many as.length (ps.map Lval.opr).length ps as CE hamp hlen
    simp only [List.length_map] at hb
    simp only [lval_call, Lval.cells?, List.length_map, hb]
  · intro hint
    apply lval_err_of_short
    have h1 := toString_length_int hint
    have h2 := toString_length_int (lt_trans hlen hint)
    have h3 : ("Function passed too many arguments! Got ").length = 40 := by decide
    have h4 : (", Expected ").length = 11 := by decide
    have h5 : (".").length = 1 := by decide
    simp only [String.length_append, h3, h4, h5]
    omega

/-- The hypotheses of the theorem of C12 hold for one formal and two
arguments. -/
theorem C12_too_many_arguments_witness :
    "&" ∉ ["x"] ∧ ["x"].length < [Lval.num 1, Lval.num 2].length ∧
    lval_call stub_host (lval_eval stub_host 0) root_env
      (.lambda lenv_new (.qexpr [.opr "x"]) (.qexpr [.opr "x"])) [.num 1, .num 2] =
      .ok (.err "Function passed too many arguments! Got 2, Expected 1.", root_env) :=
  ⟨by decide, by decide,
    ((C12_too_many_arguments stub_host root_env lenv_new ["x"] [.num 1, .num 2]
      (.qexpr [.opr "x"]) (by decide) (by decide)).1 (lval_eval stub_host 0)).trans rfl⟩

/-- C13: when the binding loop of `lval_call` reaches the formal `&` with
arguments left and the number of formals after it is not one, the call returns
the Error "Function formal invalid! Operator '&' not followed by a single
operator."; when the arguments are exhausted and the formals left are `&`
followed by a number of formals other than one, it returns the Error
"Function format invalid! Symbol '&' no followed by a single symbol.".  Either
holds whatever the evaluator, so the body is not evaluated; formals `{x &}`
give the second with one argument and the first with two. -/
theorem C13_malformed_variadic (H : Host) (e CE : Lenv) (ps : List String)
    (rest as : List Lval) (body : Lval) (hamp : "&" ∉ ps) (hrest : rest.length ≠ 1) :
    (ps.length < as.length → ∀ ev : Eval,
      lval_call H ev e (.lambda CE (.qexpr (ps.map .opr ++ .opr "&" :: rest)) body) as =
        .ok (.err "Function formal invalid! Operator '&' not followed by a single operator.",
          e)) ∧
    (as.length = ps.length → ∀ ev : Eval,
      lval_call H ev e (.lambda CE (.qexpr (ps.map .opr ++ .opr "&" :: rest)) body) as =
        .ok (.err "Function format invalid! Symbol '&' no followed by a single symbol.", e)) ∧
    lval_eval H 2 root_env (.sexpr [.sexpr [.opr "\\", .qexpr [.opr "x", .opr "&"],
        .qexpr [.opr "x"]], .num 1])
      = .ok (.err "Function format invalid! Symbol '&' no followed by a single symbol.",
          root_env) ∧
    lval_eval H 2 root_env (.sexpr [.sexpr [.opr "\\", .qexpr [.opr "x", .opr "&"],
        .qexpr [.opr "x"]], .num 1, .num 2])
      = .ok (.err "Function formal invalid! Operator '&' not followed by a single operator.",
          root_env) := by
  refine ⟨?_, ?_, rfl, rfl⟩
  · intro hl ev
    have hb := lval_call_bind_bad_amp as.length
      (ps.map Lval.opr ++ Lval.opr "&" :: rest).length rest hrest ps as CE hamp hl
    simp only [lval_call, Lval.cells?, hb]
    rfl
  · intro hl ev
    have hb := lval_call_bind_prefix as.length
      (ps.map Lval.opr ++ Lval.opr "&" :: rest).length (Lval.opr "&" :: rest) ps as CE hamp
      (le_of_eq hl)
    simp only [hl, List.drop_length, List.map_nil, List.nil_append] at hb
    simp only [lval_call, Lval.cells?, hl, hb, lval_call_rest_bad_amp _ rest hrest]
    rfl

/-- The hypotheses of the theorem of C13 hold for formals `x &` and one
argument. -/
theorem C13_malformed_variadic_witness :
    "&" ∉ ["x"] ∧ ([] : List Lval).length ≠ 1 ∧ [Lval.num 1].length = ["x"].length ∧
    lval_call stub_host (lval_eval stub_host 0) root_env
      (.lambda lenv_new (.qexpr [.opr "x", .opr "&"]) (.qexpr [.opr "x"])) [.num 1] =
      .ok (.err "Function format invalid! Symbol '&' no followed by a single symbol.",
        root_env) :=
  ⟨by decide, by decide, rfl,
    (C13_malformed_variadic stub_host root_env lenv_new ["x"] [] [.num 1] (.qexpr [.opr "x"])
      (by decide) (by decide)).2.1 rfl (lval_eval stub_host 0)⟩

/-- C14 (amended): for `op` among `+`, `-`, `*`, `min`, `max` and numbers `n1 .. nk`, `k >= 2`,
with every partial result of the left fold a value of `long`, `builtin_op`
returns the Number `((n1 op n2) op n3) ... op nk`; `-` on one number `n` returns
`-n` when that is a value of `long`; and for any `op`, when the argument at
index `i` is the first that is not a Number the result is the type Error of
`LASSERT_TYPE` for index `i`.  `+ 1 2 3` is 6 and `- 10` is -10. -/
theorem C14_arith_fold (H : Host) :
    (∀ (op : String) (n1 : Int) (rest : List Int), op ∈ ["+", "-", "*", "min", "max"] →
      rest ≠ [] →
      (∀ i, i ≤ rest.length → in_long ((rest.take i).foldl (spec_arith op) n1)) →
      builtin_op H (.num n1 :: rest.map .num) op =
        .ok (.num (rest.foldl (spec_arith op) n1))) ∧
    (∀ n : Int, in_long (-n) → builtin_op H [.num n] "-" = .ok (.num (-n))) ∧
    (∀ (op : String) (a : List Lval) (i : Nat) (x : Lval), a[i]? = some x →
      x.type ≠ .LVAL_NUM → (∀ j y, j < i → a[j]? = some y → y.type = .LVAL_NUM) →
      builtin_op H a op = .ok (err_type op i x.type .LVAL_NUM) ∧
      (err_type op i x.type .LVAL_NUM).type = .LVAL_ERR ∧
      (op.length ≤ 3 → i < 2 ^ 31 →
        err_type op i x.type .LVAL_NUM =
          .err ("Function '" ++ op ++ "' passed incorrect type for argument " ++ toString i
            ++ ". Got " ++ ltype_name x.type ++ ", Expected Number."))) ∧
    lval_eval H 1 root_env (.sexpr [.opr "+", .num 1, .num 2, .num 3])
      = .ok (.num 6, root_env) ∧
    lval_eval H 1 root_env (.sexpr [.opr "-", .num 10]) = .ok (.num (-10), root_env) := by
  refine ⟨?_, ?_, ?_, rfl, rfl⟩
  · intro op n1 rest hop hne h
    obtain ⟨y, r, rfl⟩ := List.exists_cons_of_ne_nil hne
    have hc := check_types_nums op (n1 :: y :: r) 0
    simp only [List.map_cons] at hc
    simp only [builtin_op, List.map_cons, hc, List.length_cons, List.length_map]
    have hlen : ¬ (r.length + 1 = 0) := by omega
    simp only [hlen, and_false, if_false]
    have := builtin_op_loop_fold H hop (y :: r) n1 h
    simpa using this
  · intro n hn
    simp [builtin_op, check_types, Lval.type, builtin_op_loop, wrap64_of_in_long hn]
  · intro op a i x hx hty hbefore
    have hc := check_types_first_bad op .LVAL_NUM a 0 i x hx hty hbefore
    simp only [Nat.zero_add] at hc
    refine ⟨by simp only [builtin_op, hc], rfl, ?_⟩
    intro hop hi
    have hs : ∀ s : String, s ++ ", Expected " ++ ltype_name .LVAL_NUM ++ "." =
        s ++ ", Expected Number." := by
      intro s
      rw [String.append_assoc, String.append_assoc]
      rfl
    unfold err_type
    rw [← hs]
    apply lval_err_of_short
    have h1 := toString_length_int hi
    have h2 := ltype_name_length x.type
    have h3 : ("Function '").length = 10 := by decide
    have h4 : ("' passed incorrect type for argument ").length = 37 := by decide
    have h5 : (". Got ").length = 6 := by decide
    have h6 : (", Expected ").length = 11 := by decide
    have h7 : (ltype_name .LVAL_NUM).length = 6 := by decide
    have h8 : (".").length = 1 := by decide
    simp only [String.length_append, h3, h4, h5, h6, h7, h8]
    omega

/-- The hypotheses of the first part of the theorem of C14 hold for
`* 2 3 4`. -/
theorem C14_arith_fold_witness :
    "*" ∈ ["+", "-", "*", "min", "max"] ∧ [(3 : Int), 4] ≠ [] ∧
    (∀ i, i ≤ [(3 : Int), 4].length →
      in_long (([(3 : Int), 4].take i).foldl (spec_arith "*") 2)) ∧
    builtin_op stub_host (.num 2 :: [(3 : Int), 4].map .num) "*" = .ok (.num 24) := by
  have hov : ∀ i, i ≤ [(3 : Int), 4].length →
      in_long (([(3 : Int), 4].take i).foldl (spec_arith "*") 2) := by
    intro i hi
    simp only [List.length_cons, List.length_nil] at hi
    interval_cases i <;> (unfold in_long; decide)
  exact ⟨by decide, by decide, hov,
    ((C14_arith_fold stub_host).1 "*" 2 [3, 4] (by decide) (by decide) hov).trans rfl⟩

/-- C14 as stated fails for `- n` at `n = -2^63`, the Number that the reader
yields for the literal `-9223372036854775808`: `-n` is `2^63`, which is not a
value of `long`, and the negation `x->num = -x->num` leaves `-2^63`, so the
Number returned is not `-n`. -/
theorem C14_counterexample :
    lval_read_num "-9223372036854775808" = .num (-(2 ^ 63)) ∧
    in_long (-(2 ^ 63)) ∧
    ¬ in_long (-(-(2 ^ 63))) ∧
    builtin_op stub_host [.num (-(2 ^ 63))] "-" = .ok (.num (-(2 ^ 63))) ∧
    lval_eval stub_host 1 root_env (.sexpr [.opr "-", .num (-(2 ^ 63))]) =
      .ok (.num (-(2 ^ 63)), root_env) ∧
    builtin_op stub_host [.num (-(2 ^ 63))] "-" ≠ .ok (.num (-(-(2 ^ 63)))) := by
  refine ⟨rfl, by unfold in_long; decide, by unfold in_long; decide, rfl, rfl, ?_⟩
  intro h
  injection h with h
  injection h with h
  exact absurd h (by decide)

/-- C15 (amended): for numbers `n1 .. nk` in which no division step before the
first zero divisor divides `-2^63` by `-1`, the builtin `/` returns the Error
"Division By Zero!" if some `n_i` with `i >= 2` is 0 and otherwise the Number
that is the left fold of truncating division.  `/ 10 0` is the Error. -/
theorem C15_division (H : Host) (n1 : Int) (rest : List Int)
    (hov : ∀ i y, rest[i]? = some y → (∀ j, j < i → rest[j]? ≠ some 0) →
      ¬ ((rest.take i).foldl Int.tdiv n1 = -(2 ^ 63) ∧ y = -1)) :
    (0 ∈ rest → builtin_op H (.num n1 :: rest.map .num) "/" = .ok (.err "Division By Zero!")) ∧
    (0 ∉ rest →
      builtin_op H (.num n1 :: rest.map .num) "/" = .ok (.num (rest.foldl Int.tdiv n1))) ∧
    lval_eval H 1 root_env (.sexpr [.opr "/", .num 10, .num 0])
      = .ok (.err "Division By Zero!", root_env) := by
  have hc := check_types_nums "/" (n1 :: rest) 0
  simp only [List.map_cons] at hc
  have hm : ¬ ("/" = "-") := by decide
  have hb : builtin_op H (.num n1 :: rest.map .num) "/" =
      if 0 ∈ rest then .ok (.err "Division By Zero!")
      else .ok (.num (rest.foldl Int.tdiv n1)) := by
    simp only [builtin_op, hc, hm, false_and, if_false]
    exact builtin_op_loop_div H rest n1 hov
  refine ⟨?_, ?_, rfl⟩
  · intro h; rw [hb, if_pos h]
  · intro h; rw [hb, if_neg h]

/-- The hypothesis of the theorem of C15 holds for `/ 10 2 0`. -/
theorem C15_division_witness :
    (∀ i y, [(2 : Int), 0][i]? = some y → (∀ j, j < i → [(2 : Int), 0][j]? ≠ some 0) →
      ¬ (([(2 : Int), 0].take i).foldl Int.tdiv 10 = -(2 ^ 63) ∧ y = -1)) ∧
    builtin_op stub_host (.num 10 :: [(2 : Int), 0].map .num) "/" =
      .ok (.err "Division By Zero!") := by
  have hov : ∀ i y, [(2 : Int), 0][i]? = some y → (∀ j, j < i → [(2 : Int), 0][j]? ≠ some 0) →
      ¬ (([(2 : Int), 0].take i).foldl Int.tdiv 10 = -(2 ^ 63) ∧ y = -1) := by
    intro i y hy _ hc
    have hy1 : y = -1 := hc.2
    subst hy1
    match i, hy with
    | 0, hy => simp at hy
    | 1, hy => simp at hy
    | (k + 2), hy => simp at hy
  exact ⟨hov, (C15_division stub_host 10 [2, 0] hov).1 (by decide)⟩

/-- C15 as stated fails for `/ -9223372036854775808 -1`: no divisor is 0, and
the quotient `2^63` is not a value of `long`; the division in `builtin_op` has
no defined result and no Number is returned. -/
theorem C15_counterexample :
    (0 : Int) ∉ [(-1 : Int)] ∧
    builtin_op stub_host (.num (-(2 ^ 63)) :: [(-1 : Int)].map .num) "/" = .error .undefined ∧
    lval_eval stub_host 1 root_env (.sexpr [.opr "/", .num (-9223372036854775808), .num (-1)])
      = .error .undefined :=
  ⟨by decide, rfl, rfl⟩

/-- C16, the code at the failing input: `% 5 0` has no defined result, because
the `%` branch of `builtin_op` computes `x->num %= y->num` without the zero
check that the `/` branch makes; `/ 5 0` is the Error "Division By Zero!". -/
theorem C16_remainder_by_zero (H : Host) :
    builtin_op H [.num 5, .num 0] "%" = .error .undefined ∧
    lval_eval H 1 root_env (.sexpr [.opr "%", .num 5, .num 0]) = .error .undefined ∧
    (∀ (x : Int) (r : List Lval), builtin_op_loop H "%" x (.num 0 :: r) = .error .undefined) ∧
    lval_eval H 1 root_env (.sexpr [.opr "/", .num 5, .num 0])
      = .ok (.err "Division By Zero!", root_env) := by
  refine ⟨rfl, rfl, ?_, rfl⟩
  intro x r
  simp [builtin_op_loop]

/-- C17: `if n q1 q2` with a Number `n` and Q-expressions `q1`, `q2` is the
evaluation in `e` of `q1` retagged as an S-expression when `n` is not 0 and of
`q2` retagged when `n` is 0, whatever the evaluator, so the other branch is not
evaluated; with an argument count other than 3, a condition that is not a
Number or a branch that is not a Q-expression the result is an Error in the
unchanged environment, the same for every evaluator. -/
theorem C17_builtin_if (H : Host) (e : Lenv) :
    (∀ (ev : Eval) (n : Int) (c1 c2 : List Lval), n ≠ 0 →
      builtin_if ev e [.num n, .qexpr c1, .qexpr c2] = ev e (.sexpr c1)) ∧
    (∀ (ev : Eval) (c1 c2 : List Lval),
      builtin_if ev e [.num 0, .qexpr c1, .qexpr c2] = ev e (.sexpr c2)) ∧
    (∀ a : List Lval,
      (a.length ≠ 3 ∨ ∃ c t f, a = [c, t, f] ∧
        (c.type ≠ .LVAL_NUM ∨ t.type ≠ .LVAL_QEXPR ∨ f.type ≠ .LVAL_QEXPR)) →
      ∃ er : Lval, er.type = .LVAL_ERR ∧ ∀ ev : Eval, builtin_if ev e a = .ok (er, e)) ∧
    lval_eval H 2 root_env (.sexpr [.opr "if", .sexpr [.opr ">", .num 3, .num 2],
        .qexpr [.opr "+", .num 1, .num 1], .qexpr [.opr "error", .str "no"]])
      = .ok (.num 2, root_env) ∧
    lval_eval H 2 root_env (.sexpr [.opr "if", .num 0,
        .qexpr [.opr "def", .qexpr [.opr "x"], .num 1], .qexpr [.opr "+", .num 2, .num 3]])
      = .ok (.num 5, root_env) := by
  refine ⟨?_, ?_, ?_, rfl, rfl⟩
  · intro ev n c1 c2 hn
    simp [builtin_if, hn]
  · intro ev c1 c2
    simp [builtin_if]
  · intro a h
    rcases h with h | ⟨c, t, f, rfl, h⟩
    · refine ⟨err_num "if" a.length 3, rfl, ?_⟩
      intro ev
      match a, h with
      | [], _ => rfl
      | [_], _ => rfl
      | [_, _], _ => rfl
      | [_, _, _], h => simp at h
      | _ :: _ :: _ :: _ :: _, _ => rfl
    · by_cases hc : c.type = .LVAL_NUM
      · by_cases ht : t.type = .LVAL_QEXPR
        · have hf : f.type ≠ .LVAL_QEXPR := by
            rcases h with h | h | h
            · exact absurd hc h
            · exact absurd ht h
            · exact h
          refine ⟨err_type "if" 2 f.type .LVAL_QEXPR, rfl, ?_⟩
          intro ev
          cases c <;> simp only [Lval.type] at hc <;> try cases hc
          cases t <;> simp only [Lval.type] at ht <;> try cases ht
          cases f <;> first | rfl | exact absurd rfl hf
        · refine ⟨err_type "if" 1 t.type .LVAL_QEXPR, rfl, ?_⟩
          intro ev
          cases c <;> simp only [Lval.type] at hc <;> try cases hc
          cases t <;> first | rfl | exact absurd rfl ht
      · refine ⟨err_type "if" 0 c.type .LVAL_NUM, rfl, ?_⟩
        intro ev
        cases c <;> first | rfl | exact absurd rfl hc

/-- C18: `lval_eq` is reflexive, symmetric and transitive (on all values, the
Functions included); values of different types are not equal, in particular an
S-expression and a Q-expression, whatever their cells, and `== 1 "1"` is 0; two
lists of the same tag are equal iff they have the same length and equal cells
at every index. -/
theorem C18_lval_eq (H : Host) :
    (∀ x : Lval, lval_eq x x = true) ∧
    (∀ x y : Lval, lval_eq x y = lval_eq y x) ∧
    (∀ x y z : Lval, lval_eq x y = true → lval_eq y z = true → lval_eq x z = true) ∧
    (∀ x y : Lval, x.type ≠ y.type → lval_eq x y = false) ∧
    (∀ xs ys : List Lval, lval_eq (.sexpr xs) (.qexpr ys) = false ∧
      lval_eq (.qexpr xs) (.sexpr ys) = false) ∧
    (∀ xs ys : List Lval,
      (lval_eq (.sexpr xs) (.sexpr ys) = true ↔
        xs.length = ys.length ∧
          ∀ (i : Nat) (x y : Lval), xs[i]? = some x → ys[i]? = some y → lval_eq x y = true) ∧
      (lval_eq (.qexpr xs) (.qexpr ys) = true ↔
        xs.length = ys.length ∧
          ∀ (i : Nat) (x y : Lval), xs[i]? = some x → ys[i]? = some y → lval_eq x y = true)) ∧
    lval_eq (.num 1) (.str "1") = false ∧
    lval_eval H 1 root_env (.sexpr [.opr "==", .num 1, .str "1"]) = .ok (.num 0, root_env) := by
  refine ⟨lval_eq_refl, lval_eq_symm, lval_eq_trans, lval_eq_of_type_ne, ?_, ?_, rfl, rfl⟩
  · intro xs ys
    exact ⟨by simp [lval_eq], by simp [lval_eq]⟩
  · intro xs ys
    exact ⟨by simp only [lval_eq]; exact lval_eq_cells_iff xs ys,
      by simp only [lval_eq]; exact lval_eq_cells_iff xs ys⟩

/-- C19: `==` returns 1 if `lval_eq` holds of its two arguments and 0 otherwise,
`!=` the opposite; on two Numbers `>`, `<`, `>=`, `<=` return 1 if the relation
holds and 0 otherwise; the four ordering builtins return an Error when one of
two arguments is not a Number; and all six return an Error when the number of
arguments is not two.  None changes the environment. -/
theorem C19_comparisons (H : Host) (ev : Eval) (e : Lenv) :
    (∀ x y : Lval,
      call_builtin H ev .eq e [x, y] = .ok (.num (if lval_eq x y = true then 1 else 0), e) ∧
      call_builtin H ev .ne e [x, y] = .ok (.num (if lval_eq x y = true then 0 else 1), e)) ∧
    (∀ a b : Int,
      call_builtin H ev .gt e [.num a, .num b] = .ok (.num (if a > b then 1 else 0), e) ∧
      call_builtin H ev .lt e [.num a, .num b] = .ok (.num (if a < b then 1 else 0), e) ∧
      call_builtin H ev .ge e [.num a, .num b] = .ok (.num (if a ≥ b then 1 else 0), e) ∧
      call_builtin H ev .le e [.num a, .num b] = .ok (.num (if a ≤ b then 1 else 0), e)) ∧
    (∀ (b : Builtin) (x y : Lval), b ∈ [Builtin.gt, .lt, .ge, .le] →
      x.type ≠ .LVAL_NUM ∨ y.type ≠ .LVAL_NUM →
      ∃ er : Lval, er.type = .LVAL_ERR ∧ call_builtin H ev b e [x, y] = .ok (er, e)) ∧
    (∀ (b : Builtin) (a : List Lval), b ∈ [Builtin.eq, .ne, .gt, .lt, .ge, .le] →
      a.length ≠ 2 →
      ∃ er : Lval, er.type = .LVAL_ERR ∧ call_builtin H ev b e a = .ok (er, e)) := by
  refine ⟨?_, ?_, ?_, ?_⟩
  · intro x y
    constructor
    · simp only [call_builtin, builtin_cmp, if_true, lval_truth, pure_builtin]
    · simp only [call_builtin, builtin_cmp, show ¬ ("!=" = "==") by decide, if_false, if_true,
        lval_truth, pure_builtin]
      cases lval_eq x y <;> rfl
  · intro a b
    refine ⟨?_, ?_, ?_, ?_⟩
    · simp only [call_builtin, builtin_ord, if_true, lval_truth, pure_builtin]
      by_cases h : a > b <;> simp [h]
    · simp only [call_builtin, builtin_ord, show ¬ ("<" = ">") by decide, if_false, if_true,
        lval_truth, pure_builtin]
      by_cases h : a < b <;> simp [h]
    · simp only [call_builtin, builtin_ord, show ¬ (">=" = ">") by decide,
        show ¬ (">=" = "<") by decide, if_false, if_true, lval_truth, pure_builtin]
      by_cases h : a ≥ b <;> simp [h]
    · simp only [call_builtin, builtin_ord, show ¬ ("<=" = ">") by decide,
        show ¬ ("<=" = "<") by decide, show ¬ ("<=" = ">=") by decide, if_false, if_true,
        lval_truth, pure_builtin]
      by_cases h : a ≤ b <;> simp [h]
  · intro b x y hb h
    simp only [List.mem_cons, List.mem_singleton, List.not_mem_nil, or_false] at hb
    rcases hb with rfl | rfl | rfl | rfl <;>
    · simp only [call_builtin]
      obtain ⟨er, h1, h2⟩ := builtin_ord_type x y _ h
      exact ⟨er, h1, by rw [h2]; rfl⟩
  · intro b a hb h
    simp only [List.mem_cons, List.mem_singleton, List.not_mem_nil, or_false] at hb
    rcases hb with rfl | rfl | rfl | rfl | rfl | rfl
    · exact ⟨_, err_num_type "==" a.length 2, by
        simp only [call_builtin, builtin_cmp_arity a _ h]; rfl⟩
    · exact ⟨_, err_num_type "!=" a.length 2, by
        simp only [call_builtin, builtin_cmp_arity a _ h]; rfl⟩
    · exact ⟨_, err_num_type ">" a.length 2, by
        simp only [call_builtin, builtin_ord_arity a _ h]; rfl⟩
    · exact ⟨_, err_num_type "<" a.length 2, by
        simp only [call_builtin, builtin_ord_arity a _ h]; rfl⟩
    · exact ⟨_, err_num_type ">=" a.length 2, by
        simp only [call_builtin, builtin_ord_arity a _ h]; rfl⟩
    · exact ⟨_, err_num_type "<=" a.length 2, by
        simp only [call_builtin, builtin_ord_arity a _ h]; rfl⟩

/-- C20, the code at the failing inputs: `not 1 2 3` returns the Number 0, not an
Error, because the arity assertion of `not` is made only when the count is 2;
`and 0 "x"` and `or 1 "x"` return Numbers and `not "x"` reads a field that was
never set, because `builtin_logop` makes no type assertion.  On Numbers of the
right count `and`, `or`, `not` are as the claim says. -/
theorem C20_logop (H : Host) :
    builtin_logop [.num 1, .num 2, .num 3] "not" = .ok (.num 0) ∧
    lval_eval H 1 root_env (.sexpr [.opr "not", .num 1, .num 2, .num 3])
      = .ok (.num 0, root_env) ∧
    lval_eval H 1 root_env (.sexpr [.opr "and", .num 0, .str "x"]) = .ok (.num 0, root_env) ∧
    lval_eval H 1 root_env (.sexpr [.opr "or", .num 1, .str "x"]) = .ok (.num 1, root_env) ∧
    lval_eval H 1 root_env (.sexpr [.opr "not", .str "x"]) = .error .undefined ∧
    lval_eval H 1 root_env (.sexpr [.opr "not", .num 1, .num 2])
      = .ok (.err "Function 'not' passed incorrect number of arguments. Got 2, Expected 1.",
          root_env) ∧
    (∀ a b : Int,
      builtin_logop [.num a, .num b] "and" = .ok (.num (if a ≠ 0 ∧ b ≠ 0 then 1 else 0)) ∧
      builtin_logop [.num a, .num b] "or" = .ok (.num (if a ≠ 0 ∨ b ≠ 0 then 1 else 0)) ∧
      builtin_logop [.num a] "not" = .ok (.num (if a = 0 then 1 else 0))) := by
  refine ⟨rfl, rfl, rfl, rfl, rfl, rfl, ?_⟩
  intro a b
  refine ⟨?_, ?_, ?_⟩
  · by_cases ha : a = 0 <;> by_cases hb : b = 0 <;>
      simp [builtin_logop, lval_truth, ha, hb]
  · by_cases ha : a = 0 <;> by_cases hb : b = 0 <;>
      simp [builtin_logop, lval_truth, ha, hb]
  · by_cases ha : a = 0 <;> simp [builtin_logop, lval_truth, ha]

/-- C21: on one non-empty Q-expression `{x1 .. xn}`, `head` returns `{x1}` and
`tail` returns `{x2 .. xn}`; each returns a value on every argument list, which
is an Error exactly when the argument count is not 1, the argument is not a
Q-expression, or the Q-expression is empty; and `head {}` is the Error
"Function 'head' passed {} for argument 0.". -/
theorem C21_head_tail (H : Host) :
    (∀ (x : Lval) (xs : List Lval),
      builtin_head [.qexpr (x :: xs)] = .ok (.qexpr [x]) ∧
      builtin_tail [.qexpr (x :: xs)] = .ok (.qexpr xs)) ∧
    (∀ a : List Lval, ∃ r1 r2, builtin_head a = .ok r1 ∧ builtin_tail a = .ok r2 ∧
      (r1.type = .LVAL_ERR ↔
        (a.length ≠ 1 ∨ ∃ x, a = [x] ∧ (x.type ≠ .LVAL_QEXPR ∨ x = .qexpr []))) ∧
      (r2.type = .LVAL_ERR ↔
        (a.length ≠ 1 ∨ ∃ x, a = [x] ∧ (x.type ≠ .LVAL_QEXPR ∨ x = .qexpr [])))) ∧
    builtin_head [.qexpr []] = .ok (.err "Function 'head' passed \x7b\x7d for argument 0.") ∧
    lval_eval H 1 root_env (.sexpr [.opr "head", .qexpr []])
      = .ok (.err "Function 'head' passed \x7b\x7d for argument 0.", root_env) ∧
    lval_eval H 1 root_env (.sexpr [.opr "head", .qexpr [.num 1, .num 2, .num 3]])
      = .ok (.qexpr [.num 1], root_env) ∧
    lval_eval H 1 root_env (.sexpr [.opr "tail", .qexpr [.num 1, .num 2, .num 3]])
      = .ok (.qexpr [.num 2, .num 3], root_env) := by
  refine ⟨fun x xs => ⟨rfl, rfl⟩, ?_, rfl, rfl, rfl, rfl⟩
  intro a
  by_cases hl : a.length = 1
  · obtain ⟨x, rfl⟩ := List.length_eq_one.1 hl
    by_cases hx : x.type = .LVAL_QEXPR
    · cases x <;> simp only [Lval.type] at hx <;> try cases hx
      rename_i c
      cases c with
      | nil =>
        refine ⟨_, _, rfl, rfl, ?_, ?_⟩ <;>
          simp [err_empty_type]
      | cons y ys =>
        refine ⟨_, _, rfl, rfl, ?_, ?_⟩ <;>
          simp [Lval.type]
    · refine ⟨_, _, builtin_head_type x hx, builtin_tail_type x hx, ?_, ?_⟩ <;>
        simp [err_type_type, hx]
  · refine ⟨_, _, builtin_head_arity a hl, builtin_tail_arity a hl, ?_, ?_⟩ <;>
      simp [err_num_type, hl]

/-- C22: on `k >= 1` Q-expressions `join` returns the Q-expression of the cells of
the first, then of the second, and so on, whose length is the sum of the
lengths; `join (head q) (tail q)` is `q` for a non-empty Q-expression `q`; when
some argument is not a Q-expression the result is an Error, the type Error of
`LASSERT_TYPE` for the first such index.  `join {a} {b} {c}` is `{a b c}`. -/
theorem C22_join (H : Host) :
    (∀ qs : List (List Lval), qs ≠ [] →
      builtin_join (qs.map .qexpr) = .ok (.qexpr qs.flatten) ∧
      qs.flatten.length = (qs.map List.length).sum) ∧
    (∀ (x : Lval) (xs : List Lval), ∃ h t, builtin_head [.qexpr (x :: xs)] = .ok h ∧
      builtin_tail [.qexpr (x :: xs)] = .ok t ∧
      builtin_join [h, t] = .ok (.qexpr (x :: xs))) ∧
    (∀ a : List Lval, (∃ x ∈ a, x.type ≠ .LVAL_QEXPR) →
      ∃ er : Lval, er.type = .LVAL_ERR ∧ builtin_join a = .ok er) ∧
    (∀ (a : List Lval) (i : Nat) (x : Lval), a[i]? = some x → x.type ≠ .LVAL_QEXPR →
      (∀ j y, j < i → a[j]? = some y → y.type = .LVAL_QEXPR) →
      builtin_join a = .ok (err_type "join" i x.type .LVAL_QEXPR)) ∧
    lval_eval H 1 root_env (.sexpr [.opr "join", .qexpr [.opr "a"], .qexpr [.opr "b"],
        .qexpr [.opr "c"]])
      = .ok (.qexpr [.opr "a", .opr "b", .opr "c"], root_env) := by
  refine ⟨?_, ?_, ?_, ?_, rfl⟩
  · intro qs hne
    obtain ⟨q, r, rfl⟩ := List.exists_cons_of_ne_nil hne
    have hc : check_types "join" .LVAL_QEXPR 0 ((q :: r).map Lval.qexpr) = none := by
      rw [check_types_eq_none]
      intro x hx
      obtain ⟨c, _, rfl⟩ := List.mem_map.1 hx
      rfl
    refine ⟨?_, List.length_flatten _⟩
    simp only [builtin_join, hc]
    simp only [List.map_cons, builtin_join_loop_qexpr, List.flatten_cons]
  · intro x xs
    refine ⟨_, _, rfl, rfl, ?_⟩
    simp [builtin_join, check_types, Lval.type, builtin_join_loop, lval_join_qexpr]
  · intro a h
    cases hc : check_types "join" .LVAL_QEXPR 0 a with
    | none =>
      obtain ⟨x, hx, hne⟩ := h
      exact absurd (check_types_eq_none.1 hc x hx) hne
    | some er => exact ⟨er, check_types_eq_some hc, by simp only [builtin_join, hc]⟩
  · intro a i x hx hty hbefore
    have hc := check_types_first_bad "join" .LVAL_QEXPR a 0 i x hx hty hbefore
    simp only [Nat.zero_add] at hc
    simp only [builtin_join, hc]

/-- C24: given two Q-expressions of which every cell of the first is a Symbol, the
lambda constructor returns the lambda with the first as formals, the second as
body and a captured environment with no binding and no parent; on every
argument list it returns a value, which is a Function exactly in that case and
an Error otherwise. -/
theorem C24_builtin_lambda (H : Host) :
    (∀ fs bs : List Lval, (∀ c ∈ fs, c.type = .LVAL_OPR) →
      builtin_lambda [.qexpr fs, .qexpr bs] = .ok (.lambda (.mk none []) (.qexpr fs) (.qexpr bs))) ∧
    (∀ a : List Lval, ∃ r, builtin_lambda a = .ok r ∧
      (r.type = .LVAL_FUN ↔
        ∃ fs bs, a = [.qexpr fs, .qexpr bs] ∧ ∀ c ∈ fs, c.type = .LVAL_OPR) ∧
      (r.type ≠ .LVAL_FUN → r.type = .LVAL_ERR)) ∧
    lval_eval H 1 root_env (.sexpr [.opr "\\", .qexpr [.opr "x", .num 1], .qexpr [.opr "x"]])
      = .ok (.err "Cannot define non-operator! Got Number, Expected Operator.", root_env) := by
  have hgood : ∀ fs bs : List Lval, (∀ c ∈ fs, c.type = .LVAL_OPR) →
      builtin_lambda [.qexpr fs, .qexpr bs] =
        .ok (.lambda (.mk none []) (.qexpr fs) (.qexpr bs)) := by
    intro fs bs hall
    have hc := (@check_oprs_eq_none (fun t => lval_err ("Cannot define non-operator! Got "
      ++ ltype_name t ++ ", Expected " ++ ltype_name .LVAL_OPR ++ ".")) fs).2 hall
    simp only [builtin_lambda, Lval.type, Lval.cell, ne_eq, not_true_eq_false, if_false, hc]
    rfl
  refine ⟨hgood, ?_, rfl⟩
  intro a
  match a with
  | [] => exact ⟨_, rfl, by simp [err_num_type], fun _ => rfl⟩
  | [_] => exact ⟨_, rfl, by simp [err_num_type], fun _ => rfl⟩
  | _ :: _ :: _ :: _ => exact ⟨_, rfl, by simp [err_num_type], fun _ => rfl⟩
  | [f, b] =>
    by_cases hf : f.type = .LVAL_QEXPR
    · by_cases hb : b.type = .LVAL_QEXPR
      · cases f <;> simp only [Lval.type] at hf <;> try cases hf
        cases b <;> simp only [Lval.type] at hb <;> try cases hb
        rename_i fs bs
        cases hc : check_oprs (fun t => lval_err ("Cannot define non-operator! Got "
            ++ ltype_name t ++ ", Expected " ++ ltype_name .LVAL_OPR ++ ".")) fs with
        | none =>
          have hall := check_oprs_eq_none.1 hc
          refine ⟨_, hgood fs bs hall, ?_, ?_⟩
          · simp only [Lval.type, true_iff]
            exact ⟨fs, bs, rfl, hall⟩
          · intro h; exact absurd rfl h
        | some er =>
          have het := check_oprs_lval_err_type hc
          have hne : ¬ ∀ c ∈ fs, c.type = .LVAL_OPR := by
            rw [← check_oprs_eq_none, hc]; simp
          refine ⟨er, ?_, ?_, fun _ => het⟩
          · simp only [builtin_lambda, Lval.type, Lval.cell, ne_eq, not_true_eq_false, if_false,
              hc]
          · rw [het]
            constructor
            · intro h; cases h
            · rintro ⟨fs2, bs2, h1, h2⟩
              simp only [List.cons.injEq, Lval.qexpr.injEq, and_true] at h1
              obtain ⟨rfl, rfl⟩ := h1
              exact absurd h2 hne
      · refine ⟨err_type "\\" 1 b.type .LVAL_QEXPR, ?_, ?_, fun _ => rfl⟩
        · simp only [builtin_lambda, hf, hb, ne_eq, not_true_eq_false, not_false_eq_true,
            if_false, if_true]
        · rw [err_type_type]
          constructor
          · intro h; cases h
          · rintro ⟨fs2, bs2, h1, _⟩
            simp only [List.cons.injEq, and_true] at h1
            exact absurd (by rw [h1.2]; rfl) hb
    · refine ⟨err_type "\\" 0 f.type .LVAL_QEXPR, ?_, ?_, fun _ => rfl⟩
      · simp only [builtin_lambda, hf, ne_eq, not_false_eq_true, if_true]
      · rw [err_type_type]
        constructor
        · intro h; cases h
        · rintro ⟨fs2, bs2, h1, _⟩
          simp only [List.cons.injEq, and_true] at h1
          exact absurd (by rw [h1.1]; rfl) hf

/-- C23 (amended): for a String `s` without the character `%`, `error s` returns
the Error whose message is the first 510 bytes of `s`, which is `s` itself when
`s` has at most 510 bytes; with an argument count other than 1 it returns the
arity Error and with one argument that is not a String the type Error. -/
theorem C23_builtin_error (s : String) (hs : '%' ∉ s.data) :
    builtin_error [.str s] = .ok (.err ⟨s.data.take 510⟩) ∧
    (s.length ≤ 510 → builtin_error [.str s] = .ok (.err s)) ∧
    (∀ a : List Lval, a.length ≠ 1 → builtin_error a = .ok (err_num "error" a.length 1) ∧
      (err_num "error" a.length 1).type = .LVAL_ERR) ∧
    (∀ x : Lval, x.type ≠ .LVAL_STR →
      builtin_error [x] = .ok (err_type "error" 0 x.type .LVAL_STR) ∧
      (err_type "error" 0 x.type .LVAL_STR).type = .LVAL_ERR) := by
  have h1 : builtin_error [.str s] = .ok (.err ⟨s.data.take 510⟩) := by
    simp only [builtin_error, format_noargs_plain s.data hs, lval_err]
  refine ⟨h1, ?_, ?_, ?_⟩
  · intro hl
    rw [h1]
    have : s.data.take 510 = s.data := List.take_of_length_le hl
    rw [this]
  · intro a ha
    refine ⟨?_, rfl⟩
    match a, ha with
    | [], _ => rfl
    | [_], h => simp at h
    | _ :: _ :: _, _ => rfl
  · intro x hx
    refine ⟨?_, rfl⟩
    cases x <;> first | rfl | exact absurd rfl hx

/-- The hypothesis of the theorem of C23 holds for the string `boom`. -/
theorem C23_builtin_error_witness :
    '%' ∉ ("boom" : String).data ∧ builtin_error [.str "boom"] = .ok (.err "boom") :=
  ⟨by decide, (C23_builtin_error "boom" (by decide)).2.1 (by decide)⟩

/-- C23 as stated fails for a string of 511 bytes: the message of the Error that
`error` returns is its first 510 bytes, not the string.  It fails for a string
with `%` too: `error "100%% sure"` has the message `100% sure`. -/
theorem C23_counterexample :
    (builtin_error [.str (String.mk (List.replicate 511 'a'))] =
      .ok (.err (String.mk (List.replicate 510 'a'))) ∧
    Lval.err (String.mk (List.replicate 510 'a')) ≠ .err (String.mk (List.replicate 511 'a'))) ∧
    builtin_error [.str "100%% sure"] = .ok (.err "100% sure") := by
  refine ⟨?_, rfl⟩
  constructor
  · have hp : '%' ∉ (String.mk (List.replicate 511 'a')).data := by
      intro h
      have := List.eq_of_mem_replicate h
      exact absurd this (by decide)
    have h1 : builtin_error [.str (String.mk (List.replicate 511 'a'))] =
        .ok (.err ⟨(String.mk (List.replicate 511 'a')).data.take 510⟩) := by
      simp only [builtin_error, format_noargs_plain _ hp, lval_err]
    rw [h1]
    have : (String.mk (List.replicate 511 'a')).data.take 510 = List.replicate 510 'a' := by
      show (List.replicate 511 'a').take 510 = List.replicate 510 'a'
      rw [List.take_replicate]
      rfl
    rw [this]
  · intro h
    injection h with h
    have := congrArg String.length h
    simp only [String.length, List.length_replicate] at this
    omega

/-- C25 (amended): when the values read at the prompt and the expressions of
the loaded files hold no Error at any depth, every environment that `main`
reaches holds no Error in any binding at any depth (parents and the
environments of lambdas included); and the evaluation of such a value in such an
environment leaves such an environment and returns an Error or a value that
holds no Error at any depth, so that no child at any depth of a returned list
is an Error. -/
theorem C25_no_stored_error (H : Host) (unescape : String → String)
    (hH : ∀ s exprs, H.load_file s = .ok exprs → cells_all not_err exprs = true)
    (e : Lenv) (he : Reachable H unescape (lval_all not_err) e) :
    lenv_all not_err e = true ∧
    ∀ (t : Ast) (v : Lval) (n : Nat) (r : Lval) (e1 : Lenv),
      lval_read unescape t = .ok v → lval_all not_err v = true →
      lval_eval H n e v = .ok (r, e1) →
      lenv_all not_err e1 = true ∧ (r.type = .LVAL_ERR ∨ lval_all not_err r = true) ∧
      ∀ c, r = .sexpr c ∨ r = .qexpr c → cells_all not_err c = true := by
  have h1 := reachable_keeps goodpred_not_err H unescape hH rfl (lval_all not_err)
    (fun _ _ _ hg => hg) he
  refine ⟨h1, ?_⟩
  intro t v n r e1 _ hv hev
  have h2 := lval_eval_keeps goodpred_not_err H hH n e v r e1 h1 hv hev
  refine ⟨h2.1, h2.2, ?_⟩
  intro c hc
  rcases hc with rfl | rfl
  · rcases h2.2 with h | h
    · cases h
    · rwa [lval_all_sexpr goodpred_not_err] at h
  · rcases h2.2 with h | h
    · cases h
    · rwa [lval_all_qexpr goodpred_not_err] at h

/-- The hypotheses of the theorem of C25 hold for the host whose file `lib` is
`(def {x} 1)` and the environment that loading `lib` from the root leaves. -/
theorem C25_no_stored_error_witness :
    Reachable lib_host id (lval_all not_err) (lenv_put root_env "x" (.num 1)) ∧
    lenv_all not_err (lenv_put root_env "x" (.num 1)) = true :=
  ⟨.file root_env _ "lib" (.sexpr []) 2 .root rfl,
   (C25_no_stored_error lib_host id
      (fun s exprs h => by
        simp only [lib_host] at h
        split at h
        · cases h; rfl
        · cases h)
      _ (.file root_env _ "lib" (.sexpr []) 2 .root rfl)).1⟩

/-- C25 as stated fails for the line `{99999999999999999999}`: the reader
returns a Q-expression whose child is the Error `Invalid number.`, evaluation
returns that list, and `def {x} {99999999999999999999}` stores it in the root
environment. -/
theorem C25_counterexample :
    lval_read id big_literal_ast = .ok (.sexpr [.qexpr [.err "Invalid number."]]) ∧
    lval_eval stub_host 1 root_env (.sexpr [.qexpr [.err "Invalid number."]]) =
      .ok (.qexpr [.err "Invalid number."], root_env) ∧
    lval_read id big_literal_def_ast =
      .ok (.sexpr [.opr "def", .qexpr [.opr "x"], .qexpr [.err "Invalid number."]]) ∧
    lval_eval stub_host 1 root_env
        (.sexpr [.opr "def", .qexpr [.opr "x"], .qexpr [.err "Invalid number."]]) =
      .ok (.sexpr [], lenv_put root_env "x" (.qexpr [.err "Invalid number."])) ∧
    Reachable stub_host id (fun _ => true)
      (lenv_put root_env "x" (.qexpr [.err "Invalid number."])) ∧
    lenv_get (lenv_put root_env "x" (.qexpr [.err "Invalid number."])) "x" =
      .qexpr [.err "Invalid number."] ∧
    lval_all not_err (.qexpr [.err "Invalid number."]) = false ∧
    lenv_all not_err (lenv_put root_env "x" (.qexpr [.err "Invalid number."])) = false :=
  ⟨rfl, rfl, rfl, rfl, .line root_env _ big_literal_def_ast _ (.sexpr []) 1 .root rfl rfl rfl, rfl,
    rfl, rfl⟩

set_option maxRecDepth 100000 in
/-- C26: evaluating `def {fact} (\ {n} {if (<= n 0) {1} {* n (fact (- n 1))}})`
in the root environment returns `()` and leaves an environment `r1` in which,
with fuel 70, `fact n` evaluates to the Number `n!` for every `0 ≤ n ≤ 20` and
to `1` for every `n < 0`, leaving `r1` as it was; `fact 5` is `120`. -/
theorem C26_fact (H : Host) :
    ∃ r1 : Lenv, lval_eval H 3 root_env fact_def = .ok (.sexpr [], r1) ∧
      (∀ n : Int, 0 ≤ n → n ≤ 20 →
        lval_eval H 70 r1 (fact_call n) = .ok (.num (n.toNat.factorial : Nat), r1)) ∧
      (∀ n : Int, n < 0 → lval_eval H 70 r1 (fact_call n) = .ok (.num 1, r1)) ∧
      lval_eval H 70 r1 (fact_call 5) = .ok (.num 120, r1) := by
  refine ⟨_, rfl, ?_, ?_, rfl⟩
  · intro n h0 h20
    obtain ⟨k, rfl⟩ := Int.eq_ofNat_of_zero_le h0
    have hk : k ≤ 20 := by omega
    interval_cases k <;> rfl
  · intro n hn
    obtain ⟨m, rfl⟩ := Int.eq_negSucc_of_lt_zero hn
    rfl

/-- The hypotheses of the theorem of C26 hold for `n = 20` and for `n = -3`:
`fact 20` is `2432902008176640000` and `fact -3` is `1`. -/
theorem C26_fact_witness :
    ∃ r1 : Lenv, lval_eval stub_host 3 root_env fact_def = .ok (.sexpr [], r1) ∧
      lval_eval stub_host 70 r1 (fact_call 20) = .ok (.num 2432902008176640000, r1) ∧
      lval_eval stub_host 70 r1 (fact_call (-3)) = .ok (.num 1, r1) :=
  match C26_fact stub_host with
  | ⟨r1, h0, h1, h2, _⟩ => ⟨r1, h0, h1 20 (by decide) (by decide), h2 (-3) (by decide)⟩

/-- C27: in every environment that `main` reaches by evaluating lines and
loading files of reader output, no lambda at any depth has a captured
environment with a parent, in particular no bound lambda; evaluating a line
there leaves such an environment and returns a value with no such lambda, in
particular a returned lambda has a parentless environment; every evaluation,
nested ones in a call scope included, keeps this.  The lambda that the call
`(\ {x} {\ {y} {+ x y}}) 1` creates has the empty environment `lenv_new`, so
that applying it to `2` finds `x` unbound. -/
theorem C27_lambda_env_no_parent (H : Host) (unescape : String → String)
    (hH : ∀ s exprs, H.load_file s = .ok exprs →
      ∃ t, lval_read unescape t = .ok (.sexpr exprs))
    (e : Lenv) (he : Reachable H unescape (fun _ => true) e) :
    lenv_all no_par e = true ∧
    (∀ (k : String) (env : Lenv) (f b : Lval),
      (k, Lval.lambda env f b) ∈ e.binds → env.par = none) ∧
    (∀ (t : Ast) (v : Lval) (n : Nat) (r : Lval) (e1 : Lenv),
      lval_read unescape t = .ok v → lval_eval H n e v = .ok (r, e1) →
      lenv_all no_par e1 = true ∧ lval_all no_par r = true ∧
      ∀ (env : Lenv) (f b : Lval), r = .lambda env f b → env.par = none) ∧
    (∀ n : Nat, Keeps no_par (lval_eval H n)) ∧
    lval_eval H 3 root_env make_adder_call =
      .ok (.lambda lenv_new (.qexpr [.opr "y"]) (.qexpr [.opr "+", .opr "x", .opr "y"]),
        root_env) ∧
    lval_eval H 4 root_env (.sexpr [make_adder_call, .num 2]) =
      .ok (lval_err "Unbound operator 'x'!", root_env) := by
  have hF := files_no_par hH
  have h1 := reachable_keeps goodpred_no_par H unescape hF rfl (fun _ => true)
    (fun t v hr _ => lval_read_no_par unescape t v hr) he
  refine ⟨h1, ?_, ?_, lval_eval_keeps goodpred_no_par H hF, rfl, rfl⟩
  · intro k env f b hm
    exact lval_all_no_par_lambda (binds_all_mem (lenv_all_binds h1) hm)
  · intro t v n r e1 hr hev
    have h2 := lval_eval_keeps goodpred_no_par H hF n e v r e1 h1
      (lval_read_no_par unescape t v hr) hev
    refine ⟨h2.1, okv_no_par h2.2, ?_⟩
    intro env f b hrl
    subst hrl
    exact lval_all_no_par_lambda (okv_no_par h2.2)

/-- The hypotheses of the theorem of C27 hold for the host whose file `lib` is
`(def {x} 1)`, read from `lib_ast`, and the environment that loading `lib` from
the root leaves. -/
theorem C27_lambda_env_no_parent_witness :
    Reachable lib_host id (fun _ => true) (lenv_put root_env "x" (.num 1)) ∧
    lenv_all no_par (lenv_put root_env "x" (.num 1)) = true :=
  ⟨.file root_env _ "lib" (.sexpr []) 2 .root rfl,
   (C27_lambda_env_no_parent lib_host id
      (fun s exprs h => by
        simp only [lib_host] at h
        split at h
        · cases h; exact ⟨lib_ast, rfl⟩
        · cases h)
      _ (.file root_env _ "lib" (.sexpr []) 2 .root rfl)).1⟩


end Lispi
